import Mathlib

/-! # Artisanal-Dapp: the React client

A shallow embedding of the item read paths of the front end
(`pages/Marketplace.js`, `pages/ArtisanDashboard.js`, `pages/NFTDetails.js`,
`components/NFTMarketplace.js`, `components/MyCollection.js`,
`components/NFTCard.js`), of the session (`context/Web3Context.js`) and of
the metadata service (`services/ipfs.js`), together with the two `ethers` v6
unit helpers they call (`formatEther`, `parseEther`).

Conventions of the embedding.

* An `await`ed call that may reject is a value of `Except String α`; the
  string is the error message. A `try { … } catch` is a `match` on it.
* A ledger state is a `Contract`: the answers the ledger gives to the read
  calls during one pass. The content store is a function from the requested
  URL to the outcome of `fetch`.
* JavaScript strings are Lean `String`s, JavaScript `Number`s are exact
  rationals or `NaN` (`JsNumber`); rounding to IEEE-754 doubles is not part of
  the model. Loop counters and ledger integers are `Nat`.
-/

deriving instance DecidableEq for Except

namespace ArtisanDapp

/-! ## JavaScript values -/

/-- A JavaScript `Number`: `NaN` or an exact rational value. -/
inductive JsNumber where
  | nan : JsNumber
  | val (q : ℚ) : JsNumber
  deriving DecidableEq

/-- A JavaScript value as it can sit in a field of a record or of a parsed
JSON object. Arrays and nested objects are not inspected by the client, so
they are the single constructor `object`. -/
inductive JsVal where
  | undefined : JsVal
  | null : JsVal
  | bool (b : Bool) : JsVal
  | num (x : JsNumber) : JsVal
  | str (s : String) : JsVal
  | object : JsVal
  deriving DecidableEq

/-- JavaScript truthiness (`ToBoolean`). -/
def JsVal.truthy : JsVal → Bool
  | .undefined => false
  | .null => false
  | .bool b => b
  | .num .nan => false
  | .num (.val q) => decide (q ≠ 0)
  | .str s => decide (s ≠ "")
  | .object => true

/-- The JavaScript operator `a || b`: `a` when it is truthy, otherwise `b`. -/
def JsVal.or (a b : JsVal) : JsVal :=
  if a.truthy then a else b

/-- A value returned by `response.json()`: a parsed JSON document. Only the
top-level properties of an object are looked at; `fields` lists them, each
name once. -/
inductive Json where
  | null : Json
  | bool (b : Bool) : Json
  | num (q : ℚ) : Json
  | str (s : String) : Json
  | arr : Json
  | obj (fields : List (String × JsVal)) : Json
  deriving DecidableEq

/-- Property read `j.key` on a non-null parsed JSON value. Primitives and
arrays have none of the properties the client reads (`name`, `description`,
`image`), so the read gives `undefined`. -/
def Json.prop (j : Json) (key : String) : JsVal :=
  match j with
  | .obj fields => (fields.lookup key).getD .undefined
  | _ => .undefined

/-- Optional chaining `j?.key`: `undefined` when `j` is `null`. -/
def Json.optProp (j : Json) (key : String) : JsVal :=
  match j with
  | .null => .undefined
  | _ => j.prop key

/-- The method `String.prototype.startsWith`. -/
def startsWith (s pre : String) : Bool :=
  pre.data.isPrefixOf s.data

/-- The method `String.prototype.replace(pattern, replacement)` with a string pattern:
only the first occurrence is replaced. -/
def replaceFirstChars (pat rep : List Char) : List Char → List Char
  | [] => if pat = [] then rep else []
  | c :: cs =>
    if pat.isPrefixOf (c :: cs) then rep ++ (c :: cs).drop pat.length
    else c :: replaceFirstChars pat rep cs

/-- The call `s.replace(pat, rep)` on strings. -/
def replaceFirst (s pat rep : String) : String :=
  ⟨replaceFirstChars pat.data rep.data s.data⟩

/-- The method `String.prototype.toLowerCase` on the ASCII range (ledger addresses are
`0x` followed by hexadecimal digits). -/
def toLowerCase (s : String) : String :=
  ⟨s.data.map Char.toLower⟩

/-! ## The ledger and the content store -/

/-- The tuple returned by `getItemMetadata`: the pages read it by position
(`[0]`..`[3]`), the components by the names the contract interface gives the
outputs (`description`, `materials`, `artisanDetails`). -/
structure ItemMetadata where
  description : String
  materials : String
  artisanDetails : String
  creationDate : Nat
  deriving DecidableEq

/-- One ledger state as seen through the contract handle: the outcome of
each read call. Amounts are Solidity `uint256` values. -/
structure Contract where
  totalSupply : Except String Nat
  ownerOf : Nat → Except String String
  tokenURI : Nat → Except String String
  isForSale : Nat → Except String (Bool × Nat)
  getItemMetadata : Nat → Except String ItemMetadata

/-- Every sale price the ledger reports fits a `uint256`. -/
def Contract.PricesFit (c : Contract) : Prop :=
  ∀ (i : Nat) (b : Bool) (p : Nat), c.isForSale i = .ok (b, p) → p < 2 ^ 256

/-- A received HTTP response: its status and the outcome of `response.json()`. -/
structure Response where
  status : Nat
  json : Except String Json

/-- The flag `response.ok`: the status is in the range 200–299. -/
def Response.ok (r : Response) : Bool :=
  decide (200 ≤ r.status) && decide (r.status ≤ 299)

/-- What a page reads besides the ledger: the outcome of `fetch` for each
URL, and the locale rendering of
`new Date(seconds * 1000).toLocaleDateString()`. -/
structure World where
  fetch : String → Except String Response
  localeDate : Nat → String

/-! ## `ethers` v6 unit helpers

`ethers.formatEther` and `ethers.parseEther` are library functions (package
`ethers`, version 6, `utils/units` and `utils/fixednumber`), not code of the
repository. They are embedded here step by step after the library:
`formatEther(v)` is `FixedNumber.fromValue(v, 18, {decimals: 18, width: 512})
.toString()` and `parseEther(s)` is
`FixedNumber.fromString(s, {decimals: 18, width: 512}).value`. -/

namespace Ethers

/-- The library constant `Zeros`: `"0000"` doubled until it is at least 80
characters long, that is 128 zeros. -/
def Zeros : List Char := List.replicate 128 '0'

/-- The loop `while (str[0] === "0" && str[1] !== ".") str = str.substring(1)`. -/
def stripZeros : List Char → List Char
  | [] => []
  | c :: rest => if c = '0' ∧ rest.head? ≠ some '.' then stripZeros rest else c :: rest

/-- The loop `while (str.length <= decimals) str = Zeros + str`; every round
adds 128 characters, so `decimals + 1` rounds of fuel are never used up. -/
def padWhole (decimals : Nat) : Nat → List Char → List Char
  | 0, str => str
  | fuel + 1, str =>
    if str.length ≤ decimals then padWhole decimals fuel (Zeros ++ str) else str

/-- The library function `toString(val, decimals)` of `fixednumber` for a
non-negative `val`: pad to a whole digit, insert the decimal point, trim the
whole part and then the decimal part, each down to at least one digit. The
trailing trim is the leading trim on the reversed string. -/
def toStringFixed (val decimals : Nat) : List Char :=
  let str := Nat.toDigits 10 val
  if decimals = 0 then str else
  let str := padWhole decimals (decimals + 1) str
  let index := str.length - decimals
  let str := str.take index ++ '.' :: str.drop index
  let str := stripZeros str
  (stripZeros str.reverse).reverse

/-- The range assertion of the library function `checkValue` for a signed
format of the given width, as `fromValue` and `fromString` use it (both keep
the value they passed in): a value outside `[-limit, limit)`,
`limit = 1 << (width - 1)`, raises "overflow". The two comparisons are made
on the magnitude, by sign: `n < limit` for `n ≥ 0`, and `-(n + 1) ≥ -limit`,
that is `n < limit`, for a negative value `-(n + 1)`. -/
def checkValue (val : Int) (width : Nat) : Except String Int :=
  let limit : Nat := 1 <<< (width - 1)
  match val with
  | Int.ofNat n => if n < limit then .ok val else .error "overflow"
  | Int.negSucc n => if n < limit then .ok val else .error "overflow"

/-- The function `ethers.formatEther` on a non-negative amount (ledger
amounts are unsigned). -/
def formatEther (value : Nat) : Except String String :=
  match checkValue value 512 with
  | .ok _ => .ok ⟨toStringFixed value 18⟩
  | .error e => .error e

/-- The value `BigInt(s)` of a string of decimal digits. -/
def digitsVal (s : List Char) : Nat :=
  s.foldl (fun a c => 10 * a + (c.toNat - 48)) 0

/-- The match of `/^(-?)([0-9]*)\.?([0-9]*)$/`: the sign flag, the whole
digits and the decimal digits, or `none` when the string does not match. -/
def matchFixed (s : List Char) : Option (Bool × List Char × List Char) :=
  let neg := s.head? = some '-'
  let rest := if neg then s.drop 1 else s
  let whole := rest.takeWhile Char.isDigit
  let rest := rest.dropWhile Char.isDigit
  let rest := if rest.head? = some '.' then rest.drop 1 else rest
  if rest.all Char.isDigit then some (neg, whole, rest) else none

/-- The loop `while (decimal.length < decimals) decimal += Zeros`. -/
def padDecimal (decimals : Nat) : Nat → List Char → List Char
  | 0, d => d
  | fuel + 1, d =>
    if d.length < decimals then padDecimal decimals fuel (d ++ Zeros) else d

/-- The library function `FixedNumber.fromString` followed by `.value`. -/
def fromStringFixed (s : List Char) (decimals width : Nat) : Except String Int :=
  match matchFixed s with
  | none => .error "invalid FixedNumber string value"
  | some (neg, w, d) =>
    if w.length + d.length = 0 then .error "invalid FixedNumber string value" else
    let whole := if w = [] then ['0'] else w
    let decimal := padDecimal decimals (decimals + 1) d
    if (decimal.drop decimals).all (fun c => c = '0') then
      let decimal := decimal.take decimals
      let mag : Int := digitsVal (whole ++ decimal)
      checkValue (if neg then -mag else mag) width
    else .error "too many decimals for format"

/-- The function `ethers.parseEther`. -/
def parseEther (s : String) : Except String Int :=
  fromStringFixed s.data 18 512

end Ethers

/-- The conversion `Number(s)` on an unsigned decimal literal without
exponent (`"12"`, `"1.5"`, `".5"`, `"3."`) and on the empty string; every other
string gives `NaN` here (signs, white space, exponents, hexadecimal and
`Infinity` are left out: `formatEther` of an unsigned amount never produces
them). -/
def numberOfString (s : String) : JsNumber :=
  let w := s.data.takeWhile Char.isDigit
  match s.data.dropWhile Char.isDigit with
  | [] => .val (Ethers.digitsVal w)
  | c :: f =>
    if c = '.' ∧ f.all Char.isDigit ∧ 0 < w.length + f.length then
      .val ((Ethers.digitsVal (w ++ f) : ℚ) / 10 ^ f.length)
    else .nan

/-! ## Records -/

/-- The record built by `fetchNFTData` in `pages/Marketplace.js` and in
`pages/ArtisanDashboard.js`, the `nft` prop of `NFTCard`. -/
structure NFT where
  id : Nat
  owner : String
  name : JsVal
  description : JsVal
  image : JsVal
  materials : JsVal
  artisanDetails : JsVal
  creationDate : String
  isForSale : Bool
  price : JsNumber
  deriving DecidableEq

/-- The record pushed by `loadNFTs` in `components/NFTMarketplace.js`. -/
structure MarketItem where
  tokenId : String
  owner : String
  tokenURI : String
  isForSale : Bool
  price : String
  description : JsVal
  materials : JsVal
  artisanDetails : JsVal
  name : JsVal
  image : JsVal
  deriving DecidableEq

/-- The record pushed by `loadMyNFTs` in `components/MyCollection.js`. -/
structure CollectionItem where
  tokenId : String
  tokenURI : String
  isForSale : Bool
  price : String
  description : JsVal
  materials : JsVal
  artisanDetails : JsVal
  name : JsVal
  image : JsVal
  deriving DecidableEq

/-! ## `pages/Marketplace.js` -/

namespace Marketplace

/-- The component state written by `fetchAllNFTs`. -/
structure State where
  nfts : List NFT
  loading : Bool
  error : Option String
  deriving DecidableEq

/-- The function `fetchMetadata(uri)`: the parsed JSON document, or `null`. -/
def fetchMetadata (w : World) (uri : String) : Json :=
  if uri = "" then .null else
  let url :=
    if startsWith uri "ipfs://" then replaceFirst uri "ipfs://" "https://ipfs.io/ipfs/"
    else uri
  match w.fetch url with
  | .error _ => .null
  | .ok response =>
    if !response.ok then .null else
    match response.json with
    | .error _ => .null
    | .ok metadata => metadata

/-- The inner `try` around `getItemMetadata`: the four on-ledger values, or
nothing (the four variables stay `undefined`) when the read raised. -/
def onChainMetadata (c : Contract) (tokenId : Nat) : Option ItemMetadata :=
  match c.getItemMetadata tokenId with
  | .ok m => some m
  | .error _ => none

/-- An on-ledger string that may have stayed `undefined`. -/
def onChainField (onChain : Option ItemMetadata) (field : ItemMetadata → String) : JsVal :=
  match onChain with
  | some m => .str (field m)
  | none => .undefined

/-- The expression `isForSale ? Number(ethers.formatEther(price)) : 0`. -/
def priceField (isForSale : Bool) (price : Nat) : Except String JsNumber :=
  if isForSale then
    match Ethers.formatEther price with
    | .ok s => .ok (numberOfString s)
    | .error e => .error e
  else .ok (.val 0)

/-- The object literal returned by `fetchNFTData`. -/
def mergeRecord (w : World) (tokenId : Nat) (owner : String) (metadata : Json)
    (onChain : Option ItemMetadata) (isForSale : Bool) (priceNumber : JsNumber) : NFT :=
  { id := tokenId
    owner := owner
    name := (metadata.optProp "name").or (.str ("NFT #" ++ toString tokenId))
    description :=
      ((onChainField onChain ItemMetadata.description).or (metadata.optProp "description")).or
        (.str "No description available")
    image := (metadata.optProp "image").or (.str "https://via.placeholder.com/300?text=No+Image")
    materials := (onChainField onChain ItemMetadata.materials).or (.str "Unknown")
    artisanDetails :=
      (onChainField onChain ItemMetadata.artisanDetails).or (.str "Unknown Artisan")
    creationDate :=
      match onChain with
      | some m => if m.creationDate ≠ 0 then w.localeDate m.creationDate else "Unknown"
      | none => "Unknown"
    isForSale := isForSale
    price := priceNumber }

/-- The function `fetchNFTData(tokenId)`: the merged record, or `null` (`none`) when the
outer `try` caught an error. -/
def fetchNFTData (c : Contract) (w : World) (tokenId : Nat) : Option NFT :=
  match c.ownerOf tokenId with
  | .error _ => none
  | .ok owner =>
  match c.tokenURI tokenId with
  | .error _ => none
  | .ok tokenURI =>
  let metadata := fetchMetadata w tokenURI
  match c.isForSale tokenId with
  | .error _ => none
  | .ok (isForSale, price) =>
  let onChain := onChainMetadata c tokenId
  match priceField isForSale price with
  | .error _ => none
  | .ok priceNumber =>
    some (mergeRecord w tokenId owner metadata onChain isForSale priceNumber)

/-- The function `fetchAllNFTs()`, from the state it is started in to the state it
leaves. `contract` is the handle of the session, `null` when none is bound
(reading `contract.target` then raises inside the `try`). -/
def fetchAllNFTs (contract : Option Contract) (w : World) (s : State) : State :=
  match contract with
  | none =>
    { nfts := s.nfts, loading := false,
      error := some "Failed to load NFTs: Cannot read properties of null (reading 'target')" }
  | some c =>
    match c.totalSupply with
    | .error msg => { nfts := s.nfts, loading := false, error := some ("Failed to load NFTs: " ++ msg) }
    | .ok totalSupplyNumber =>
      if totalSupplyNumber = 0 then { nfts := [], loading := false, error := none }
      else
        let nftData := (List.range' 1 totalSupplyNumber).map (fetchNFTData c w)
        { nfts := nftData.reduceOption, loading := false, error := none }

end Marketplace

/-! ## `pages/ArtisanDashboard.js` -/

namespace ArtisanDashboard

/-- The part of the component state written by `fetchMyNFTs`, and the toast
it raises. -/
structure State where
  myNFTs : List NFT
  loadingNFTs : Bool
  toast : Option String
  deriving DecidableEq

/-- The function `fetchMetadata(uri)` of the dashboard: only `http…` locators are
requested, and the status of the response is not looked at. -/
def fetchMetadata (w : World) (uri : String) : Json :=
  if uri = "" || !startsWith uri "http" then .null else
  match w.fetch uri with
  | .error _ => .null
  | .ok response =>
    match response.json with
    | .error _ => .null
    | .ok metadata => metadata

/-- The object literal returned by `fetchNFTData` of the dashboard. -/
def mergeRecord (w : World) (tokenId : Nat) (owner : String) (metadata : Json)
    (m : ItemMetadata) (isForSale : Bool) (price : Nat) : NFT :=
  { id := tokenId
    owner := owner
    name := (metadata.optProp "name").or (.str ("NFT #" ++ toString tokenId))
    description :=
      ((JsVal.str m.description).or (metadata.optProp "description")).or
        (.str "No description available")
    image := (metadata.optProp "image").or (.str "https://via.placeholder.com/300?text=No+Image")
    materials := .str m.materials
    artisanDetails := .str m.artisanDetails
    creationDate := w.localeDate m.creationDate
    isForSale := isForSale
    price := if isForSale then .val (price : ℚ) else .val 0 }

/-- The function `fetchNFTData(tokenId)` of the dashboard; here a failed
`getItemMetadata` is caught by the only `try` and gives `null`. -/
def fetchNFTData (c : Contract) (w : World) (tokenId : Nat) : Option NFT :=
  match c.ownerOf tokenId with
  | .error _ => none
  | .ok owner =>
  match c.tokenURI tokenId with
  | .error _ => none
  | .ok tokenURI =>
  let metadata := fetchMetadata w tokenURI
  match c.isForSale tokenId with
  | .error _ => none
  | .ok (isForSale, price) =>
  match c.getItemMetadata tokenId with
  | .error _ => none
  | .ok m => some (mergeRecord w tokenId owner metadata m isForSale price)

/-- The function `fetchMyNFTs()`. -/
def fetchMyNFTs (contract : Option Contract) (account : Option String) (w : World)
    (s : State) : State :=
  match contract, account with
  | some c, some acc =>
    if acc = "" then s else
    match c.totalSupply with
    | .error _ =>
      { myNFTs := s.myNFTs, loadingNFTs := false,
        toast := some "Failed to load your NFTs. Please try again later." }
    | .ok totalSupplyNumber =>
      let nftData := (List.range' 1 totalSupplyNumber).map (fetchNFTData c w)
      let myNFTsData := nftData.reduceOption.filter
        fun nft => decide (toLowerCase nft.owner = toLowerCase acc)
      { myNFTs := myNFTsData, loadingNFTs := false, toast := s.toast }
  | _, _ => s

end ArtisanDashboard

/-! ## `components/NFTMarketplace.js` -/

namespace NFTMarketplace

/-- The component state written by `loadNFTs`. -/
structure State where
  nfts : List MarketItem
  loading : Bool
  deriving DecidableEq

/-- The off-ledger document read inside the loop of `loadNFTs` (and of
`loadMyNFTs`): `{}` unless the locator starts with `ipfs://`, the gateway
answers with an ok status and the body parses. -/
def fetchIpfsMetadata (w : World) (tokenURI : String) : Json :=
  if tokenURI ≠ "" && startsWith tokenURI "ipfs://" then
    let ipfsHash := replaceFirst tokenURI "ipfs://" ""
    match w.fetch ("https://ipfs.io/ipfs/" ++ ipfsHash) with
    | .error _ => .obj []
    | .ok response =>
      if response.ok then
        match response.json with
        | .error _ => .obj []
        | .ok j => j
      else .obj []
  else .obj []

/-- The object literal pushed by `loadNFTs`. -/
def buildItem (tokenId owner tokenURI : String) (isForSale : Bool) (priceString : String)
    (metadata : ItemMetadata) (ipfsMetadata : Json) : MarketItem :=
  { tokenId := tokenId
    owner := owner
    tokenURI := tokenURI
    isForSale := isForSale
    price := priceString
    description :=
      ((JsVal.str metadata.description).or (ipfsMetadata.prop "description")).or
        (.str "No description")
    materials := (JsVal.str metadata.materials).or (.str "Unknown")
    artisanDetails := (JsVal.str metadata.artisanDetails).or (.str "Unknown")
    name := (ipfsMetadata.prop "name").or (.str ("Artisan NFT #" ++ tokenId))
    image := (ipfsMetadata.prop "image").or (.str "https://via.placeholder.com/400?text=Artisan+NFT") }

/-- One round of the loop of `loadNFTs` for the counter `i`: the record
pushed, or `none` when the inner `try` caught an error. Reading a property of
a `null` document raises, and `ipfsMetadata.name` is always read. -/
def loadItem (c : Contract) (w : World) (i : Nat) : Option MarketItem :=
  let tokenId := toString i
  match c.ownerOf i with
  | .error _ => none
  | .ok owner =>
  match c.tokenURI i with
  | .error _ => none
  | .ok tokenURI =>
  match c.isForSale i with
  | .error _ => none
  | .ok (isForSale, price) =>
  match c.getItemMetadata i with
  | .error _ => none
  | .ok metadata =>
  let ipfsMetadata := fetchIpfsMetadata w tokenURI
  match Ethers.formatEther price with
  | .error _ => none
  | .ok priceString =>
    if ipfsMetadata = .null then none
    else some (buildItem tokenId owner tokenURI isForSale priceString metadata ipfsMetadata)

/-- The function `loadNFTs()`: the loop runs `i` from 1 to the total supply, one item
after the other. -/
def loadNFTs (contract : Option Contract) (w : World) (s : State) : State :=
  match contract with
  | none => { nfts := s.nfts, loading := false }
  | some c =>
    match c.totalSupply with
    | .error _ => { nfts := s.nfts, loading := false }
    | .ok totalSupply =>
      { nfts := (List.range' 1 totalSupply).filterMap (loadItem c w), loading := false }

/-- The call `contract.purchaseNFT(tokenId, { value })`. -/
structure PurchaseCall where
  tokenId : String
  value : Int
  deriving DecidableEq

/-- The handler `handlePurchase()` up to the submission: `none` when nothing is selected,
otherwise the call submitted, or the error raised by `parseEther` before any
call is made. -/
def handlePurchase (selectedNFT : Option MarketItem) : Option (Except String PurchaseCall) :=
  match selectedNFT with
  | none => none
  | some nft =>
    match Ethers.parseEther nft.price with
    | .error e => some (.error e)
    | .ok price => some (.ok { tokenId := nft.tokenId, value := price })

/-- The price line of a card: the price followed by ` ETH` when the item is
for sale, `Not for sale` otherwise. -/
def priceText (nft : MarketItem) : String :=
  if nft.isForSale then nft.price ++ " ETH" else "Not for sale"

/-- Whether the footer of the detail modal renders the buy button:
`selectedNFT.isForSale && selectedNFT.owner !== account`. -/
def modalShowsBuy (account : Option String) (selectedNFT : MarketItem) : Bool :=
  selectedNFT.isForSale && decide (some selectedNFT.owner ≠ account)

end NFTMarketplace

/-! ## `components/MyCollection.js` -/

namespace MyCollection

/-- The part of the component state written by `loadMyNFTs`. -/
structure State where
  myNfts : List CollectionItem
  loading : Bool
  deriving DecidableEq

/-- The object literal pushed by `loadMyNFTs`. -/
def buildItem (tokenId tokenURI : String) (isForSale : Bool) (priceString : String)
    (metadata : ItemMetadata) (ipfsMetadata : Json) : CollectionItem :=
  { tokenId := tokenId
    tokenURI := tokenURI
    isForSale := isForSale
    price := priceString
    description :=
      ((JsVal.str metadata.description).or (ipfsMetadata.prop "description")).or
        (.str "No description")
    materials := (JsVal.str metadata.materials).or (.str "Unknown")
    artisanDetails := (JsVal.str metadata.artisanDetails).or (.str "Unknown")
    name := (ipfsMetadata.prop "name").or (.str ("Artisan NFT #" ++ tokenId))
    image := (ipfsMetadata.prop "image").or (.str "https://via.placeholder.com/400?text=Artisan+NFT") }

/-- One round of the loop of `loadMyNFTs` for the counter `i`: items of
other owners are passed over before anything else is read. -/
def loadItem (c : Contract) (account : String) (w : World) (i : Nat) :
    Option CollectionItem :=
  let tokenId := toString i
  match c.ownerOf i with
  | .error _ => none
  | .ok owner =>
  if toLowerCase owner = toLowerCase account then
    match c.tokenURI i with
    | .error _ => none
    | .ok tokenURI =>
    match c.isForSale i with
    | .error _ => none
    | .ok (isForSale, price) =>
    match c.getItemMetadata i with
    | .error _ => none
    | .ok metadata =>
    let ipfsMetadata := NFTMarketplace.fetchIpfsMetadata w tokenURI
    match Ethers.formatEther price with
    | .error _ => none
    | .ok priceString =>
      if ipfsMetadata = .null then none
      else some (buildItem tokenId tokenURI isForSale priceString metadata ipfsMetadata)
  else none

/-- The function `loadMyNFTs()`. -/
def loadMyNFTs (contract : Option Contract) (account : Option String) (w : World)
    (s : State) : State :=
  match contract, account with
  | some c, some acc =>
    if acc = "" then s else
    match c.totalSupply with
    | .error _ => { myNfts := s.myNfts, loading := false }
    | .ok totalSupply =>
      { myNfts := (List.range' 1 totalSupply).filterMap (loadItem c acc w), loading := false }
  | _, _ => s

/-- The price put in the form by `handleNFTClick`:
`nft.isForSale ? nft.price : ''`. -/
def priceInput (nft : CollectionItem) : String :=
  if nft.isForSale then nft.price else ""

end MyCollection

/-! ## `components/NFTCard.js` -/

namespace NFTCard

/-- The flag `isOwner`:
`account?.toLowerCase() === nft.owner?.toLowerCase()`. With no account the
left side is `undefined` and the comparison with a string is false. -/
def isOwner (account : Option String) (nft : NFT) : Bool :=
  match account with
  | none => false
  | some acc => decide (toLowerCase acc = toLowerCase nft.owner)

/-- Whether the card renders the buy button: `nft.isForSale && !isOwner`. -/
def showsBuy (account : Option String) (nft : NFT) : Bool :=
  nft.isForSale && !isOwner account nft

end NFTCard

/-! ## `pages/NFTDetails.js` -/

namespace NFTDetails

/-- The heading of the details page: ``ipfsMetadata?.name || `NFT #${id}` ``,
with `ipfsMetadata` the state that stays `null` until the gateway document
was read, and `id` the route parameter. -/
def heading (ipfsMetadata : Json) (id : String) : JsVal :=
  (ipfsMetadata.optProp "name").or (.str ("NFT #" ++ id))

/-- The `src` of the image: `imageUrl || <placeholder>`, with `imageUrl`
the state that stays `null` until the image locator was read. -/
def imageSrc (imageUrl : Option String) : String :=
  match imageUrl with
  | none => "https://via.placeholder.com/400?text=No+Image"
  | some u => if u = "" then "https://via.placeholder.com/400?text=No+Image" else u

end NFTDetails

/-- The fields of a record that come straight from the ledger reads every
read path makes: id, owner and the for-sale flag. -/
def NFT.ledgerPart (r : NFT) : Nat × String × Bool :=
  (r.id, r.owner, r.isForSale)

/-! ## Sample ledger and content store -/

/-- On-ledger metadata shared by the sample tokens. -/
def sampleMetadata : ItemMetadata :=
  { description := "Hand-thrown vase", materials := "Clay", artisanDetails := "Asha",
    creationDate := 1700000000 }

/-- A ledger with four issued ids: 1 is listed at 1.5 ether, 2 has no owner
(the read reverts), 3 is delisted with a stale stored price and an empty
locator, 4 has no readable on-ledger metadata. -/
def sampleLedger : Contract :=
  { totalSupply := .ok 4
    ownerOf := fun i =>
      if i = 2 then .error "ERC721: invalid token ID"
      else if i = 3 then .ok "0x00a1" else .ok "0xAbCd"
    tokenURI := fun i => if i = 3 then .ok "" else .ok "ipfs://QmVase"
    isForSale := fun i =>
      if i = 1 then .ok (true, 1500000000000000000) else .ok (false, 1000000000000000000)
    getItemMetadata := fun i =>
      if i = 4 then .error "execution reverted" else .ok sampleMetadata }

/-- A content store holding one metadata document behind the public
gateway; every other request fails. -/
def sampleStore : World :=
  { fetch := fun url =>
      if url = "https://ipfs.io/ipfs/QmVase" then
        .ok { status := 200,
              json := .ok (.obj [("name", .str "Vase"), ("description", .str "A vase"),
                ("image", .str "ipfs://QmImg")]) }
      else .error "Failed to fetch"
    localeDate := fun d => "day " ++ toString (d / 86400) }

/-- A content store that cannot be reached. -/
def offlineStore : World :=
  { fetch := fun _ => .error "Failed to fetch"
    localeDate := fun d => "day " ++ toString (d / 86400) }

/-- The state a page starts in. -/
def Marketplace.initial : Marketplace.State :=
  { nfts := [], loading := true, error := none }

/-! ## `context/Web3Context.js`: the session -/

/-- The signer returned by `ethersProvider.getSigner()`. -/
structure Signer where
  address : String
  deriving DecidableEq

/-- The answers of the ledger to the role queries made through the contract
handle; a role identifier is a `bytes32`, kept as its hexadecimal string. -/
structure RoleReads where
  ADMIN_ROLE : Except String String
  ARTISAN_ROLE : Except String String
  hasRole : String → String → Except String Bool

/-- The deployed contract as the client reads it: the item reads, the role
reads and `getProvenance`. -/
structure Ledger where
  reads : Contract
  roles : RoleReads
  getProvenance : Nat → Except String (List String)

/-- The object `new ethers.Contract(contractAddress, abi, signer)`: the
runner it was constructed with and the ledger it talks to. -/
structure ContractHandle where
  runner : Signer
  ledger : Ledger

/-- The injected provider `window.ethereum`, with what the client asks
through it: `request({ method: 'eth_requestAccounts' })`, and through the
`BrowserProvider` wrapped around it `listAccounts()` (the addresses),
`getSigner()` and `getNetwork()` (the chain id). -/
structure Ethereum where
  requestAccounts : Except String (List String)
  listAccounts : Except String (List String)
  getSigner : Except String Signer
  getNetwork : Except String Nat
  deriving DecidableEq

/-- What the session reads from outside the component: the injected
provider, absent when no wallet is installed, and the outcome of the
constructor `new ethers.Contract(contractAddress, abi, ·)`, which raises on a
missing contract address. -/
structure Browser where
  ethereum : Option Ethereum
  contractTarget : Except String Ledger

/-- The nine state variables of `Web3Provider`. The provider state is the
`BrowserProvider`, identified with the injected provider it wraps. -/
structure Session where
  provider : Option Ethereum
  signer : Option Signer
  contract : Option ContractHandle
  account : Option String
  isAdmin : Bool
  isArtisan : Bool
  networkId : Option Nat
  loading : Bool
  error : Option String

namespace Session

/-- The initial values passed to `useState`. -/
def initial : Session :=
  { provider := none, signer := none, contract := none, account := none,
    isAdmin := false, isArtisan := false, networkId := none, loading := true,
    error := none }

/-- The function `checkRoles(address, contract)`: the two flags are set
after all four queries answered; an error in any of them is caught and
logged. -/
def checkRoles (address : String) (contract : ContractHandle) (s : Session) : Session :=
  match contract.ledger.roles.ADMIN_ROLE with
  | .error _ => s
  | .ok adminRole =>
  match contract.ledger.roles.ARTISAN_ROLE with
  | .error _ => s
  | .ok artisanRole =>
  match contract.ledger.roles.hasRole adminRole address with
  | .error _ => s
  | .ok isUserAdmin =>
  match contract.ledger.roles.hasRole artisanRole address with
  | .error _ => s
  | .ok isUserArtisan => { s with isAdmin := isUserAdmin, isArtisan := isUserArtisan }

/-- The function `handleAccountsChanged(accounts)`. Its free variable
`contract` is the state variable of the render the function was created in;
`contract` here is that captured value. -/
def handleAccountsChanged (contract : Option ContractHandle) (accounts : List String)
    (s : Session) : Session :=
  match accounts with
  | [] => { s with account := none, isAdmin := false, isArtisan := false }
  | first :: _ =>
    let s := { s with account := some first }
    match contract with
    | some c => checkRoles first c s
    | none => s

/-- The listener as the provider calls it. It is registered once, by the
effect of the first render (`useEffect(…, [])`,
`window.ethereum.on('accountsChanged', handleAccountsChanged)`), so the
`contract` it reads is the one of that render, the initial `null`. -/
def onAccountsChanged (accounts : List String) (s : Session) : Session :=
  handleAccountsChanged initial.contract accounts s

/-- The function `init()` of the mount effect. -/
def init (b : Browser) (s : Session) : Session :=
  let s := { s with loading := true }
  match b.ethereum with
  | none =>
    { s with error := some "Please install MetaMask to use this application",
             loading := false }
  | some ethereum =>
    let s := { s with provider := some ethereum }
    match ethereum.getNetwork with
    | .error msg => { s with error := some msg, loading := false }
    | .ok chainId =>
    let s := { s with networkId := some chainId }
    match ethereum.listAccounts with
    | .error msg => { s with error := some msg, loading := false }
    | .ok [] => { s with loading := false }
    | .ok (first :: _) =>
      let s := { s with account := some first }
      match ethereum.getSigner with
      | .error msg => { s with error := some msg, loading := false }
      | .ok ethersSigner =>
      let s := { s with signer := some ethersSigner }
      match b.contractTarget with
      | .error msg => { s with error := some msg, loading := false }
      | .ok ledger =>
        let artisanContract : ContractHandle := { runner := ethersSigner, ledger := ledger }
        let s := { s with contract := some artisanContract }
        let s := checkRoles first artisanContract s
        { s with loading := false }

/-- The function `connectWallet()`: the boolean it returns and the state it
leaves. -/
def connectWallet (b : Browser) (s : Session) : Bool × Session :=
  match b.ethereum with
  | none => (false, { s with error := some "MetaMask is not installed", loading := false })
  | some ethereum =>
    let s := { s with loading := true }
    match ethereum.requestAccounts with
    | .error msg => (false, { s with error := some msg, loading := false })
    | .ok [] =>
      (false, { s with error := some "No accounts found. Please unlock MetaMask.",
                       loading := false })
    | .ok (first :: _) =>
      let s := { s with account := some first }
      let s := { s with provider := some ethereum }
      match ethereum.getSigner with
      | .error msg => (false, { s with error := some msg, loading := false })
      | .ok ethersSigner =>
      let s := { s with signer := some ethersSigner }
      match ethereum.getNetwork with
      | .error msg => (false, { s with error := some msg, loading := false })
      | .ok chainId =>
      let s := { s with networkId := some chainId }
      match b.contractTarget with
      | .error msg => (false, { s with error := some msg, loading := false })
      | .ok ledger =>
        let artisanContract : ContractHandle := { runner := ethersSigner, ledger := ledger }
        let s := { s with contract := some artisanContract }
        let s := checkRoles first artisanContract s
        (true, { s with loading := false })

/-- The function `disconnectWallet()`. -/
def disconnectWallet (s : Session) : Session :=
  { s with account := none, isAdmin := false, isArtisan := false }

/-- The states the session can be in when its operations run one after the
other, each to its end before the next starts: the initial one, and every
state one of the four operations leaves when started in such a state,
whatever the browser answers and whichever `contract` the handler has
captured. Runs in which an operation starts while another is suspended at
an `await` are not among these (see `connectWalletInterrupted`). -/
inductive Reachable : Session → Prop
  | initial : Reachable Session.initial
  | init (b : Browser) {s : Session} : Reachable s → Reachable (Session.init b s)
  | connectWallet (b : Browser) {s : Session} :
      Reachable s → Reachable (Session.connectWallet b s).2
  | handleAccountsChanged (contract : Option ContractHandle) (accounts : List String)
      {s : Session} : Reachable s → Reachable (Session.handleAccountsChanged contract accounts s)
  | disconnectWallet {s : Session} : Reachable s → Reachable (Session.disconnectWallet s)

end Session

/-! ## `context/Web3Context.js`: a handler suspended at its role check -/

namespace Session

/-- The steps of `connectWallet()` up to its call `await checkRoles(…)`,
where the function is suspended until the role queries have answered: the
account and the handle the check is called with and the state set so far,
or `none` when an earlier step failed. -/
def connectWalletUntilRoleCheck (b : Browser) (s : Session) :
    Option (String × ContractHandle × Session) :=
  match b.ethereum with
  | none => none
  | some ethereum =>
    let s := { s with loading := true }
    match ethereum.requestAccounts with
    | .error _ => none
    | .ok [] => none
    | .ok (first :: _) =>
      let s := { s with account := some first }
      let s := { s with provider := some ethereum }
      match ethereum.getSigner with
      | .error _ => none
      | .ok ethersSigner =>
      let s := { s with signer := some ethersSigner }
      match ethereum.getNetwork with
      | .error _ => none
      | .ok chainId =>
      let s := { s with networkId := some chainId }
      match b.contractTarget with
      | .error _ => none
      | .ok ledger =>
        let artisanContract : ContractHandle := { runner := ethersSigner, ledger := ledger }
        some (first, artisanContract, { s with contract := some artisanContract })

/-- A run of `connectWallet()` during whose role check the provider reports
`accountsChanged`: the listener, which has no `await` of its own here, runs
to its end while `checkRoles` waits for the ledger; `checkRoles` then sets
the two flags from the answers and `connectWallet` ends. The result is
`none` when a step before the role check failed. -/
def connectWalletInterrupted (b : Browser) (accounts : List String) (s : Session) :
    Option Session :=
  match connectWalletUntilRoleCheck b s with
  | none => none
  | some (first, artisanContract, s) =>
    let s := onAccountsChanged accounts s
    let s := checkRoles first artisanContract s
    some { s with loading := false }

end Session

/-! ## `pages/NFTDetails.js`: the effect and the view -/

namespace NFTDetails

/-- The state variable `meta`: `null`, the tuple of `getItemMetadata`, or the
document of the second metadata request, which replaces the tuple. -/
inductive Meta where
  | null : Meta
  | onChain (m : ItemMetadata) : Meta
  | json (j : Json) : Meta

/-- The five state variables of the page. -/
structure State where
  meta : Meta
  provenance : List String
  tokenURI : Option String
  ipfsMetadata : Json
  imageUrl : Option String

/-- The initial values passed to `useState`. -/
def initial : State :=
  { meta := .null, provenance := [], tokenURI := none, ipfsMetadata := .null,
    imageUrl := none }

/-- The rewrite of an `ipfs://` locator to the Pinata gateway, used for the
second metadata request and for the image. -/
def pinataUrl (uri : String) : String :=
  if startsWith uri "ipfs://" then
    "https://gateway.pinata.cloud/ipfs/" ++ replaceFirst uri "ipfs://" ""
  else uri

/-- The first request of `fetchData`, made for a non-empty `ipfs://`
locator: `none` when an `await` raised (the `catch` ends the function),
otherwise the state, with `ipfsMetadata` set when the gateway answered with
an ok status and the body parsed. -/
def firstRequest (w : World) (uri : String) (s : State) : Option State :=
  if uri ≠ "" && startsWith uri "ipfs://" then
    let ipfsHash := replaceFirst uri "ipfs://" ""
    match w.fetch ("https://ipfs.io/ipfs/" ++ ipfsHash) with
    | .error _ => none
    | .ok response =>
      if response.ok then
        match response.json with
        | .error _ => none
        | .ok metadata => some { s with ipfsMetadata := metadata }
      else some s
  else some s

/-- The second request of `fetchData` and what follows it: the document
replaces `meta` (the status is not looked at), and its `image`, when it is a
string, becomes `imageUrl`; reading `image` of `null` or calling
`startsWith` on something that is not a string raises. -/
def secondRequest (w : World) (uri : String) (s : State) : State :=
  let metadataUrl := pinataUrl uri
  match w.fetch metadataUrl with
  | .error _ => s
  | .ok metadataResponse =>
  match metadataResponse.json with
  | .error _ => s
  | .ok metadataJson =>
  let s := { s with meta := .json metadataJson }
  match metadataJson with
  | .null => s
  | _ =>
    match metadataJson.prop "image" with
    | .str imgUrl => { s with imageUrl := some (pinataUrl imgUrl) }
    | _ => s

/-- The function `fetchData()` of the effect, for the route parameter that
is the decimal form of `id`: every `await` that raises ends the function in
the single `catch`, with the state set so far. -/
def fetchData (contract : Option ContractHandle) (w : World) (id : Nat) (s : State) : State :=
  match contract with
  | none => s
  | some c =>
  match c.ledger.reads.getItemMetadata id with
  | .error _ => s
  | .ok metadata =>
  let s := { s with meta := .onChain metadata }
  match c.ledger.getProvenance id with
  | .error _ => s
  | .ok provenanceData =>
  let s := { s with provenance := provenanceData }
  match c.ledger.reads.tokenURI id with
  | .error _ => s
  | .ok uri =>
  let s := { s with tokenURI := some uri }
  match firstRequest w uri s with
  | none => s
  | some s => secondRequest w uri s

/-- The fields the page shows. -/
structure Shown where
  name : JsVal
  description : JsVal
  materials : JsVal
  artisanDetails : JsVal
  creationDate : String
  image : String

/-- Whether `!meta` holds: `meta` is `null` or a falsy document. -/
def Meta.falsy : Meta → Bool
  | .null => true
  | .onChain _ => false
  | .json .null => true
  | .json (.bool b) => !b
  | .json (.num q) => decide (q = 0)
  | .json (.str t) => decide (t = "")
  | .json .arr => false
  | .json (.obj _) => false

/-- A property read on `meta`: a string of the on-ledger tuple, or a
property of the document. -/
def Meta.field (m : Meta) (onChain : ItemMetadata → String) (key : String) : JsVal :=
  match m with
  | .null => .undefined
  | .onChain t => .str (onChain t)
  | .json j => j.prop key

/-- The rendered page: nothing but `Loading...` (`none`) while `!meta`,
otherwise the fields. `dateOfValue v` stands for
`new Date(Number(v) * 1000).toLocaleDateString()` on a value `v` read from a
document (`Invalid Date` when the property is missing). -/
def view (w : World) (dateOfValue : JsVal → String) (id : String) (s : State) :
    Option Shown :=
  if s.meta.falsy then none
  else
    some {
      name := heading s.ipfsMetadata id
      description := s.meta.field ItemMetadata.description "description"
      materials := s.meta.field ItemMetadata.materials "materials"
      artisanDetails := s.meta.field ItemMetadata.artisanDetails "artisanDetails"
      creationDate :=
        match s.meta with
        | .onChain t => w.localeDate t.creationDate
        | .json j => dateOfValue (j.prop "creationDate")
        | .null => dateOfValue .undefined
      image := imageSrc s.imageUrl }

end NFTDetails

/-! ## `services/ipfs.js` and the documents of the content store -/

/-- A JSON value in full, nested arrays and objects included: what
`JSON.stringify` takes and `JSON.parse` gives. -/
inductive JsonDoc where
  | null : JsonDoc
  | bool (b : Bool) : JsonDoc
  | num (q : ℚ) : JsonDoc
  | str (s : String) : JsonDoc
  | arr (items : List JsonDoc) : JsonDoc
  | obj (fields : List (String × JsonDoc)) : JsonDoc

/-- A value of a document as a property read sees it: arrays and objects
become the opaque `object`. -/
def JsonDoc.toVal : JsonDoc → JsVal
  | .null => .null
  | .bool b => .bool b
  | .num q => .num (.val q)
  | .str s => .str s
  | .arr _ => .object
  | .obj _ => .object

/-- The top-level view of a document, the `Json` the read paths work on. -/
def JsonDoc.view : JsonDoc → Json
  | .null => .null
  | .bool b => .bool b
  | .num q => .num q
  | .str s => .str s
  | .arr _ => .arr
  | .obj fields => .obj (fields.map fun kv => (kv.1, kv.2.toVal))

/-- One entry of the `attributes` array. -/
structure Attribute where
  trait_type : String
  value : String
  deriving DecidableEq

/-- The object returned by `createNFTMetadata`. -/
structure NFTMetadata where
  name : String
  description : String
  image : String
  attributes : List Attribute
  deriving DecidableEq

/-- The function `createNFTMetadata`; `now` is the value of
`new Date().toISOString()` at the call. -/
def createNFTMetadata (now : String) (name description imageUrl materials artisanDetails : String) :
    NFTMetadata :=
  { name := name
    description := description
    image := imageUrl
    attributes :=
      [ { trait_type := "Materials", value := materials },
        { trait_type := "Artisan", value := artisanDetails },
        { trait_type := "Creation Date", value := now } ] }

/-- The metadata object as a JSON value, properties in the order of the
object literal. -/
def NFTMetadata.toDoc (d : NFTMetadata) : JsonDoc :=
  .obj [ ("name", .str d.name), ("description", .str d.description), ("image", .str d.image),
    ("attributes", .arr (d.attributes.map fun a =>
      .obj [("trait_type", .str a.trait_type), ("value", .str a.value)])) ]

/-- The built-in pair `JSON.stringify` / `JSON.parse` (the latter as
`response.json()` applies it to a body), over a type `β` of serialized
bodies. -/
structure JsonCodec (β : Type) where
  stringify : JsonDoc → β
  parse : β → Except String JsonDoc

/-- The law of the built-in pair: parsing what was serialized gives the
value back. -/
def JsonCodec.Faithful {β : Type} (codec : JsonCodec β) : Prop :=
  ∀ d : JsonDoc, codec.parse (codec.stringify d) = .ok d

/-- The IPFS client created in `ipfs.js`: `add` gives the `path` of what was
added, its content identifier. -/
structure IpfsClient (β : Type) where
  add : β → Except String String

/-- The function `uploadMetadataToIPFS(metadata)`. -/
def uploadMetadataToIPFS {β : Type} (codec : JsonCodec β) (client : IpfsClient β)
    (metadata : NFTMetadata) : Except String String :=
  let metadataJSON := codec.stringify metadata.toDoc
  match client.add metadataJSON with
  | .ok path => .ok path
  | .error msg => .error ("IPFS metadata upload failed: " ++ msg)

/-- A received HTTP response with its body still serialized. -/
structure RawResponse (β : Type) where
  status : Nat
  body : β

/-- The world the read paths see when `fetch` answers with serialized
bodies: `response.json()` parses the body, and the read paths look at the
top level of the result. -/
def gatewayWorld {β : Type} (codec : JsonCodec β)
    (fetch : String → Except String (RawResponse β)) (localeDate : Nat → String) : World :=
  { fetch := fun url =>
      match fetch url with
      | .error msg => .error msg
      | .ok r =>
        .ok { status := r.status,
              json :=
                match codec.parse r.body with
                | .error msg => .error msg
                | .ok d => .ok d.view }
    localeDate := localeDate }

/-- The function `fetchMetadata(uri)` of `pages/Marketplace.js` once more,
returning the parsed document in full instead of its top-level view. -/
def Marketplace.fetchMetadataDoc {β : Type} (codec : JsonCodec β)
    (fetch : String → Except String (RawResponse β)) (uri : String) : JsonDoc :=
  if uri = "" then .null else
  let url :=
    if startsWith uri "ipfs://" then replaceFirst uri "ipfs://" "https://ipfs.io/ipfs/"
    else uri
  match fetch url with
  | .error _ => .null
  | .ok response =>
    if !(decide (200 ≤ response.status) && decide (response.status ≤ 299)) then .null else
    match codec.parse response.body with
    | .error _ => .null
    | .ok metadata => metadata

/-- The function `fetchMetadata(uri)` of `pages/Marketplace.js` with the
list of the URLs it passes to `fetch`; `uri` may be absent (`null` or
`undefined`), which `!uri` treats like the empty string. -/
def Marketplace.fetchMetadataTraced (w : World) (uri : Option String) : List String × Json :=
  match uri with
  | none => ([], .null)
  | some uri =>
    if uri = "" then ([], .null) else
    let url :=
      if startsWith uri "ipfs://" then replaceFirst uri "ipfs://" "https://ipfs.io/ipfs/"
      else uri
    match w.fetch url with
    | .error _ => ([url], .null)
    | .ok response =>
      if !response.ok then ([url], .null) else
      match response.json with
      | .error _ => ([url], .null)
      | .ok metadata => ([url], metadata)

/-! ## Sample session, deployment and stores -/

/-- Role reads of the sample deployment: `0xAd01` is an administrator,
`0xA2` an artisan, nobody is both. -/
def sampleRoles : RoleReads :=
  { ADMIN_ROLE := .ok "0x00"
    ARTISAN_ROLE := .ok "0x01"
    hasRole := fun role address =>
      .ok (decide (role = "0x00" ∧ address = "0xAd01") ||
        decide (role = "0x01" ∧ address = "0xA2")) }

/-- The sample ledger with its role reads and a one-owner provenance. -/
def sampleDeployment : Ledger :=
  { reads := sampleLedger, roles := sampleRoles, getProvenance := fun _ => .ok ["0xAbCd"] }

/-- A wallet that authorizes the administrator account. -/
def sampleEthereum : Ethereum :=
  { requestAccounts := .ok ["0xAd01"]
    listAccounts := .ok ["0xAd01"]
    getSigner := .ok { address := "0xAd01" }
    getNetwork := .ok 31337 }

/-- A browser with that wallet and a configured contract address. -/
def sampleBrowser : Browser :=
  { ethereum := some sampleEthereum, contractTarget := .ok sampleDeployment }

/-- The contract handle of the sample session. -/
def sampleHandle : ContractHandle :=
  { runner := { address := "0xAd01" }, ledger := sampleDeployment }

/-- A content store that serves the sample document behind both gateways
the client uses. -/
def mirroredStore : World :=
  { fetch := fun url =>
      if url = "https://ipfs.io/ipfs/QmVase" ∨ url = "https://gateway.pinata.cloud/ipfs/QmVase"
      then
        .ok { status := 200,
              json := .ok (.obj [("name", .str "Vase"), ("description", .str "A vase"),
                ("image", .str "ipfs://QmImg")]) }
      else .error "Failed to fetch"
    localeDate := fun d => "day " ++ toString (d / 86400) }

/-- A ledger whose token 1 points at a plain `https` locator. -/
def httpLedger : Contract :=
  { totalSupply := .ok 1
    ownerOf := fun _ => .ok "0xAbCd"
    tokenURI := fun _ => .ok "https://example.org/meta.json"
    isForSale := fun _ => .ok (false, 0)
    getItemMetadata := fun _ => .ok sampleMetadata }

/-- A server that answers that locator with status 404 and a JSON error
body. -/
def errorPageStore : World :=
  { fetch := fun url =>
      if url = "https://example.org/meta.json" then
        .ok { status := 404, json := .ok (.obj [("name", .str "Not Found")]) }
      else .error "Failed to fetch"
    localeDate := fun d => "day " ++ toString (d / 86400) }

/-- A serialization that keeps the document as it is. -/
def sampleCodec : JsonCodec JsonDoc :=
  { stringify := fun d => d, parse := fun b => .ok b }

/-- A client whose `add` answers with one content identifier. -/
def sampleClient : IpfsClient JsonDoc :=
  { add := fun _ => .ok "QmMeta" }

/-- The metadata object of the sample mint. -/
def sampleDescriptor : NFTMetadata :=
  createNFTMetadata "2024-01-01T00:00:00.000Z" "Vase" "A vase"
    "https://via.placeholder.com/500?text=Test+NFT" "Clay" "Asha"

/-- A gateway that serves the sample metadata object under its content
identifier and nothing else. -/
def sampleGateway : String → Except String (RawResponse JsonDoc) :=
  fun url =>
    if url = "https://ipfs.io/ipfs/QmMeta" then
      .ok { status := 200, body := sampleCodec.stringify sampleDescriptor.toDoc }
    else .error "Failed to fetch"

/-! ## State-changing calls, uploads and toasts -/

/-- A transaction response: its hash and the outcome of `tx.wait()`. -/
structure Tx where
  hash : String
  wait : Except String Unit

/-- The answers of the wallet and the ledger to the state-changing methods
called on the contract handle, each with the positional arguments as the
caller passes them: a transaction response, or the error the call rejects
with (declined signature, insufficient funds, revert, arguments that cannot
be encoded). -/
structure Writes where
  mintNFT : List String → Except String Tx
  setNFTForSale : String → Int → Except String Tx
  registerArtisan : String → Except String Tx

/-- One request a handler sends out: an upload to the content store or a
state-changing method called on the contract handle, with its arguments. -/
inductive Call (β : Type) where
  | uploadToIPFS (file : β) : Call β
  | uploadMetadataToIPFS (metadata : NFTMetadata) : Call β
  | mintNFT (args : List String) : Call β
  | setNFTForSale (tokenId : String) (price : Int) : Call β
  | registerArtisan (address : String) : Call β
  deriving DecidableEq

/-- The argument lists of the `mintNFT` calls among the requests. -/
def Call.mintArgs {β : Type} : List (Call β) → List (List String)
  | [] => []
  | .mintNFT args :: rest => args :: Call.mintArgs rest
  | _ :: rest => Call.mintArgs rest

/-- The `setNFTForSale` calls among the requests, as pairs of id and amount. -/
def Call.listings {β : Type} : List (Call β) → List (String × Int)
  | [] => []
  | .setNFTForSale tokenId price :: rest => (tokenId, price) :: Call.listings rest
  | _ :: rest => Call.listings rest

/-- The object passed to `toast(…)`, without the display options. -/
structure Toast where
  title : String
  description : String
  status : String
  deriving DecidableEq

/-- What a handler has sent out and shown when its promise settles: the
requests in the order they were made, each recorded when it is made, whether
or not it is then answered with success, and the toasts raised. -/
structure Trace (β : Type) where
  calls : List (Call β)
  toasts : List Toast

/-- The function `uploadToIPFS(file)` of `services/ipfs.js`. -/
def uploadToIPFS {β : Type} (client : IpfsClient β) (file : β) : Except String String :=
  match client.add file with
  | .ok path => .ok path
  | .error msg => .error ("IPFS upload failed: " ++ msg)

/-- What a mint handler reaches outside the component: the clock of
`createNFTMetadata`, the serializer and the client of `services/ipfs.js`, the
answers to the state-changing calls, the answer to the `totalSupply()`
read made after the mint was confirmed, and the version of the `ethers`
library in use, which its error messages end with. -/
structure MintEnv (β : Type) where
  now : String
  codec : JsonCodec β
  client : IpfsClient β
  writes : Writes
  totalSupply : Except String Nat
  ethersVersion : String

/-- The method `String.prototype.includes` with a string argument. -/
def includes (s pat : String) : Bool :=
  s.data.tails.any fun t => pat.data.isPrefixOf t

/-! ## Numbers read from text

`parseFloat` and the conversion of a string to a number are built into the
language. A literal is read to its exact mathematical value, which the
language then rounds to the nearest double, ties to even; the comparisons
with 0 below are made on the rounded value. -/

/-- The value `± digits × 10^exp` of a decimal literal. -/
def decimalValue (neg : Bool) (digits : Nat) (exp : Int) : ℚ :=
  (if neg then -1 else 1) * (digits : ℚ) * (10 : ℚ) ^ exp

/-- What a numeric literal denotes before it is rounded to a double: not a
number, an infinity with its sign, or an exact value. -/
inductive Literal where
  | nan : Literal
  | infinity (neg : Bool) : Literal
  | exact (q : ℚ) : Literal
  deriving DecidableEq

/-- The comparison `x > 0` on the double nearest to the literal: an exact
value rounds to a positive double exactly when it exceeds `2^-1075`, half of
the smallest positive double (the tie itself goes to 0). -/
def Literal.gtZero : Literal → Bool
  | .nan => false
  | .infinity neg => !neg
  | .exact q => decide ((1 : ℚ) / 2 ^ 1075 < q)

/-- The comparison `x <= 0` on the double nearest to the literal. -/
def Literal.leZero : Literal → Bool
  | .nan => false
  | .infinity neg => neg
  | .exact q => decide (q ≤ (1 : ℚ) / 2 ^ 1075)

/-- The white space and line terminators of the language
(`StrWhiteSpaceChar`): tab, line feed, vertical tab, form feed, carriage
return, space, no-break space, the other space separators, the line and
paragraph separators and the byte order mark. -/
def isWhiteSpace (c : Char) : Bool :=
  [0x9, 0xA, 0xB, 0xC, 0xD, 0x20, 0xA0, 0x1680, 0x2000, 0x2001, 0x2002, 0x2003, 0x2004,
    0x2005, 0x2006, 0x2007, 0x2008, 0x2009, 0x200A, 0x2028, 0x2029, 0x202F, 0x205F, 0x3000,
    0xFEFF].contains c.toNat

/-- An `ExponentPart` (`e` or `E`, an optional sign, digits) at the head of
`s`: its value and what follows it; without one, 0 and `s` itself. -/
def scanExponent (s : List Char) : Int × List Char :=
  match s with
  | [] => (0, [])
  | c :: rest =>
    if c = 'e' ∨ c = 'E' then
      let neg : Bool := decide (rest.head? = some '-')
      let ds := if neg ∨ rest.head? = some '+' then rest.drop 1 else rest
      if ds.takeWhile Char.isDigit = [] then (0, s)
      else
        ((if neg then -1 else 1) * (Ethers.digitsVal (ds.takeWhile Char.isDigit) : Int),
          ds.dropWhile Char.isDigit)
    else (0, s)

/-- The longest head of `s` that is a signed decimal literal
(`StrDecimalLiteral`: `Infinity`, or digits with an optional fraction, or a
fraction alone, and an optional exponent): what it denotes and what follows
it. -/
def scanDecimal (s : List Char) : Option (Literal × List Char) :=
  let neg : Bool := decide (s.head? = some '-')
  let s1 := if neg ∨ s.head? = some '+' then s.drop 1 else s
  if "Infinity".data.isPrefixOf s1 then some (.infinity neg, s1.drop 8) else
  let w := s1.takeWhile Char.isDigit
  let s2 := s1.dropWhile Char.isDigit
  let s3 := if s2.head? = some '.' then s2.drop 1 else s2
  let f := s3.takeWhile Char.isDigit
  if w.length + f.length = 0 then none else
  let e := scanExponent (s3.dropWhile Char.isDigit)
  some (.exact (decimalValue neg (Ethers.digitsVal (w ++ f)) (e.1 - f.length)), e.2)

/-- The value of a digit or letter as a digit of a base up to 16. -/
def digitValue (c : Char) : Option Nat :=
  if '0' ≤ c ∧ c ≤ '9' then some (c.toNat - 48)
  else if 'a' ≤ c ∧ c ≤ 'f' then some (c.toNat - 87)
  else if 'A' ≤ c ∧ c ≤ 'F' then some (c.toNat - 55)
  else none

/-- The base a prefix letter announces: `x` 16, `o` 8, `b` 2 (in either
case), and 0 for any other character. -/
def baseOfLetter (x : Char) : Nat :=
  if x = 'x' ∨ x = 'X' then 16
  else if x = 'o' ∨ x = 'O' then 8
  else if x = 'b' ∨ x = 'B' then 2
  else 0

/-- A `NonDecimalIntegerLiteral` as a whole: `0x`, `0o` or `0b` followed by
at least one digit of the base and nothing else. -/
def scanNonDecimal (s : List Char) : Option Nat :=
  match s with
  | '0' :: x :: d :: ds =>
    if baseOfLetter x = 0 then none
    else
      (d :: ds).foldl
        (fun acc c =>
          match acc, digitValue c with
          | some a, some v => if v < baseOfLetter x then some (baseOfLetter x * a + v) else none
          | _, _ => none)
        (some 0)
  | _ => none

/-- The function `parseFloat(s)`: leading white space is skipped and what
follows the literal is ignored. -/
def parseFloat (s : String) : Literal :=
  match scanDecimal (s.data.dropWhile isWhiteSpace) with
  | some (l, _) => l
  | none => .nan

/-- The conversion of a string to a number, as `Number(s)` and a comparison
with a number apply it: white space is trimmed at both ends, the empty
string is 0 and the rest must be a numeric literal as a whole. -/
def toNumber (s : String) : Literal :=
  let t := ((s.data.dropWhile isWhiteSpace).reverse.dropWhile isWhiteSpace).reverse
  if t = [] then .exact 0 else
  match scanNonDecimal t with
  | some n => .exact n
  | none =>
    match scanDecimal t with
    | some (l, []) => l
    | _ => .nan

/-! ## Error messages of `ethers`

An error of the library is made by its function `makeError`: the `message`
property is the short text followed by the details in parentheses, the
entries of `info` as `key=value`, then the code and the version of the
library. -/

/-- The hexadecimal digit of a number below 16, in lower case. -/
def hexDigit (n : Nat) : Char :=
  if n < 10 then Char.ofNat (48 + n) else Char.ofNat (87 + n)

/-- One character of a string inside `JSON.stringify`: the quotation mark,
the backslash and the control characters are escaped. -/
def jsonEscape (c : Char) : List Char :=
  if c.toNat = 34 then [Char.ofNat 92, Char.ofNat 34]
  else if c.toNat = 92 then [Char.ofNat 92, Char.ofNat 92]
  else if c.toNat = 8 then [Char.ofNat 92, 'b']
  else if c.toNat = 9 then [Char.ofNat 92, 't']
  else if c.toNat = 10 then [Char.ofNat 92, 'n']
  else if c.toNat = 12 then [Char.ofNat 92, 'f']
  else if c.toNat = 13 then [Char.ofNat 92, 'r']
  else if c.toNat < 32 then
    [Char.ofNat 92, 'u', '0', '0', hexDigit (c.toNat / 16), hexDigit (c.toNat % 16)]
  else [c]

/-- The function `JSON.stringify` on a string. -/
def jsonQuote (s : String) : String :=
  ⟨Char.ofNat 34 :: (s.data.flatMap jsonEscape ++ [Char.ofNat 34])⟩

namespace Ethers

/-- The `message` property set by the library function `makeError`; the
values of `info` are given as the library's `stringify` renders them. -/
def makeError (version message code : String) (info : List (String × String)) : String :=
  message ++ " (" ++
    ", ".intercalate
      ((info.map fun kv => kv.1 ++ "=" ++ kv.2) ++ ["code=" ++ code, "version=" ++ version]) ++
    ")"

/-- The function `ethers.parseEther` with the `message` of the error it
throws, for the given version of the library: the same steps as
`fromStringFixed` with 18 decimals and width 512, each failed assertion
with its details. -/
def parseEtherThrowing (version : String) (s : String) : Except String Int :=
  let invalid := makeError version "invalid FixedNumber string value" "INVALID_ARGUMENT"
    [("argument", jsonQuote "value"), ("value", jsonQuote s)]
  match matchFixed s.data with
  | none => .error invalid
  | some (neg, w, d) =>
    if w.length + d.length = 0 then .error invalid else
    let whole := if w = [] then ['0'] else w
    let decimal := padDecimal 18 (18 + 1) d
    if (decimal.drop 18).all (fun c => c = '0') then
      let decimal := decimal.take 18
      let mag : Int := digitsVal (whole ++ decimal)
      let val : Int := if neg then -mag else mag
      match checkValue val 512 with
      | .ok v => .ok v
      | .error _ =>
        .error (makeError version "overflow" "NUMERIC_FAULT"
          [("operation", jsonQuote "fromString"), ("fault", jsonQuote "overflow"),
            ("value", toString val)])
    else
      .error (makeError version "too many decimals for format" "NUMERIC_FAULT"
        [("operation", jsonQuote "fromString"), ("fault", jsonQuote "underflow"),
          ("value", jsonQuote s)])

end Ethers

/-! ## `pages/ArtisanDashboard.js`: the mint form -/

namespace ArtisanDashboard

/-- The state variable `formData`. -/
structure FormData where
  name : String
  description : String
  materials : String
  artisanDetails : String
  deriving DecidableEq

/-- The part of the component state `handleSubmit` reads and writes. -/
structure Form (β : Type) where
  formData : FormData
  file : Option β
  previewUrl : String
  isUploading : Bool
  isMinting : Bool

/-- The error toast of the `catch` block of `handleSubmit`. -/
def failed (msg : String) : Toast :=
  { title := "Error", description := "Failed to mint NFT: " ++ msg, status := "error" }

/-- The `try` block of `handleSubmit` up to the settled mint: the requests
made and, when one of them failed, the message of the error. -/
def submit {β : Type} (env : MintEnv β) (account : String) (formData : FormData) (file : β) :
    List (Call β) × Option String :=
  match uploadToIPFS env.client file with
  | .error msg => ([.uploadToIPFS file], some msg)
  | .ok imageCID =>
  let imageUrl := "https://ipfs.io/ipfs/" ++ imageCID
  let metadata := createNFTMetadata env.now formData.name formData.description imageUrl
    formData.materials formData.artisanDetails
  match uploadMetadataToIPFS env.codec env.client metadata with
  | .error msg => ([.uploadToIPFS file, .uploadMetadataToIPFS metadata], some msg)
  | .ok metadataCID =>
  let tokenURI := "https://ipfs.io/ipfs/" ++ metadataCID
  let args := [account, formData.description, formData.materials, formData.artisanDetails,
    tokenURI]
  let calls : List (Call β) :=
    [.uploadToIPFS file, .uploadMetadataToIPFS metadata, .mintNFT args]
  match env.writes.mintNFT args with
  | .error msg => (calls, some msg)
  | .ok tx =>
  match tx.wait with
  | .error msg => (calls, some msg)
  | .ok _ => (calls, none)

/-- The function `handleSubmit(e)`. After a confirmed mint the form is reset
and the read path `fetchMyNFTs()` is started again. -/
def handleSubmit {β : Type} (s : Session) (env : MintEnv β) (st : Form β) :
    Trace β × Form β :=
  let rejected : Trace β × Form β :=
    ({ calls := [],
       toasts := [{ title := "Error",
                    description := "You must be a registered artisan to mint NFTs.",
                    status := "error" }] }, st)
  match s.contract, s.account with
  | some _, some account =>
    if account = "" ∨ s.isArtisan = false then rejected else
    match st.file with
    | none =>
      ({ calls := [],
         toasts := [{ title := "Error", description := "Please select an image file.",
                      status := "error" }] }, st)
    | some file =>
      match submit env account st.formData file with
      | (calls, some msg) =>
        ({ calls := calls, toasts := [failed msg] },
         { st with isUploading := false, isMinting := false })
      | (calls, none) =>
        ({ calls := calls,
           toasts := [{ title := "Success", description := "NFT minted successfully!",
                        status := "success" }] },
         { formData := { name := "", description := "", materials := "", artisanDetails := "" },
           file := none, previewUrl := "", isUploading := false, isMinting := false })
  | _, _ => rejected

end ArtisanDashboard

/-! ## `components/MintTestNFT.js` -/

namespace MintTestNFT

/-- The state variables of the component. -/
structure State where
  name : String
  description : String
  materials : String
  artisanDetails : String
  price : String
  loading : Bool
  mintSuccess : Bool
  tokenId : Option String
  deriving DecidableEq

/-- The initial values passed to `useState`, which `resetForm` restores. -/
def initial : State :=
  { name := "Test NFT", description := "This is a test NFT", materials := "Digital",
    artisanDetails := "Test Artisan", price := "0.01", loading := false, mintSuccess := false,
    tokenId := none }

/-- The message chosen in the `catch` block of `handleMint` from
`error.message`. -/
def errorMessage (message : String) : String :=
  if includes message "user rejected" then "Transaction was rejected in your wallet"
  else if includes message "insufficient funds" then
    "You don't have enough ETH to complete this transaction"
  else message

/-- The toast of the `catch` block of `handleMint`. -/
def failed (message : String) : Toast :=
  { title := "Error", description := "Failed to mint NFT: " ++ errorMessage message,
    status := "error" }

/-- The part of the `try` block of `handleMint` after the token id was
read: the optional listing. The result is the requests made and, when
something raised, the message of the error. -/
def listForSale {β : Type} (env : MintEnv β) (newTokenId price : String) :
    List (Call β) × Option String :=
  if (parseFloat price).gtZero then
    match Ethers.parseEtherThrowing env.ethersVersion price with
    | .error msg => ([], some msg)
    | .ok priceInWei =>
    match env.writes.setNFTForSale newTokenId priceInWei with
    | .error msg => ([.setNFTForSale newTokenId priceInWei], some msg)
    | .ok saleTx =>
    match saleTx.wait with
    | .error msg => ([.setNFTForSale newTokenId priceInWei], some msg)
    | .ok _ => ([.setNFTForSale newTokenId priceInWei], none)
  else ([], none)

/-- The function `handleMint()`. The test on `contract.runner` and
`contract.runner.provider` passes for every handle the session constructs:
its runner is the signer obtained from the `BrowserProvider`. -/
def handleMint {β : Type} (s : Session) (env : MintEnv β) (st : State) : Trace β × State :=
  let notConnected : Trace β × State :=
    ({ calls := [],
       toasts := [{ title := "Error", description := "Please connect your wallet first",
                    status := "error" }] }, st)
  match s.contract, s.account with
  | some _, some account =>
    if account = "" then notConnected else
    let metadata := createNFTMetadata env.now st.name st.description
      "https://via.placeholder.com/500?text=Test+NFT" st.materials st.artisanDetails
    match uploadMetadataToIPFS env.codec env.client metadata with
    | .error msg =>
      ({ calls := [.uploadMetadataToIPFS metadata], toasts := [failed msg] },
       { st with loading := false })
    | .ok metadataURI =>
    let tokenURI := "ipfs://" ++ metadataURI
    let args := [account, st.description, st.materials, st.artisanDetails, tokenURI]
    let calls : List (Call β) := [.uploadMetadataToIPFS metadata, .mintNFT args]
    match env.writes.mintNFT args with
    | .error msg => ({ calls := calls, toasts := [failed msg] }, { st with loading := false })
    | .ok tx =>
    match tx.wait with
    | .error msg => ({ calls := calls, toasts := [failed msg] }, { st with loading := false })
    | .ok _ =>
    match env.totalSupply with
    | .error msg => ({ calls := calls, toasts := [failed msg] }, { st with loading := false })
    | .ok totalSupply =>
    let newTokenId := toString totalSupply
    match listForSale env newTokenId st.price with
    | (listing, some msg) =>
      ({ calls := calls ++ listing, toasts := [failed msg] },
       { st with tokenId := some newTokenId, loading := false })
    | (listing, none) =>
      ({ calls := calls ++ listing,
         toasts := [{ title := "Success",
                      description := "NFT #" ++ newTokenId ++ " minted successfully!",
                      status := "success" }] },
       { st with tokenId := some newTokenId, mintSuccess := true, loading := false })
  | _, _ => notConnected

/-- The component renders nothing unless the user is an administrator or an
artisan (`if (!isAdmin && !isArtisan) return null`). -/
def rendered (s : Session) : Bool :=
  s.isAdmin || s.isArtisan

/-- A click on the `Mint NFT` button of the dialog: the button is there
when the component is rendered and no mint has succeeded yet, and it does
not react while `loading` is set. -/
def clickMint {β : Type} (s : Session) (env : MintEnv β) (st : State) : Trace β × State :=
  if rendered s && !st.mintSuccess && !st.loading then handleMint s env st
  else ({ calls := [], toasts := [] }, st)

end MintTestNFT

/-! ## `pages/Mint.js` -/

namespace Mint

/-- The state variable `form`. -/
structure Form where
  description : String
  materials : String
  artisanDetails : String
  ipfsLink : String
  deriving DecidableEq

/-- The function `handleMint()` of the page; with no contract bound the call
`contract.mintNFT` raises inside the `try`. -/
def handleMint (contract : Option ContractHandle) (writes : Writes) (form : Form) :
    Trace Unit :=
  let failed (msg : String) : Toast :=
    { title := "Mint Failed", description := msg, status := "error" }
  match contract with
  | none =>
    { calls := [], toasts := [failed "Cannot read properties of null (reading 'mintNFT')"] }
  | some _ =>
    let args := [form.description, form.materials, form.artisanDetails, form.ipfsLink]
    match writes.mintNFT args with
    | .error msg => { calls := [.mintNFT args], toasts := [failed msg] }
    | .ok tx =>
    match tx.wait with
    | .error msg => { calls := [.mintNFT args], toasts := [failed msg] }
    | .ok _ =>
      { calls := [.mintNFT args],
        toasts := [{ title := "NFT Minted Successfully!",
                     description := "Your artwork is now on the blockchain.",
                     status := "success" }] }

/-- The page shows the form, and with it the mint button, only to an
artisan (`if (!isArtisan) return …`). -/
def showsForm (s : Session) : Bool :=
  s.isArtisan

end Mint

/-! ## `scripts/test-contract.js` -/

namespace TestContract

/-- The arguments of the `mintNFT` call of the script `main`, for the
address of the deployer. -/
def mintArgs (deployerAddress : String) : List String :=
  [deployerAddress, "Test NFT Description", "Digital Materials", "Test Artisan Details",
    "ipfs://QmXExS4BMc1YrH6iWERyryFcDWkvobxryXSwECLrcd7Y1H"]

end TestContract

/-! ## `pages/AdminDashboard.js` -/

namespace AdminDashboard

/-- The part of the component state `handleRegisterArtisan` reads and
writes. -/
structure State where
  newArtisanAddress : String
  isRegistering : Bool
  deriving DecidableEq

/-- A character of the class `[a-fA-F0-9]`. -/
def isHexChar (c : Char) : Bool :=
  decide ('a' ≤ c ∧ c ≤ 'f') || decide ('A' ≤ c ∧ c ≤ 'F') || decide ('0' ≤ c ∧ c ≤ '9')

/-- The test `newArtisanAddress.match(/^0x[a-fA-F0-9]{40}$/)`. -/
def matchesAddress (s : String) : Bool :=
  match s.data with
  | '0' :: 'x' :: rest => decide (rest.length = 40) && rest.all isHexChar
  | _ => false

/-- The function `handleRegisterArtisan()`. After a confirmed registration
the field is cleared and the list of artisans is read again. -/
def handleRegisterArtisan (s : Session) (writes : Writes) (st : State) : Trace Unit × State :=
  match s.contract with
  | none => ({ calls := [], toasts := [] }, st)
  | some contract =>
  if s.isAdmin = false ∨ st.newArtisanAddress = "" then ({ calls := [], toasts := [] }, st) else
  if !matchesAddress st.newArtisanAddress then
    ({ calls := [],
       toasts := [{ title := "Invalid Address",
                    description := "Please enter a valid Ethereum address.",
                    status := "error" }] }, st)
  else
  let failed (msg : String) : Toast :=
    { title := "Error", description := "Failed to register artisan: " ++ msg, status := "error" }
  match contract.ledger.roles.ARTISAN_ROLE with
  | .error msg => ({ calls := [], toasts := [failed msg] }, { st with isRegistering := false })
  | .ok artisanRole =>
  match contract.ledger.roles.hasRole artisanRole st.newArtisanAddress with
  | .error msg => ({ calls := [], toasts := [failed msg] }, { st with isRegistering := false })
  | .ok isAlreadyArtisan =>
  if isAlreadyArtisan then
    ({ calls := [],
       toasts := [{ title := "Already Registered",
                    description := "This address is already registered as an artisan.",
                    status := "warning" }] },
     { st with isRegistering := false })
  else
  let calls : List (Call Unit) := [.registerArtisan st.newArtisanAddress]
  match writes.registerArtisan st.newArtisanAddress with
  | .error msg => ({ calls := calls, toasts := [failed msg] }, { st with isRegistering := false })
  | .ok tx =>
  match tx.wait with
  | .error msg => ({ calls := calls, toasts := [failed msg] }, { st with isRegistering := false })
  | .ok _ =>
    ({ calls := calls,
       toasts := [{ title := "Success", description := "Artisan registered successfully!",
                    status := "success" }] },
     { newArtisanAddress := "", isRegistering := false })

end AdminDashboard

/-! ## `components/MyCollection.js`: listing an item -/

/-- The property `isConnected` that `MyCollection` and `NFTMarketplace` take
from the context value (`const { contract, account, isConnected } =
useWeb3()`): the `value` object of `Web3Provider` has no such property,
whatever the session is, so the read gives `undefined`. -/
def Session.isConnected (_ : Session) : JsVal :=
  .undefined

namespace MyCollection

/-- The part of the component state the sale form reads and writes. -/
structure SaleForm where
  selectedNFT : Option CollectionItem
  price : String
  processing : Bool
  deriving DecidableEq

/-- The function `handleSetForSale()`; the toast of the `catch` block shows
`error.message`, for an error of `parseEther` the message the library
composes. After a confirmed listing the dialog is closed and the read path
`loadMyNFTs()` is started again. -/
def handleSetForSale (contract : Option ContractHandle) (writes : Writes)
    (ethersVersion : String) (st : SaleForm) : Trace Unit × SaleForm :=
  match st.selectedNFT with
  | none => ({ calls := [], toasts := [] }, st)
  | some selectedNFT =>
  if st.price = "" then ({ calls := [], toasts := [] }, st) else
  let failed (msg : String) : Toast := { title := "Error", description := msg, status := "error" }
  match Ethers.parseEtherThrowing ethersVersion st.price with
  | .error msg => ({ calls := [], toasts := [failed msg] }, { st with processing := false })
  | .ok priceInWei =>
  match contract with
  | none =>
    ({ calls := [],
       toasts := [failed "Cannot read properties of null (reading 'setNFTForSale')"] },
     { st with processing := false })
  | some _ =>
  let calls : List (Call Unit) := [.setNFTForSale selectedNFT.tokenId priceInWei]
  match writes.setNFTForSale selectedNFT.tokenId priceInWei with
  | .error msg => ({ calls := calls, toasts := [failed msg] }, { st with processing := false })
  | .ok tx =>
  let sent : Toast :=
    { title := "Transaction Sent", description := "Setting NFT for sale: " ++ tx.hash,
      status := "info" }
  match tx.wait with
  | .error msg =>
    ({ calls := calls, toasts := [sent, failed msg] }, { st with processing := false })
  | .ok _ =>
    ({ calls := calls,
       toasts := [sent,
         { title := "Success",
           description := "NFT #" ++ selectedNFT.tokenId ++ " is now for sale at " ++ st.price ++
             " ETH",
           status := "success" }] },
     { st with processing := false })

/-- The attribute `isDisabled={!price || price <= 0}` of the button that
calls `handleSetForSale`, its only caller. -/
def setForSaleDisabled (price : String) : Bool :=
  decide (price = "") || (toNumber price).leZero

/-- What the render reads besides the sale form: `isConnected` from the
context value, the state variable `loading` and whether the dialog is open. -/
structure Page where
  isConnected : JsVal
  loading : Bool
  isOpen : Bool

/-- A click on the button that calls `handleSetForSale`. The component
returns early, without the dialog, while `!isConnected` and while `loading`;
the button sits in the dialog, which shows its content when it is open and
an item is selected; a disabled button does not react, and neither does it
while it shows the spinner (`isLoading={processing && !selectedNFT.isForSale}`). -/
def clickSetForSale (page : Page) (contract : Option ContractHandle) (writes : Writes)
    (ethersVersion : String) (st : SaleForm) : Trace Unit × SaleForm :=
  if !page.isConnected.truthy || page.loading || !page.isOpen then
    ({ calls := [], toasts := [] }, st)
  else
    match st.selectedNFT with
    | none => ({ calls := [], toasts := [] }, st)
    | some selectedNFT =>
      if setForSaleDisabled st.price || (st.processing && !selectedNFT.isForSale) then
        ({ calls := [], toasts := [] }, st)
      else handleSetForSale contract writes ethersVersion st

end MyCollection

/-! ## `pages/Marketplace.js`: search and filter

The method `String.prototype.toLowerCase` is built into the language and
maps every cased character of Unicode; the functions below take it as the
parameter `lower`. -/

namespace Marketplace

/-- The call `v.toLowerCase()` on a field of a record: `TypeError` unless the
value is a string. -/
def lowerCased (lower : String → String) (field : String) (v : JsVal) : Except String String :=
  match v with
  | .str s => .ok (lower s)
  | .undefined => .error "Cannot read properties of undefined (reading 'toLowerCase')"
  | .null => .error "Cannot read properties of null (reading 'toLowerCase')"
  | _ => .error ("nft." ++ field ++ ".toLowerCase is not a function")

/-- The constant `matchesSearch` of the filter callback; the description is
looked at only when the name does not match. -/
def matchesSearch (lower : String → String) (searchTerm : String) (nft : NFT) :
    Except String Bool :=
  match lowerCased lower "name" nft.name with
  | .error e => .error e
  | .ok name =>
    if includes name (lower searchTerm) then .ok true
    else
      match lowerCased lower "description" nft.description with
      | .error e => .error e
      | .ok description => .ok (includes description (lower searchTerm))

/-- The callback of `nfts.filter(…)` in `filteredNFTs`. -/
def keeps (lower : String → String) (searchTerm filter : String) (nft : NFT) :
    Except String Bool :=
  match matchesSearch lower searchTerm nft with
  | .error e => .error e
  | .ok m =>
    if filter = "forSale" then .ok (m && nft.isForSale)
    else if filter = "notForSale" then .ok (m && !nft.isForSale)
    else .ok m

/-- The method `Array.prototype.filter` with a callback that may raise: the
callback is applied to the elements in order and the first error ends the
call. -/
def filterRecords (p : NFT → Except String Bool) : List NFT → Except String (List NFT)
  | [] => .ok []
  | nft :: rest =>
    match p nft with
    | .error e => .error e
    | .ok keep =>
      match filterRecords p rest with
      | .error e => .error e
      | .ok kept => .ok (if keep then nft :: kept else kept)

/-- The constant `filteredNFTs` of a render. -/
def filteredNFTs (lower : String → String) (nfts : List NFT) (searchTerm filter : String) :
    Except String (List NFT) :=
  filterRecords (keeps lower searchTerm filter) nfts

/-- The constant `visibleNFTs` of a render. -/
def visibleNFTs (lower : String → String) (nfts : List NFT) (searchTerm filter : String)
    (hiddenNFTs : List Nat) : Except String (List NFT) :=
  match filteredNFTs lower nfts searchTerm filter with
  | .error e => .error e
  | .ok filtered => .ok (filtered.filter fun nft => !hiddenNFTs.contains nft.id)

/-- The function `handleHideNFT(id)`: the id is appended to the state
variable `hiddenNFTs`, which starts empty. -/
def handleHideNFT (id : Nat) (hiddenNFTs : List Nat) : List Nat :=
  hiddenNFTs ++ [id]

end Marketplace

/-! ## Sample wallet answers and forms -/

/-- A transaction that is confirmed. -/
def sampleTx : Tx :=
  { hash := "0x7a", wait := .ok () }

/-- A wallet and ledger that accept every call. -/
def sampleWrites : Writes :=
  { mintNFT := fun _ => .ok sampleTx
    setNFTForSale := fun _ _ => .ok sampleTx
    registerArtisan := fun _ => .ok sampleTx }

/-- The surroundings of a mint that goes through; the ledger then counts
five items. -/
def sampleEnv : MintEnv JsonDoc :=
  { now := "2024-01-01T00:00:00.000Z", codec := sampleCodec, client := sampleClient,
    writes := sampleWrites, totalSupply := .ok 5, ethersVersion := "6.13.5" }

/-- The session after the administrator of the sample deployment has
connected. -/
def adminSession : Session :=
  (Session.connectWallet sampleBrowser Session.initial).2

/-- A session of the artisan `0xA2` of the sample deployment. -/
def artisanSession : Session :=
  { Session.initial with
    contract := some { runner := { address := "0xA2" }, ledger := sampleDeployment }
    account := some "0xA2", isArtisan := true, loading := false }

/-- A filled mint form of the dashboard with a selected image. -/
def sampleForm : ArtisanDashboard.Form JsonDoc :=
  { formData := { name := "Vase", description := "A vase", materials := "Clay",
                  artisanDetails := "Asha" }
    file := some (.str "image bytes"), previewUrl := "", isUploading := false,
    isMinting := false }

/-- A wallet whose signer cannot be obtained after the accounts were
authorized. -/
def lockedBrowser : Browser :=
  { ethereum := some { sampleEthereum with getSigner := .error "unknown account #0" }
    contractTarget := .ok sampleDeployment }

/-- An item of the collection that is not listed. -/
def sampleItem : CollectionItem :=
  { tokenId := "3", tokenURI := "", isForSale := false, price := "1.0",
    description := .str "Hand-thrown vase", materials := .str "Clay",
    artisanDetails := .str "Asha", name := .str "Artisan NFT #3",
    image := .str "https://via.placeholder.com/400?text=Artisan+NFT" }

/-- The role reads of the sample deployment after the address of the test
script was registered as an artisan. -/
def registeredRoles : RoleReads :=
  { ADMIN_ROLE := .ok "0x00"
    ARTISAN_ROLE := .ok "0x01"
    hasRole := fun role address =>
      .ok (decide (role = "0x00" ∧ address = "0xAd01") ||
        decide (role = "0x01" ∧ address = "0x711C527EB5211e38747d82f40E162fEC650C5eAd")) }

/-- The session of the administrator on that deployment. -/
def registeredSession : Session :=
  { adminSession with
    contract := some { runner := { address := "0xAd01" },
                       ledger := { sampleDeployment with roles := registeredRoles } } }

/-- Two records as the marketplace page holds them: a listed vase and an
unlisted bowl. -/
def sampleRecords : List NFT :=
  [ { id := 1, owner := "0xAbCd", name := .str "Vase", description := .str "Hand-thrown vase",
      image := .str "ipfs://QmImg", materials := .str "Clay", artisanDetails := .str "Asha",
      creationDate := "day 19675", isForSale := true, price := .val 1 },
    { id := 3, owner := "0x00a1", name := .str "NFT #3", description := .str "A glazed BOWL",
      image := .str "https://via.placeholder.com/300?text=No+Image", materials := .str "Clay",
      artisanDetails := .str "Asha", creationDate := "day 19675", isForSale := false,
      price := .val 0 } ]

/-- A content store whose document for the sample locator has a number as
its name. -/
def numericNameStore : World :=
  { fetch := fun url =>
      if url = "https://ipfs.io/ipfs/QmVase" then
        .ok { status := 200,
              json := .ok (.obj [("name", .num (.val 5)), ("description", .str "A vase")]) }
      else .error "Failed to fetch"
    localeDate := fun d => "day " ++ toString (d / 86400) }

/-- The built-in `String.prototype.toLowerCase` on the Basic Latin and
Latin-1 letters, for the samples; the filter of the marketplace page takes
the built-in as a parameter. -/
def latin1Lower (s : String) : String :=
  ⟨s.data.map fun c =>
    if (0x41 ≤ c.toNat ∧ c.toNat ≤ 0x5A) ∨ (0xC0 ≤ c.toNat ∧ c.toNat ≤ 0xDE ∧ c.toNat ≠ 0xD7)
    then Char.ofNat (c.toNat + 32) else c⟩

/-- Two records with a letter outside the ASCII range in the name of the
first. -/
def accentRecords : List NFT :=
  [ { id := 7, owner := "0xAbCd", name := .str "CAFÉ pot", description := .str "Stoneware",
      image := .str "ipfs://QmPot", materials := .str "Clay", artisanDetails := .str "Asha",
      creationDate := "day 19675", isForSale := true, price := .val 1 },
    { id := 8, owner := "0xAbCd", name := .str "Cup", description := .str "Porcelain",
      image := .str "ipfs://QmCup", materials := .str "Clay", artisanDetails := .str "Asha",
      creationDate := "day 19675", isForSale := false, price := .val 0 } ]

/-- A browser whose wallet is installed but has not yet authorized an
account for the page: `listAccounts()` is empty, and a connection request
is answered with the administrator account. -/
def freshBrowser : Browser :=
  { ethereum := some { sampleEthereum with listAccounts := .ok [] }
    contractTarget := .ok sampleDeployment }

/-- A content store in which the public gateway answers the sample locator
with status 504 and a body that is no JSON, while the Pinata gateway serves
the sample document. -/
def secondGatewayStore : World :=
  { fetch := fun url =>
      if url = "https://ipfs.io/ipfs/QmVase" then
        .ok { status := 504, json := .error "Unexpected token '<'" }
      else if url = "https://gateway.pinata.cloud/ipfs/QmVase" then
        .ok { status := 200,
              json := .ok (.obj [("name", .str "Vase"), ("description", .str "A vase"),
                ("image", .str "ipfs://QmImg")]) }
      else .error "Failed to fetch"
    localeDate := fun d => "day " ++ toString (d / 86400) }

set_option maxRecDepth 100000

/-! ## Lemmas on the unit helpers -/

namespace Ethers

theorem digitsVal_foldl (s : List Char) (a : Nat) :
    s.foldl (fun a c => 10 * a + (c.toNat - 48)) a = a * 10 ^ s.length + digitsVal s := by
  induction s generalizing a with
  | nil => simp [digitsVal]
  | cons c cs ih =>
    simp only [List.foldl_cons, List.length_cons, digitsVal]
    rw [ih (10 * a + (c.toNat - 48)), ih (10 * 0 + (c.toNat - 48))]
    ring

theorem digitsVal_append (a b : List Char) :
    digitsVal (a ++ b) = digitsVal a * 10 ^ b.length + digitsVal b := by
  unfold digitsVal
  rw [List.foldl_append, digitsVal_foldl]
  rfl

theorem digitsVal_zeros (k : Nat) : digitsVal (List.replicate k '0') = 0 := by
  induction k with
  | zero => rfl
  | succ k ih =>
    have h : List.replicate (k + 1) '0' = ['0'] ++ List.replicate k '0' := by
      simp [List.replicate_succ]
    rw [h, digitsVal_append, ih]
    simp [digitsVal]

theorem digitChar_val (d : Nat) (h : d < 10) :
    (Nat.digitChar d).toNat - 48 = d ∧ (Nat.digitChar d).isDigit = true := by
  interval_cases d <;> decide

theorem toDigitsCore_append (fuel n : Nat) (acc : List Char) :
    Nat.toDigitsCore 10 fuel n acc = Nat.toDigitsCore 10 fuel n [] ++ acc := by
  induction fuel generalizing n acc with
  | zero => simp [Nat.toDigitsCore]
  | succ f ih =>
    simp only [Nat.toDigitsCore]
    split
    · simp
    · rw [ih (n / 10) (_ :: acc), ih (n / 10) [_]]
      simp

theorem toDigitsCore_spec (fuel n : Nat) (h : n < fuel) :
    digitsVal (Nat.toDigitsCore 10 fuel n []) = n ∧
      ∀ c ∈ Nat.toDigitsCore 10 fuel n [], c.isDigit = true := by
  induction fuel generalizing n with
  | zero => omega
  | succ f ih =>
    have hd := digitChar_val (n % 10) (Nat.mod_lt _ (by decide))
    simp only [Nat.toDigitsCore]
    split
    · rename_i h0
      refine ⟨?_, ?_⟩
      · simp only [digitsVal, List.foldl_cons, List.foldl_nil]
        rw [hd.1]
        omega
      · intro c hc
        simp only [List.mem_singleton] at hc
        rw [hc]
        exact hd.2
    · rename_i h0
      have hlt : n / 10 < f := by omega
      obtain ⟨hv, hall⟩ := ih (n / 10) hlt
      rw [toDigitsCore_append]
      refine ⟨?_, ?_⟩
      · rw [digitsVal_append, hv]
        simp only [digitsVal, List.foldl_cons, List.foldl_nil, List.length_singleton]
        rw [hd.1]
        omega
      · intro c hc
        rcases List.mem_append.1 hc with hc | hc
        · exact hall c hc
        · simp only [List.mem_singleton] at hc
          rw [hc]
          exact hd.2

theorem toDigits_val (n : Nat) : digitsVal (Nat.toDigits 10 n) = n :=
  (toDigitsCore_spec (n + 1) n (Nat.lt_succ_self n)).1

theorem toDigits_isDigit (n : Nat) : ∀ c ∈ Nat.toDigits 10 n, c.isDigit = true :=
  (toDigitsCore_spec (n + 1) n (Nat.lt_succ_self n)).2

theorem stripZeros_digits (x r : List Char) (hx : ∀ c ∈ x, c.isDigit = true) :
    ∃ (k : Nat) (y : List Char),
      stripZeros (x ++ '.' :: r) = y ++ '.' :: r ∧ x = List.replicate k '0' ++ y ∧
        (x ≠ [] → y ≠ []) := by
  induction x with
  | nil =>
    refine ⟨0, [], ?_, rfl, fun h => h⟩
    simp [stripZeros]
  | cons c cs ih =>
    have hcs : ∀ c ∈ cs, c.isDigit = true := fun d hd => hx d (List.mem_cons_of_mem _ hd)
    obtain ⟨k, y, hy, hk, hne⟩ := ih hcs
    by_cases hc : c = '0'
    · cases cs with
      | nil =>
        refine ⟨0, [c], ?_, rfl, fun _ => by simp⟩
        simp [stripZeros]
      | cons d ds =>
        have hd : d ≠ '.' := by
          intro hdot
          have := hx d (by simp)
          rw [hdot] at this
          exact absurd this (by decide)
        refine ⟨k + 1, y, ?_, ?_, fun _ => hne (by simp)⟩
        · rw [← hy]
          simp [stripZeros, hc, hd]
        · rw [hk, hc]
          simp [List.replicate_succ]
    · refine ⟨0, c :: cs, ?_, rfl, fun h => h⟩
      simp [stripZeros, hc]

theorem isDigit_replicate_append {k : Nat} {x y : List Char}
    (h : x = List.replicate k '0' ++ y) (hx : ∀ c ∈ x, c.isDigit = true) :
    ∀ c ∈ y, c.isDigit = true := by
  intro c hc
  exact hx c (by rw [h]; exact List.mem_append_right _ hc)

theorem Zeros_eq : Zeros = List.replicate 128 '0' := rfl

theorem padWhole_spec (d : List Char) :
    ∃ j, padWhole 18 19 d = List.replicate j '0' ++ d ∧ 19 ≤ (padWhole 18 19 d).length := by
  by_cases h : d.length ≤ 18
  · have hzl : Zeros.length = 128 := by rw [Zeros_eq, List.length_replicate]
    have h2 : ¬ ((Zeros ++ d).length ≤ 18) := by
      rw [List.length_append, hzl]; omega
    have hp : padWhole 18 19 d = Zeros ++ d := by
      simp only [padWhole, h, h2, if_true, if_false]
    refine ⟨128, by rw [hp, Zeros_eq], ?_⟩
    rw [hp, List.length_append, hzl]
    omega
  · have hp : padWhole 18 19 d = d := by simp only [padWhole, h, if_false]
    refine ⟨0, by rw [hp]; rfl, ?_⟩
    rw [hp]
    omega

theorem toStringFixed_shape (p : Nat) :
    ∃ (w f : List Char) (m : Nat),
      toStringFixed p 18 = w ++ '.' :: f ∧ w ≠ [] ∧
      (∀ c ∈ w, c.isDigit = true) ∧ (∀ c ∈ f, c.isDigit = true) ∧
      f.length + m = 18 ∧ digitsVal (w ++ (f ++ List.replicate m '0')) = p := by
  obtain ⟨j, hP, hlen⟩ := padWhole_spec (Nat.toDigits 10 p)
  generalize hPdef : padWhole 18 19 (Nat.toDigits 10 p) = P at hP hlen
  have hPdig : ∀ c ∈ P, c.isDigit = true := by
    intro c hc
    rw [hP] at hc
    rcases List.mem_append.1 hc with hc | hc
    · rw [(List.mem_replicate.1 hc).2]; decide
    · exact toDigits_isDigit p c hc
  have hPval : digitsVal P = p := by
    rw [hP, digitsVal_append, digitsVal_zeros, toDigits_val]; simp
  have hWdig : ∀ c ∈ P.take (P.length - 18), c.isDigit = true :=
    fun c hc => hPdig c (List.mem_of_mem_take hc)
  have hFdig : ∀ c ∈ P.drop (P.length - 18), c.isDigit = true :=
    fun c hc => hPdig c (List.mem_of_mem_drop hc)
  have hWne : P.take (P.length - 18) ≠ [] := by
    intro h
    have := congrArg List.length h
    simp at this
    omega
  have hFlen : (P.drop (P.length - 18)).length = 18 := by
    simp; omega
  obtain ⟨k, w, hw, hkw, hwne⟩ :=
    stripZeros_digits (P.take (P.length - 18)) (P.drop (P.length - 18)) hWdig
  have hFrdig : ∀ c ∈ (P.drop (P.length - 18)).reverse, c.isDigit = true :=
    fun c hc => hFdig c (List.mem_reverse.1 hc)
  obtain ⟨m, y, hy, hmy, _⟩ :=
    stripZeros_digits (P.drop (P.length - 18)).reverse w.reverse hFrdig
  have hF : P.drop (P.length - 18) = y.reverse ++ List.replicate m '0' := by
    have := congrArg List.reverse hmy
    simpa using this
  refine ⟨w, y.reverse, m, ?_, hwne hWne, isDigit_replicate_append hkw hWdig, ?_, ?_, ?_⟩
  · simp only [toStringFixed, hPdef]
    simp only [show (18 : Nat) ≠ 0 by decide, if_false]
    rw [hw]
    have : (w ++ '.' :: List.drop (P.length - 18) P).reverse
        = (P.drop (P.length - 18)).reverse ++ '.' :: w.reverse := by simp
    rw [this, hy]
    simp
  · intro c hc
    exact isDigit_replicate_append hmy hFrdig c (List.mem_reverse.1 hc)
  · have := congrArg List.length hF
    rw [hFlen] at this
    simp only [List.length_append, List.length_reverse, List.length_replicate] at this
    rw [List.length_reverse]
    omega
  · rw [← hF]
    have h1 : digitsVal (w ++ List.drop (P.length - 18) P)
        = digitsVal (P.take (P.length - 18) ++ P.drop (P.length - 18)) := by
      rw [digitsVal_append, digitsVal_append, hkw, digitsVal_append, digitsVal_zeros]
      simp
    rw [h1, List.take_append_drop, hPval]

theorem matchFixed_digits (w f : List Char) (hw : w ≠ [])
    (hwd : ∀ c ∈ w, c.isDigit = true) (hfd : ∀ c ∈ f, c.isDigit = true) :
    matchFixed (w ++ '.' :: f) = some (false, w, f) := by
  have hdot : ¬ (Char.isDigit '.' = true) := by decide
  have hhead : (w ++ '.' :: f).head? ≠ some '-' := by
    cases w with
    | nil => exact absurd rfl hw
    | cons c cs =>
      intro h
      have hc : c = '-' := by simpa using h
      have := hwd c (by simp)
      rw [hc] at this
      exact absurd this (by decide)
  have hall : f.all Char.isDigit = true := List.all_eq_true.2 hfd
  simp only [matchFixed, hhead, decide_False, Bool.false_eq_true, if_false,
    List.takeWhile_append_of_pos hwd, List.dropWhile_append_of_pos hwd,
    List.takeWhile_cons_of_neg hdot, List.dropWhile_cons_of_neg hdot, List.head?_cons,
    if_true, List.drop_succ_cons, List.drop_zero, hall, List.append_nil]

theorem padDecimal_spec (f : List Char) (m : Nat) (hlen : f.length + m = 18) :
    ((padDecimal 18 19 f).drop 18).all (fun c => decide (c = '0')) = true ∧
      (padDecimal 18 19 f).take 18 = f ++ List.replicate m '0' := by
  by_cases h : f.length < 18
  · have hzl : Zeros.length = 128 := by rw [Zeros_eq, List.length_replicate]
    have hp : padDecimal 18 19 f = f ++ Zeros := by
      have h2 : ¬ ((f ++ Zeros).length < 18) := by
        rw [List.length_append, hzl]; omega
      simp only [padDecimal, h, h2, if_true, if_false]
    rw [hp]
    refine ⟨?_, ?_⟩
    · rw [List.all_eq_true]
      intro c hc
      rw [List.drop_append_eq_append_drop, List.drop_eq_nil_of_le (by omega),
        List.nil_append] at hc
      have hc := List.mem_of_mem_drop hc
      rw [Zeros_eq] at hc
      rw [(List.mem_replicate.1 hc).2]
      rfl
    · rw [List.take_append_eq_append_take, List.take_of_length_le (by omega), Zeros_eq,
        List.take_replicate]
      congr 2
      omega
  · have hm : m = 0 := by omega
    have hp : padDecimal 18 19 f = f := by simp only [padDecimal, h, if_false]
    rw [hp, hm]
    refine ⟨?_, ?_⟩
    · rw [List.drop_eq_nil_of_le (by omega)]
      rfl
    · rw [List.take_of_length_le (by omega)]
      simp

theorem fromStringFixed_digits (w f : List Char) (m : Nat) (hw : w ≠ [])
    (hwd : ∀ c ∈ w, c.isDigit = true) (hfd : ∀ c ∈ f, c.isDigit = true)
    (hlen : f.length + m = 18) :
    fromStringFixed (w ++ '.' :: f) 18 512
      = checkValue (digitsVal (w ++ (f ++ List.replicate m '0')) : Nat) 512 := by
  obtain ⟨hz, ht⟩ := padDecimal_spec f m hlen
  have hwl : w.length ≠ 0 := fun h => hw (List.length_eq_zero.1 h)
  have hne : ¬ (w.length + f.length = 0) := by omega
  simp only [fromStringFixed, matchFixed_digits w f hw hwd hfd, hne, if_false, hw, hz, ht,
    if_true, Bool.false_eq_true]

theorem checkValue_ofNat (n width : Nat) :
    checkValue (Int.ofNat n) width
      = if n < 1 <<< (width - 1) then Except.ok (Int.ofNat n) else Except.error "overflow" :=
  rfl

theorem checkValue_natCast_eq (p : Nat) :
    checkValue (p : Int) 512
      = if p < 2 ^ 511 then Except.ok (p : Int) else Except.error "overflow" := by
  rw [show ((p : Nat) : Int) = Int.ofNat p from rfl, checkValue_ofNat,
    show (512 - 1 : Nat) = 511 from rfl, Nat.one_shiftLeft]

theorem checkValue_natCast {p : Nat} (hp : p < 2 ^ 511) :
    checkValue (p : Int) 512 = .ok (p : Int) := by
  rw [checkValue_natCast_eq, if_pos hp]

theorem checkValue_natCast_ok {p : Nat} {r : Int} (h : checkValue (p : Int) 512 = .ok r) :
    p < 2 ^ 511 := by
  rw [checkValue_natCast_eq] at h
  by_cases hp : p < 2 ^ 511
  · exact hp
  · rw [if_neg hp] at h
    exact Except.noConfusion h

theorem formatEther_eq_ok {p : Nat} {s : String} (h : formatEther p = .ok s) :
    s = ⟨toStringFixed p 18⟩ ∧ p < 2 ^ 511 := by
  unfold formatEther at h
  cases hc : checkValue (p : Int) 512 with
  | error e =>
    rw [hc] at h
    exact Except.noConfusion h
  | ok r =>
    rw [hc] at h
    exact ⟨(Except.ok.inj h).symm, checkValue_natCast_ok hc⟩

theorem formatEther_of_lt {p : Nat} (hp : p < 2 ^ 511) :
    formatEther p = .ok ⟨toStringFixed p 18⟩ := by
  unfold formatEther
  rw [checkValue_natCast hp]

theorem parseEther_toStringFixed (p : Nat) (hp : p < 2 ^ 511) :
    fromStringFixed (toStringFixed p 18) 18 512 = .ok (p : Int) := by
  obtain ⟨w, f, m, hs, hw, hwd, hfd, hlen, hval⟩ := toStringFixed_shape p
  rw [hs, fromStringFixed_digits w f m hw hwd hfd hlen, hval]
  exact checkValue_natCast hp

/-- Round trip of the unit helpers: whatever `formatEther` prints for an
amount, `parseEther` reads back as that amount. -/
theorem parseEther_formatEther {p : Nat} {s : String} (h : formatEther p = .ok s) :
    parseEther s = .ok (p : Int) := by
  obtain ⟨hs, hp⟩ := formatEther_eq_ok h
  rw [hs]
  exact parseEther_toStringFixed p hp

end Ethers

/-- The number read back from a formatted amount is the amount divided by
10^18. -/
theorem numberOfString_formatEther {p : Nat} {s : String} (h : Ethers.formatEther p = .ok s) :
    numberOfString s = .val ((p : ℚ) / 10 ^ 18) := by
  obtain ⟨hs, _⟩ := Ethers.formatEther_eq_ok h
  obtain ⟨w, f, m, hshape, hw, hwd, hfd, hlen, hval⟩ := Ethers.toStringFixed_shape p
  have hdot : ¬ (Char.isDigit '.' = true) := by decide
  have hdata : s.data = w ++ '.' :: f := by rw [hs]; exact hshape
  have htake : s.data.takeWhile Char.isDigit = w := by
    rw [hdata, List.takeWhile_append_of_pos hwd, List.takeWhile_cons_of_neg hdot,
      List.append_nil]
  have hdrop : s.data.dropWhile Char.isDigit = '.' :: f := by
    rw [hdata, List.dropWhile_append_of_pos hwd, List.dropWhile_cons_of_neg hdot]
  have hall : f.all Char.isDigit = true := List.all_eq_true.2 hfd
  have hpos : 0 < w.length + f.length := by
    have : w.length ≠ 0 := fun h0 => hw (List.length_eq_zero.1 h0)
    omega
  have hnum : numberOfString s
      = .val ((Ethers.digitsVal (w ++ f) : ℚ) / 10 ^ f.length) := by
    unfold numberOfString
    rw [hdrop, htake]
    exact if_pos ⟨rfl, hall, hpos⟩
  rw [hnum]
  have hp : p = Ethers.digitsVal (w ++ f) * 10 ^ m := by
    rw [← hval, ← List.append_assoc, Ethers.digitsVal_append, Ethers.digitsVal_zeros,
      List.length_replicate, Nat.add_zero]
  have h18 : (10 : ℚ) ^ 18 = 10 ^ f.length * 10 ^ m := by
    rw [← pow_add, hlen]
  congr 1
  rw [hp, h18]
  push_cast
  field_simp
  ring

/-! ## Lemmas on lists of fetched records -/

theorem Marketplace.fetchNFTData_eq_some {c : Contract} {w : World} {tokenId : Nat} {r : NFT}
    (h : Marketplace.fetchNFTData c w tokenId = some r) :
    ∃ owner uri isForSale price priceNumber,
      c.ownerOf tokenId = .ok owner ∧ c.tokenURI tokenId = .ok uri ∧
      c.isForSale tokenId = .ok (isForSale, price) ∧
      Marketplace.priceField isForSale price = .ok priceNumber ∧
      r = Marketplace.mergeRecord w tokenId owner (Marketplace.fetchMetadata w uri)
        (Marketplace.onChainMetadata c tokenId) isForSale priceNumber := by
  unfold Marketplace.fetchNFTData at h
  cases h1 : c.ownerOf tokenId with
  | error e => simp [h1] at h
  | ok owner =>
    cases h2 : c.tokenURI tokenId with
    | error e => simp [h1, h2] at h
    | ok uri =>
      cases h3 : c.isForSale tokenId with
      | error e => simp [h1, h2, h3] at h
      | ok sale =>
        obtain ⟨b, p⟩ := sale
        cases h4 : Marketplace.priceField b p with
        | error e => simp [h1, h2, h3, h4] at h
        | ok pn =>
          simp only [h1, h2, h3, h4, Option.some.injEq] at h
          exact ⟨owner, uri, b, p, pn, rfl, rfl, rfl, h4, h.symm⟩

theorem Marketplace.fetchNFTData_id {c : Contract} {w : World} {tokenId : Nat} {r : NFT}
    (h : Marketplace.fetchNFTData c w tokenId = some r) : r.id = tokenId := by
  obtain ⟨_, _, _, _, _, _, _, _, _, hr⟩ := Marketplace.fetchNFTData_eq_some h
  rw [hr]
  rfl

theorem map_filterMap_key {α : Type} (f : Nat → Option α) (key : α → Nat)
    (hkey : ∀ i a, f i = some a → key a = i) (l : List Nat) :
    (l.filterMap f).map key = l.filter fun i => (f i).isSome := by
  induction l with
  | nil => rfl
  | cons i l ih =>
    cases hf : f i with
    | none => simp [List.filterMap_cons, List.filter_cons, hf, ih]
    | some a => simp [List.filterMap_cons, List.filter_cons, hf, ih, hkey i a hf]

/-- C1. With the total supply read as `N`, `fetchAllNFTs` stores the records
of exactly the ids in `1..N` whose `fetchNFTData` is not `null`, in strictly
ascending order of id (so each once), and leaves `error` at `null` whatever
the per-item outcomes; for `N = 0` the stored list is empty. -/
theorem Marketplace.fetchAllNFTs_ids (c : Contract) (w : World) (s : Marketplace.State)
    (N : Nat) (hN : c.totalSupply = .ok N) :
    ((Marketplace.fetchAllNFTs (some c) w s).nfts.map NFT.id
        = (List.range' 1 N).filter fun i => (Marketplace.fetchNFTData c w i).isSome) ∧
    (∀ i, i ∈ (Marketplace.fetchAllNFTs (some c) w s).nfts.map NFT.id
        ↔ 1 ≤ i ∧ i ≤ N ∧ Marketplace.fetchNFTData c w i ≠ none) ∧
    ((Marketplace.fetchAllNFTs (some c) w s).nfts.map NFT.id).Pairwise (· < ·) ∧
    (Marketplace.fetchAllNFTs (some c) w s).error = none ∧
    (N = 0 → (Marketplace.fetchAllNFTs (some c) w s).nfts = []) := by
  have hnfts : (Marketplace.fetchAllNFTs (some c) w s).nfts
      = (List.range' 1 N).filterMap (Marketplace.fetchNFTData c w) := by
    simp only [Marketplace.fetchAllNFTs, hN]
    split
    · rename_i h0
      rw [h0]
      rfl
    · simp only [List.reduceOption, List.filterMap_map]
      rfl
  have herr : (Marketplace.fetchAllNFTs (some c) w s).error = none := by
    simp only [Marketplace.fetchAllNFTs, hN]
    split <;> rfl
  have hids : (Marketplace.fetchAllNFTs (some c) w s).nfts.map NFT.id
      = (List.range' 1 N).filter fun i => (Marketplace.fetchNFTData c w i).isSome := by
    rw [hnfts]
    exact map_filterMap_key _ _ (fun _ _ h => Marketplace.fetchNFTData_id h) _
  refine ⟨hids, ?_, ?_, herr, ?_⟩
  · intro i
    rw [hids, List.mem_filter, List.mem_range'_1, Option.isSome_iff_ne_none]
    constructor
    · rintro ⟨⟨h1, h2⟩, h3⟩
      exact ⟨h1, by omega, h3⟩
    · rintro ⟨h1, h2, h3⟩
      exact ⟨⟨h1, by omega⟩, h3⟩
  · rw [hids]
    exact (List.pairwise_lt_range' 1 N).sublist (List.filter_sublist _)
  · intro h0
    rw [hnfts, h0]
    rfl

theorem ArtisanDashboard.dashboard_fetchNFTData_eq_some {c : Contract} {w : World} {tokenId : Nat}
    {r : NFT} (h : ArtisanDashboard.fetchNFTData c w tokenId = some r) :
    ∃ owner uri isForSale price m,
      c.ownerOf tokenId = .ok owner ∧ c.tokenURI tokenId = .ok uri ∧
      c.isForSale tokenId = .ok (isForSale, price) ∧ c.getItemMetadata tokenId = .ok m ∧
      r = ArtisanDashboard.mergeRecord w tokenId owner (ArtisanDashboard.fetchMetadata w uri)
        m isForSale price := by
  unfold ArtisanDashboard.fetchNFTData at h
  cases h1 : c.ownerOf tokenId with
  | error e => simp [h1] at h
  | ok owner =>
    cases h2 : c.tokenURI tokenId with
    | error e => simp [h1, h2] at h
    | ok uri =>
      cases h3 : c.isForSale tokenId with
      | error e => simp [h1, h2, h3] at h
      | ok sale =>
        obtain ⟨b, p⟩ := sale
        cases h4 : c.getItemMetadata tokenId with
        | error e => simp [h1, h2, h3, h4] at h
        | ok m =>
          simp only [h1, h2, h3, h4, Option.some.injEq] at h
          exact ⟨owner, uri, b, p, m, rfl, rfl, rfl, rfl, h.symm⟩

theorem NFTMarketplace.loadItem_eq_some {c : Contract} {w : World} {i : Nat}
    {item : MarketItem} (h : NFTMarketplace.loadItem c w i = some item) :
    ∃ owner uri isForSale price m priceString,
      c.ownerOf i = .ok owner ∧ c.tokenURI i = .ok uri ∧
      c.isForSale i = .ok (isForSale, price) ∧ c.getItemMetadata i = .ok m ∧
      Ethers.formatEther price = .ok priceString ∧
      NFTMarketplace.fetchIpfsMetadata w uri ≠ .null ∧
      item = NFTMarketplace.buildItem (toString i) owner uri isForSale priceString m
        (NFTMarketplace.fetchIpfsMetadata w uri) := by
  unfold NFTMarketplace.loadItem at h
  cases h1 : c.ownerOf i with
  | error e => simp [h1] at h
  | ok owner =>
    cases h2 : c.tokenURI i with
    | error e => simp [h1, h2] at h
    | ok uri =>
      cases h3 : c.isForSale i with
      | error e => simp [h1, h2, h3] at h
      | ok sale =>
        obtain ⟨b, p⟩ := sale
        cases h4 : c.getItemMetadata i with
        | error e => simp [h1, h2, h3, h4] at h
        | ok m =>
          cases h5 : Ethers.formatEther p with
          | error e => simp [h1, h2, h3, h4, h5] at h
          | ok ps =>
            by_cases h6 : NFTMarketplace.fetchIpfsMetadata w uri = .null
            · simp [h1, h2, h3, h4, h5, h6] at h
            · simp only [h1, h2, h3, h4, h5, h6, if_false, Option.some.injEq] at h
              exact ⟨owner, uri, b, p, m, ps, rfl, rfl, rfl, rfl, h5, h6, h.symm⟩

theorem MyCollection.loadMyItem_eq_some {c : Contract} {account : String} {w : World} {i : Nat}
    {item : CollectionItem} (h : MyCollection.loadItem c account w i = some item) :
    ∃ owner uri isForSale price m priceString,
      c.ownerOf i = .ok owner ∧ toLowerCase owner = toLowerCase account ∧
      c.tokenURI i = .ok uri ∧
      c.isForSale i = .ok (isForSale, price) ∧ c.getItemMetadata i = .ok m ∧
      Ethers.formatEther price = .ok priceString ∧
      item = MyCollection.buildItem (toString i) uri isForSale priceString m
        (NFTMarketplace.fetchIpfsMetadata w uri) := by
  unfold MyCollection.loadItem at h
  cases h1 : c.ownerOf i with
  | error e => simp [h1] at h
  | ok owner =>
    by_cases h0 : toLowerCase owner = toLowerCase account
    swap
    · simp [h1, h0] at h
    cases h2 : c.tokenURI i with
    | error e => simp [h1, h0, h2] at h
    | ok uri =>
      cases h3 : c.isForSale i with
      | error e => simp [h1, h0, h2, h3] at h
      | ok sale =>
        obtain ⟨b, p⟩ := sale
        cases h4 : c.getItemMetadata i with
        | error e => simp [h1, h0, h2, h3, h4] at h
        | ok m =>
          cases h5 : Ethers.formatEther p with
          | error e => simp [h1, h0, h2, h3, h4, h5] at h
          | ok ps =>
            by_cases h6 : NFTMarketplace.fetchIpfsMetadata w uri = .null
            · simp [h1, h0, h2, h3, h4, h5, h6] at h
            · simp only [h1, h0, h2, h3, h4, h5, h6, if_false, if_true, Option.some.injEq] at h
              exact ⟨owner, uri, b, p, m, ps, rfl, h0, rfl, rfl, rfl, h5, h.symm⟩

/-- Witness of C1: of the four issued ids of the sample ledger, id 2 has no
owner; the page stores the records of 1, 3 and 4 and reports no error. -/
theorem Marketplace.fetchAllNFTs_ids_witness :
    sampleLedger.totalSupply = .ok 4 ∧
    (Marketplace.fetchAllNFTs (some sampleLedger) sampleStore Marketplace.initial).nfts.map NFT.id
      = [1, 3, 4] ∧
    (Marketplace.fetchAllNFTs (some sampleLedger) sampleStore Marketplace.initial).error
      = none :=
  have h := Marketplace.fetchAllNFTs_ids sampleLedger sampleStore Marketplace.initial 4 rfl
  ⟨rfl, h.1.trans (by decide), h.2.2.2.1⟩

/-! ## Sale state and price -/

/-- C2. When the ledger reports `isForSale = false` for a token, the record
built by `Marketplace.fetchNFTData` and the record built by
`ArtisanDashboard.fetchNFTData` both have `price = 0`, whatever the stored
price is. -/
theorem price_zero_when_not_for_sale (c : Contract) (w : World) (tokenId storedPrice : Nat)
    (h : c.isForSale tokenId = .ok (false, storedPrice)) :
    (∀ r, Marketplace.fetchNFTData c w tokenId = some r → r.price = .val 0) ∧
    (∀ r, ArtisanDashboard.fetchNFTData c w tokenId = some r → r.price = .val 0) := by
  constructor
  · intro r hr
    obtain ⟨owner, uri, b, p, pn, _, _, h3, h4, hr⟩ := Marketplace.fetchNFTData_eq_some hr
    rw [h] at h3
    obtain ⟨hb, hp⟩ := Prod.mk.inj (Except.ok.inj h3)
    subst hb hp
    have hpn : pn = .val 0 := (Except.ok.inj h4).symm
    rw [hr, hpn]
    rfl
  · intro r hr
    obtain ⟨owner, uri, b, p, m, _, _, h3, _, hr⟩ := ArtisanDashboard.dashboard_fetchNFTData_eq_some hr
    rw [h] at h3
    obtain ⟨hb, hp⟩ := Prod.mk.inj (Except.ok.inj h3)
    subst hb hp
    rw [hr]
    rfl

/-- Witness of C2: token 3 of the sample ledger is delisted with a stored
price of one ether; both pages build a record for it and its price is 0. -/
theorem price_zero_when_not_for_sale_witness :
    sampleLedger.isForSale 3 = .ok (false, 1000000000000000000) ∧
    (∃ r, Marketplace.fetchNFTData sampleLedger sampleStore 3 = some r ∧ r.price = .val 0) ∧
    (∃ r, ArtisanDashboard.fetchNFTData sampleLedger sampleStore 3 = some r ∧
      r.price = .val 0) :=
  ⟨rfl,
   ⟨_, rfl, (price_zero_when_not_for_sale sampleLedger sampleStore 3 _ rfl).1 _ rfl⟩,
   ⟨_, rfl, (price_zero_when_not_for_sale sampleLedger sampleStore 3 _ rfl).2 _ rfl⟩⟩

/-- C3, as stated, fails: token 3 of the sample ledger is delisted with a
stored price of one ether; the record `loadNFTs` pushes for it, and the one
`loadMyNFTs` pushes for its owner, have the price string `1.0`, which reads
back as 10^18 and not as zero. -/
theorem loadNFTs_price_not_zeroed :
    sampleLedger.isForSale 3 = .ok (false, 1000000000000000000) ∧
    (∃ item, NFTMarketplace.loadItem sampleLedger sampleStore 3 = some item ∧
      item.isForSale = false ∧ item.price = "1.0" ∧
      Ethers.parseEther item.price = .ok 1000000000000000000 ∧
      Ethers.parseEther item.price ≠ .ok 0) ∧
    (∃ item, MyCollection.loadItem sampleLedger "0x00A1" sampleStore 3 = some item ∧
      item.isForSale = false ∧ item.price = "1.0" ∧
      Ethers.parseEther item.price = .ok 1000000000000000000 ∧
      Ethers.parseEther item.price ≠ .ok 0) :=
  ⟨rfl, ⟨_, rfl, rfl, rfl, by decide, by decide⟩, ⟨_, rfl, rfl, rfl, by decide, by decide⟩⟩

/-- C3, amended. The record pushed by `NFTMarketplace.loadNFTs` and by
`MyCollection.loadMyNFTs` carries `formatEther` of the stored price whatever
`isForSale` is, so its price reads back as the stored price (zero exactly
when the stored price is zero); when `isForSale` is false the card prints
`Not for sale` and the form is opened with an empty price instead. -/
theorem loaders_price_is_stored_price (c : Contract) (w : World) (account : String)
    (i storedPrice : Nat) (b : Bool) (h : c.isForSale i = .ok (b, storedPrice)) :
    (∀ item, NFTMarketplace.loadItem c w i = some item →
      Ethers.formatEther storedPrice = .ok item.price ∧
      Ethers.parseEther item.price = .ok (storedPrice : Int) ∧
      (Ethers.parseEther item.price = .ok 0 ↔ storedPrice = 0) ∧
      (b = false → NFTMarketplace.priceText item = "Not for sale")) ∧
    (∀ item, MyCollection.loadItem c account w i = some item →
      Ethers.formatEther storedPrice = .ok item.price ∧
      Ethers.parseEther item.price = .ok (storedPrice : Int) ∧
      (Ethers.parseEther item.price = .ok 0 ↔ storedPrice = 0) ∧
      (b = false → MyCollection.priceInput item = "")) := by
  have hzero : ∀ s : String, Ethers.parseEther s = .ok (storedPrice : Int) →
      (Ethers.parseEther s = .ok 0 ↔ storedPrice = 0) := by
    intro s hs
    rw [hs]
    constructor
    · intro h0
      exact Int.ofNat_eq_zero.1 (Except.ok.inj h0)
    · intro h0
      rw [h0]
      rfl
  constructor
  · intro item hitem
    obtain ⟨owner, uri, b', p, m, ps, _, _, h3, _, h5, _, hitem⟩ :=
      NFTMarketplace.loadItem_eq_some hitem
    rw [h] at h3
    obtain ⟨hb, hp⟩ := Prod.mk.inj (Except.ok.inj h3)
    subst hb hp
    have hprice : item.price = ps := by rw [hitem]; rfl
    have hsale : item.isForSale = b := by rw [hitem]; rfl
    have hparse := Ethers.parseEther_formatEther h5
    rw [hprice]
    refine ⟨h5, hparse, hzero ps hparse, ?_⟩
    intro hb
    unfold NFTMarketplace.priceText
    rw [hsale, hb]
    rfl
  · intro item hitem
    obtain ⟨owner, uri, b', p, m, ps, _, _, _, h3, _, h5, hitem⟩ :=
      MyCollection.loadMyItem_eq_some hitem
    rw [h] at h3
    obtain ⟨hb, hp⟩ := Prod.mk.inj (Except.ok.inj h3)
    subst hb hp
    have hprice : item.price = ps := by rw [hitem]; rfl
    have hsale : item.isForSale = b := by rw [hitem]; rfl
    have hparse := Ethers.parseEther_formatEther h5
    rw [hprice]
    refine ⟨h5, hparse, hzero ps hparse, ?_⟩
    intro hb
    unfold MyCollection.priceInput
    rw [hsale, hb]
    rfl

/-- Witness of the amended C3 on the delisted token 3 of the sample ledger,
seen by its owner. -/
theorem loaders_price_is_stored_price_witness :
    sampleLedger.isForSale 3 = .ok (false, 1000000000000000000) ∧
    (∃ item, NFTMarketplace.loadItem sampleLedger sampleStore 3 = some item ∧
      Ethers.parseEther item.price = .ok 1000000000000000000 ∧
      NFTMarketplace.priceText item = "Not for sale") ∧
    (∃ item, MyCollection.loadItem sampleLedger "0x00A1" sampleStore 3 = some item ∧
      Ethers.parseEther item.price = .ok 1000000000000000000 ∧
      MyCollection.priceInput item = "") :=
  have h := loaders_price_is_stored_price sampleLedger sampleStore "0x00A1" 3
    1000000000000000000 false rfl
  ⟨rfl,
   ⟨_, rfl, (h.1 _ rfl).2.1, (h.1 _ rfl).2.2.2 rfl⟩,
   ⟨_, rfl, (h.2 _ rfl).2.1, (h.2 _ rfl).2.2.2 rfl⟩⟩

/-- C4. For an item that `loadNFTs` listed, with ledger price `p`,
`handlePurchase` submits `purchaseNFT` for that token with the value `p`:
`parseEther` of the stored `formatEther(p)` string is `p` exactly. -/
theorem handlePurchase_value_eq_price (c : Contract) (w : World) (i p : Nat) (b : Bool)
    (item : MarketItem) (hsale : c.isForSale i = .ok (b, p))
    (hitem : NFTMarketplace.loadItem c w i = some item) :
    NFTMarketplace.handlePurchase (some item)
      = some (.ok { tokenId := toString i, value := (p : Int) }) := by
  obtain ⟨owner, uri, b', p', m, ps, _, _, h3, _, h5, _, hitem⟩ :=
    NFTMarketplace.loadItem_eq_some hitem
  rw [hsale] at h3
  obtain ⟨hb, hp⟩ := Prod.mk.inj (Except.ok.inj h3)
  subst hb hp
  have hprice : item.price = ps := by rw [hitem]; rfl
  have hid : item.tokenId = toString i := by rw [hitem]; rfl
  have hparse : Ethers.parseEther item.price = .ok (p : Int) := by
    rw [hprice]
    exact Ethers.parseEther_formatEther h5
  simp only [NFTMarketplace.handlePurchase, hparse, hid]

/-- Witness of C4: token 1 of the sample ledger is listed at 1.5 ether. -/
theorem handlePurchase_value_eq_price_witness :
    sampleLedger.isForSale 1 = .ok (true, 1500000000000000000) ∧
    ∃ item, NFTMarketplace.loadItem sampleLedger sampleStore 1 = some item ∧
      item.price = "1.5" ∧
      NFTMarketplace.handlePurchase (some item)
        = some (.ok { tokenId := "1", value := 1500000000000000000 }) :=
  ⟨rfl, _, rfl, rfl,
    handlePurchase_value_eq_price sampleLedger sampleStore 1 1500000000000000000 true _ rfl rfl⟩

/-- C5 at its failing input. Token 1 of the sample ledger is listed at
1500000000000000000 base units: `ArtisanDashboard.fetchNFTData` reports the
price 1500000000000000000 (`Number(price)`, no unit conversion), while
`Marketplace.fetchNFTData` reports 3/2, the display amount. -/
theorem dashboard_price_in_base_units :
    sampleLedger.isForSale 1 = .ok (true, 1500000000000000000) ∧
    (ArtisanDashboard.fetchNFTData sampleLedger sampleStore 1).map NFT.price
      = some (.val 1500000000000000000) ∧
    (Marketplace.fetchNFTData sampleLedger sampleStore 1).map NFT.price
      = some (.val (3 / 2)) := by
  refine ⟨rfl, rfl, ?_⟩
  have hfmt : Ethers.formatEther 1500000000000000000 = .ok "1.5" := by decide
  have hrec : (Marketplace.fetchNFTData sampleLedger sampleStore 1).map NFT.price
      = some (numberOfString "1.5") := rfl
  rw [hrec, numberOfString_formatEther hfmt]
  norm_num

/-! ## Fallbacks of the merged record -/

theorem JsVal.str_or {s : String} (hs : s ≠ "") (b : JsVal) : (JsVal.str s).or b = .str s := by
  unfold JsVal.or
  rw [if_pos]
  show decide (s ≠ "") = true
  exact decide_eq_true hs

theorem JsVal.or_of_truthy {a : JsVal} (ha : a.truthy = true) (b : JsVal) : a.or b = a := by
  unfold JsVal.or
  rw [if_pos ha]

theorem JsVal.or_of_not_truthy {a : JsVal} (ha : a.truthy = false) (b : JsVal) :
    a.or b = b := by
  unfold JsVal.or
  rw [if_neg]
  rw [ha]
  exact Bool.false_ne_true

/-- C6, as stated, fails: with the content store unreachable,
`fetchMetadata` yields `null` for the locator of token 1 of the sample
ledger, and the record of `Marketplace.fetchNFTData` is named `NFT #1`, not
`Artisan NFT #1`; so is the heading of `NFTDetails` for the route id `1`,
on the page `fetchData` leaves for that token as for every page without a
gateway document. -/
theorem fallback_name_not_artisan_prefixed :
    sampleLedger.tokenURI 1 = .ok "ipfs://QmVase" ∧
    Marketplace.fetchMetadata offlineStore "ipfs://QmVase" = .null ∧
    (∃ r, Marketplace.fetchNFTData sampleLedger offlineStore 1 = some r ∧
      r.name = .str "NFT #1" ∧ r.name ≠ .str ("Artisan NFT #" ++ toString 1)) ∧
    NFTDetails.heading .null "1" = .str "NFT #1" ∧
    NFTDetails.heading .null "1" ≠ .str ("Artisan NFT #" ++ "1") ∧
    (∃ shown, NFTDetails.view offlineStore (fun _ => "Invalid Date") (toString 1)
        (NFTDetails.fetchData (some sampleHandle) offlineStore 1 NFTDetails.initial)
        = some shown ∧
      shown.name = .str "NFT #1" ∧ shown.name ≠ .str ("Artisan NFT #" ++ toString 1)) :=
  ⟨rfl, rfl, ⟨_, rfl, rfl, by decide⟩, rfl, by decide, ⟨_, rfl, rfl, by decide⟩⟩

theorem Marketplace.fetchNFTData_of_reads {c : Contract} (w : World) {tokenId : Nat}
    {owner uri : String} {b : Bool} {p : Nat}
    (howner : c.ownerOf tokenId = .ok owner) (huri : c.tokenURI tokenId = .ok uri)
    (hsale : c.isForSale tokenId = .ok (b, p)) (hp : p < 2 ^ 256) :
    ∃ pn, Marketplace.fetchNFTData c w tokenId
      = some (Marketplace.mergeRecord w tokenId owner (Marketplace.fetchMetadata w uri)
          (Marketplace.onChainMetadata c tokenId) b pn) := by
  have hp' : p < 2 ^ 511 :=
    Nat.lt_of_lt_of_le hp (Nat.pow_le_pow_right (by decide) (by decide))
  have hprice : ∃ pn, Marketplace.priceField b p = .ok pn := by
    unfold Marketplace.priceField
    cases b with
    | false => exact ⟨_, rfl⟩
    | true =>
      rw [Ethers.formatEther_of_lt hp']
      exact ⟨_, rfl⟩
  obtain ⟨pn, hpn⟩ := hprice
  refine ⟨pn, ?_⟩
  unfold Marketplace.fetchNFTData
  simp only [howner, huri, hsale, hpn]

/-- C7. When `ownerOf`, `tokenURI` and `isForSale` answer for a token (the
price being a `uint256`), `Marketplace.fetchNFTData` returns a record for it
with that id and owner, whatever `fetch` does for the metadata locator and
whether or not `getItemMetadata` answers. -/
theorem fetchNFTData_survives_metadata_failure (c : Contract) (w : World) (tokenId : Nat)
    (owner uri : String) (b : Bool) (p : Nat)
    (howner : c.ownerOf tokenId = .ok owner) (huri : c.tokenURI tokenId = .ok uri)
    (hsale : c.isForSale tokenId = .ok (b, p)) (hp : p < 2 ^ 256) :
    ∃ r, Marketplace.fetchNFTData c w tokenId = some r ∧ r.id = tokenId ∧ r.owner = owner := by
  obtain ⟨pn, hpn⟩ := Marketplace.fetchNFTData_of_reads w howner huri hsale hp
  exact ⟨_, hpn, rfl, rfl⟩

/-- Witness of C7: token 4 of the sample ledger with the content store
unreachable and no readable on-ledger metadata. -/
theorem fetchNFTData_survives_metadata_failure_witness :
    sampleLedger.ownerOf 4 = .ok "0xAbCd" ∧ sampleLedger.tokenURI 4 = .ok "ipfs://QmVase" ∧
    sampleLedger.isForSale 4 = .ok (false, 1000000000000000000) ∧
    offlineStore.fetch "https://ipfs.io/ipfs/QmVase" = .error "Failed to fetch" ∧
    ∃ r, Marketplace.fetchNFTData sampleLedger offlineStore 4 = some r ∧ r.id = 4 ∧
      r.owner = "0xAbCd" :=
  ⟨rfl, rfl, rfl, rfl,
    fetchNFTData_survives_metadata_failure sampleLedger offlineStore 4 "0xAbCd"
      "ipfs://QmVase" false 1000000000000000000 rfl rfl rfl (by decide)⟩

/-- C8. In the record of `Marketplace.fetchNFTData`: a non-empty on-ledger
description is the description, whatever the off-ledger document holds; when
the on-ledger one is empty or could not be read, a truthy off-ledger
`description` is the description; when that is missing or falsy too, the
description is `No description available`. -/
theorem description_precedence (c : Contract) (w : World) (tokenId : Nat) (uri : String)
    (r : NFT) (huri : c.tokenURI tokenId = .ok uri)
    (hr : Marketplace.fetchNFTData c w tokenId = some r) :
    (∀ m, c.getItemMetadata tokenId = .ok m → m.description ≠ "" →
      r.description = .str m.description) ∧
    ((∀ m, c.getItemMetadata tokenId = .ok m → m.description = "") →
      ((Marketplace.fetchMetadata w uri).optProp "description").truthy = true →
      r.description = (Marketplace.fetchMetadata w uri).optProp "description") ∧
    ((∀ m, c.getItemMetadata tokenId = .ok m → m.description = "") →
      ((Marketplace.fetchMetadata w uri).optProp "description").truthy = false →
      r.description = .str "No description available") := by
  obtain ⟨owner, uri', b, p, pn, _, h2, _, _, hr⟩ := Marketplace.fetchNFTData_eq_some hr
  rw [huri] at h2
  have huri' : uri' = uri := (Except.ok.inj h2).symm
  subst huri'
  have hdesc : r.description
      = ((Marketplace.onChainField (Marketplace.onChainMetadata c tokenId)
          ItemMetadata.description).or
          ((Marketplace.fetchMetadata w uri').optProp "description")).or
          (.str "No description available") := by
    rw [hr]
    rfl
  have hfalsy : (∀ m, c.getItemMetadata tokenId = .ok m → m.description = "") →
      (Marketplace.onChainField (Marketplace.onChainMetadata c tokenId)
        ItemMetadata.description).truthy = false := by
    intro hempty
    unfold Marketplace.onChainMetadata
    cases hm : c.getItemMetadata tokenId with
    | error e => rfl
    | ok m =>
      show decide (m.description ≠ "") = false
      rw [hempty m hm]
      rfl
  refine ⟨?_, ?_, ?_⟩
  · intro m hm hne
    have hon : Marketplace.onChainMetadata c tokenId = some m := by
      unfold Marketplace.onChainMetadata
      rw [hm]
    rw [hdesc, hon]
    show ((JsVal.str m.description).or _).or _ = _
    rw [JsVal.str_or hne, JsVal.str_or hne]
  · intro hempty htruthy
    rw [hdesc, JsVal.or_of_not_truthy (hfalsy hempty), JsVal.or_of_truthy htruthy]
  · intro hempty hfalse
    rw [hdesc, JsVal.or_of_not_truthy (hfalsy hempty), JsVal.or_of_not_truthy hfalse]

/-- Witness of C8: token 1 of the sample ledger has the on-ledger description
`Hand-thrown vase` and the off-ledger description `A vase`; the record
carries the on-ledger one. -/
theorem description_precedence_witness :
    sampleLedger.tokenURI 1 = .ok "ipfs://QmVase" ∧
    (Marketplace.fetchMetadata sampleStore "ipfs://QmVase").optProp "description"
      = .str "A vase" ∧
    ∃ r, Marketplace.fetchNFTData sampleLedger sampleStore 1 = some r ∧
      r.description = .str "Hand-thrown vase" :=
  ⟨rfl, rfl, _, rfl,
    (description_precedence sampleLedger sampleStore 1 "ipfs://QmVase" _ rfl rfl).1
      sampleMetadata rfl (by decide)⟩

/-! ## The dashboard list against the marketplace list -/

theorem dashboard_vs_market_pointwise (c : Contract) (w : World) (i : Nat)
    (hfit : c.PricesFit) :
    (∀ r', ArtisanDashboard.fetchNFTData c w i = some r' →
      ∃ r, Marketplace.fetchNFTData c w i = some r ∧ r.ledgerPart = r'.ledgerPart ∧
        r.owner = r'.owner ∧ (c.getItemMetadata r.id).toBool = true) ∧
    (ArtisanDashboard.fetchNFTData c w i = none →
      ∀ r, Marketplace.fetchNFTData c w i = some r → (c.getItemMetadata r.id).toBool = false) := by
  constructor
  · intro r' hr'
    obtain ⟨owner, uri, b, p, m, h1, h2, h3, h4, hrec'⟩ :=
      ArtisanDashboard.dashboard_fetchNFTData_eq_some hr'
    obtain ⟨pn, hpn⟩ := Marketplace.fetchNFTData_of_reads w h1 h2 h3 (hfit i b p h3)
    refine ⟨_, hpn, ?_, ?_, ?_⟩
    · rw [hrec']
      rfl
    · rw [hrec']
      rfl
    · show (c.getItemMetadata i).toBool = true
      rw [h4]
      rfl
  · intro hnone r hr
    obtain ⟨owner, uri, b, p, pn, h1, h2, h3, _, hrec⟩ := Marketplace.fetchNFTData_eq_some hr
    have hid : r.id = i := Marketplace.fetchNFTData_id hr
    rw [hid]
    cases h4 : c.getItemMetadata i with
    | error e => rfl
    | ok m =>
      unfold ArtisanDashboard.fetchNFTData at hnone
      simp only [h1, h2, h3, h4] at hnone
      exact absurd hnone (by simp)

theorem dashboard_vs_market_list (c : Contract) (w : World) (acct : String)
    (hfit : c.PricesFit) (l : List Nat) :
    ((l.filterMap (ArtisanDashboard.fetchNFTData c w)).filter
        fun nft => decide (toLowerCase nft.owner = toLowerCase acct)).map NFT.ledgerPart
      = ((l.filterMap (Marketplace.fetchNFTData c w)).filter
          fun r => decide (toLowerCase r.owner = toLowerCase acct) &&
            (c.getItemMetadata r.id).toBool).map NFT.ledgerPart := by
  induction l with
  | nil => rfl
  | cons i l ih =>
    obtain ⟨hsome, hnone⟩ := dashboard_vs_market_pointwise c w i hfit
    cases hd : ArtisanDashboard.fetchNFTData c w i with
    | some r' =>
      obtain ⟨r, hr, hlp, hown, hmeta⟩ := hsome r' hd
      rw [List.filterMap_cons_some hd, List.filterMap_cons_some hr]
      by_cases hacc : toLowerCase r'.owner = toLowerCase acct
      · have hacc' : toLowerCase r.owner = toLowerCase acct := by rw [hown]; exact hacc
        rw [List.filter_cons_of_pos (by simp [hacc]),
          List.filter_cons_of_pos (by simp [hacc', hmeta]), List.map_cons, List.map_cons,
          ih, hlp]
      · have hacc' : ¬ toLowerCase r.owner = toLowerCase acct := by rw [hown]; exact hacc
        rw [List.filter_cons_of_neg (by simp [hacc]),
          List.filter_cons_of_neg (by simp [hacc']), ih]
    | none =>
      rw [List.filterMap_cons_none hd]
      cases hm : Marketplace.fetchNFTData c w i with
      | none => rw [List.filterMap_cons_none hm, ih]
      | some r =>
        have hmeta := hnone hd r hm
        rw [List.filterMap_cons_some hm, List.filter_cons_of_neg (by simp [hmeta]), ih]

theorem sampleLedger_pricesFit : sampleLedger.PricesFit := by
  intro i b p h
  by_cases hi : i = 1
  · have h' : (Except.ok (true, 1500000000000000000) : Except String (Bool × Nat))
        = .ok (b, p) := by
      rw [← h]
      simp [sampleLedger, hi]
    rw [← (Prod.mk.inj (Except.ok.inj h')).2]
    decide
  · have h' : (Except.ok (false, 1000000000000000000) : Except String (Bool × Nat))
        = .ok (b, p) := by
      rw [← h]
      simp [sampleLedger, hi]
    rw [← (Prod.mk.inj (Except.ok.inj h')).2]
    decide

/-- C9, as stated, fails on the sample ledger and store for the account
`0xabcd`: the dashboard list is the single record of token 1, named `NFT #1`
(its `ipfs://` locator is not requested), while the filtered marketplace list
holds tokens 1 and 4 (the on-ledger metadata of 4 cannot be read), both named
`Vase`. -/
theorem fetchMyNFTs_ne_filtered_fetchAllNFTs :
    (ArtisanDashboard.fetchMyNFTs (some sampleLedger) (some "0xabcd") sampleStore
        ⟨[], false, none⟩).myNFTs.map (fun r => (r.id, r.name))
      = [(1, .str "NFT #1")] ∧
    ((Marketplace.fetchAllNFTs (some sampleLedger) sampleStore Marketplace.initial).nfts.filter
        fun r => decide (toLowerCase r.owner = toLowerCase "0xabcd")).map
        (fun r => (r.id, r.name))
      = [(1, .str "Vase"), (4, .str "Vase")] ∧
    (ArtisanDashboard.fetchMyNFTs (some sampleLedger) (some "0xabcd") sampleStore
        ⟨[], false, none⟩).myNFTs
      ≠ (Marketplace.fetchAllNFTs (some sampleLedger) sampleStore Marketplace.initial).nfts.filter
          fun r => decide (toLowerCase r.owner = toLowerCase "0xabcd") := by
  refine ⟨by decide, by decide, ?_⟩
  intro h
  have hlen := congrArg List.length h
  revert hlen
  decide

/-- C9, amended. For a ledger whose total supply reads as `N` and whose
prices are `uint256`, and a non-empty account, the list of
`ArtisanDashboard.fetchMyNFTs` has the ids, owners and for-sale flags, in the
same ascending order, of the list of `Marketplace.fetchAllNFTs` restricted to
the records whose owner equals the account up to letter case and whose
`getItemMetadata` read succeeds. -/
theorem fetchMyNFTs_ledgerPart (c : Contract) (w : World) (acct : String)
    (s : ArtisanDashboard.State) (s' : Marketplace.State) (N : Nat)
    (hfit : c.PricesFit) (hacct : acct ≠ "") (hN : c.totalSupply = .ok N) :
    (ArtisanDashboard.fetchMyNFTs (some c) (some acct) w s).myNFTs.map NFT.ledgerPart
      = ((Marketplace.fetchAllNFTs (some c) w s').nfts.filter
          fun r => decide (toLowerCase r.owner = toLowerCase acct) &&
            (c.getItemMetadata r.id).toBool).map NFT.ledgerPart := by
  have hmarket : (Marketplace.fetchAllNFTs (some c) w s').nfts
      = (List.range' 1 N).filterMap (Marketplace.fetchNFTData c w) := by
    simp only [Marketplace.fetchAllNFTs, hN]
    split
    · rename_i h0
      rw [h0]
      rfl
    · simp only [List.reduceOption, List.filterMap_map]
      rfl
  have hdash : (ArtisanDashboard.fetchMyNFTs (some c) (some acct) w s).myNFTs
      = ((List.range' 1 N).filterMap (ArtisanDashboard.fetchNFTData c w)).filter
          fun nft => decide (toLowerCase nft.owner = toLowerCase acct) := by
    simp only [ArtisanDashboard.fetchMyNFTs, hacct, if_false, hN, List.reduceOption,
      List.filterMap_map]
    rfl
  rw [hmarket, hdash]
  exact dashboard_vs_market_list c w acct hfit _

/-- Witness of the amended C9 on the sample ledger for the account `0xabcd`:
both sides are the single entry of token 1. -/
theorem fetchMyNFTs_ledgerPart_witness :
    sampleLedger.PricesFit ∧ sampleLedger.totalSupply = .ok 4 ∧
    (ArtisanDashboard.fetchMyNFTs (some sampleLedger) (some "0xabcd") sampleStore
        ⟨[], false, none⟩).myNFTs.map NFT.ledgerPart = [(1, "0xAbCd", true)] ∧
    ((Marketplace.fetchAllNFTs (some sampleLedger) sampleStore Marketplace.initial).nfts.filter
        fun r => decide (toLowerCase r.owner = toLowerCase "0xabcd") &&
          (sampleLedger.getItemMetadata r.id).toBool).map NFT.ledgerPart
      = [(1, "0xAbCd", true)] :=
  have h := fetchMyNFTs_ledgerPart sampleLedger sampleStore "0xabcd" ⟨[], false, none⟩
    Marketplace.initial 4 sampleLedger_pricesFit (by decide) rfl
  ⟨sampleLedger_pricesFit, rfl, by decide, h.symm.trans (by decide)⟩

/-! ## The buy button -/

theorem NFTCard.showsBuy_false_of_owner (acct : String) (nft : NFT)
    (h : toLowerCase acct = toLowerCase nft.owner) : NFTCard.showsBuy (some acct) nft = false := by
  unfold NFTCard.showsBuy NFTCard.isOwner
  simp [h]

/-- C10 at its failing input. Token 1 of the sample ledger is for sale and
owned by `0xAbCd`; for the connected account `0xabcd`, the same address in
lower case, the detail modal of `NFTMarketplace` renders the buy button
(`owner !== account` compares the strings as they are), while `NFTCard` does
not. -/
theorem modal_offers_buy_to_owner :
    toLowerCase "0xabcd" = toLowerCase "0xAbCd" ∧
    (∃ item, NFTMarketplace.loadItem sampleLedger sampleStore 1 = some item ∧
      item.owner = "0xAbCd" ∧ item.isForSale = true ∧
      NFTMarketplace.modalShowsBuy (some "0xabcd") item = true) ∧
    (∃ nft, Marketplace.fetchNFTData sampleLedger sampleStore 1 = some nft ∧
      nft.owner = "0xAbCd" ∧ NFTCard.showsBuy (some "0xabcd") nft = false) :=
  ⟨by decide, ⟨_, rfl, rfl, rfl, by decide⟩, ⟨_, rfl, rfl, by decide⟩⟩

/-! ## The content resolver -/

theorem replaceFirstChars_of_isPrefixOf (pat rep l : List Char) (h : pat.isPrefixOf l = true) :
    replaceFirstChars pat rep l = rep ++ l.drop pat.length := by
  cases l with
  | nil =>
    have hpat : pat = [] := by
      cases pat with
      | nil => rfl
      | cons c cs => simp [List.isPrefixOf] at h
    rw [hpat]
    simp [replaceFirstChars]
  | cons c cs =>
    unfold replaceFirstChars
    rw [if_pos h]

theorem replaceFirst_ipfs_scheme (uri rep : String) (h : startsWith uri "ipfs://" = true) :
    replaceFirst uri "ipfs://" rep = rep ++ ⟨uri.data.drop 7⟩ := by
  apply String.ext
  rw [String.data_append]
  exact replaceFirstChars_of_isPrefixOf _ _ _ h

theorem Marketplace.fetchMetadataTraced_snd (w : World) (uri : String) :
    (Marketplace.fetchMetadataTraced w (some uri)).2 = Marketplace.fetchMetadata w uri := by
  unfold Marketplace.fetchMetadataTraced Marketplace.fetchMetadata
  by_cases h0 : uri = ""
  · simp only [h0, if_true]
  · simp only [h0, if_false]
    cases hf : w.fetch (if startsWith uri "ipfs://" = true
        then replaceFirst uri "ipfs://" "https://ipfs.io/ipfs/" else uri) with
    | error e => rfl
    | ok response =>
      by_cases hok : response.ok = true
      · simp only [hok, Bool.not_true, Bool.false_eq_true, if_false]
        cases response.json <;> rfl
      · simp [hok]

/-- C12. In `Marketplace.fetchMetadata`: an absent or empty locator gives
`null` and no URL is passed to `fetch`; a locator that starts with `ipfs://`
is requested at `https://ipfs.io/ipfs/` followed by the locator without its
first 7 characters (what follows them is kept as it is), and nothing else is
requested; any other non-empty locator is requested unchanged. -/
theorem fetchMetadata_request_url (w : World) :
    Marketplace.fetchMetadataTraced w none = ([], .null) ∧
    Marketplace.fetchMetadataTraced w (some "") = ([], .null) ∧
    Marketplace.fetchMetadata w "" = .null ∧
    (∀ uri, startsWith uri "ipfs://" = true →
      (Marketplace.fetchMetadataTraced w (some uri)).1
        = ["https://ipfs.io/ipfs/" ++ ⟨uri.data.drop 7⟩]) ∧
    (∀ uri, uri ≠ "" → startsWith uri "ipfs://" = false →
      (Marketplace.fetchMetadataTraced w (some uri)).1 = [uri]) := by
  refine ⟨rfl, rfl, rfl, ?_, ?_⟩
  · intro uri h
    have h0 : uri ≠ "" := by
      intro h0
      rw [h0] at h
      exact absurd h (by decide)
    unfold Marketplace.fetchMetadataTraced
    simp only [h0, if_false, h, if_true, replaceFirst_ipfs_scheme uri _ h]
    cases w.fetch ("https://ipfs.io/ipfs/" ++ ⟨uri.data.drop 7⟩) with
    | error e => rfl
    | ok response =>
      by_cases hok : response.ok = true
      · simp only [hok, Bool.not_true, Bool.false_eq_true, if_false]
        cases response.json <;> rfl
      · simp [hok]
  · intro uri h0 h
    unfold Marketplace.fetchMetadataTraced
    simp only [h0, if_false, h, Bool.false_eq_true]
    cases w.fetch uri with
    | error e => rfl
    | ok response =>
      by_cases hok : response.ok = true
      · simp only [hok, Bool.not_true, Bool.false_eq_true, if_false]
        cases response.json <;> rfl
      · simp [hok]

/-- Witness of C12: a locator with a second `ipfs://` inside, and a plain
`https` locator. -/
theorem fetchMetadata_request_url_witness :
    startsWith "ipfs://QmVase/ipfs://x" "ipfs://" = true ∧
    (Marketplace.fetchMetadataTraced offlineStore (some "ipfs://QmVase/ipfs://x")).1
      = ["https://ipfs.io/ipfs/QmVase/ipfs://x"] ∧
    (Marketplace.fetchMetadataTraced offlineStore (some "https://example.org/meta.json")).1
      = ["https://example.org/meta.json"] :=
  ⟨by decide,
   ((fetchMetadata_request_url offlineStore).2.2.2.1 "ipfs://QmVase/ipfs://x"
      (by decide)).trans (by decide),
   (fetchMetadata_request_url offlineStore).2.2.2.2 "https://example.org/meta.json"
      (by decide) (by decide)⟩

/-- C13 at its failing input. The server answers the locator
`https://example.org/meta.json` with status 404 and the JSON body
`{"name": "Not Found"}`: `ArtisanDashboard.fetchMetadata` returns that body
(it never reads `response.ok`), and the dashboard record of token 1 is named
`Not Found`; `Marketplace.fetchMetadata` returns `null` for the same
response. -/
theorem dashboard_uses_error_body :
    (errorPageStore.fetch "https://example.org/meta.json").map Response.ok = .ok false ∧
    ArtisanDashboard.fetchMetadata errorPageStore "https://example.org/meta.json"
      = .obj [("name", .str "Not Found")] ∧
    ArtisanDashboard.fetchMetadata errorPageStore "https://example.org/meta.json" ≠ .null ∧
    (ArtisanDashboard.fetchNFTData httpLedger errorPageStore 1).map NFT.name
      = some (.str "Not Found") ∧
    Marketplace.fetchMetadata errorPageStore "https://example.org/meta.json" = .null := by
  refine ⟨rfl, rfl, by decide, rfl, rfl⟩

/-- C14. For all inputs, `createNFTMetadata` returns an object whose name,
description and image are the inputs and whose `attributes` are exactly
three entries, in this order: `Materials` with the materials, `Artisan` with
the artisan details, `Creation Date` with the timestamp taken at the call;
the serialized value lists them in that order. -/
theorem createNFTMetadata_fields (now name description imageUrl materials artisanDetails : String) :
    (createNFTMetadata now name description imageUrl materials artisanDetails).name = name ∧
    (createNFTMetadata now name description imageUrl materials artisanDetails).description
      = description ∧
    (createNFTMetadata now name description imageUrl materials artisanDetails).image
      = imageUrl ∧
    (createNFTMetadata now name description imageUrl materials artisanDetails).attributes.length
      = 3 ∧
    (createNFTMetadata now name description imageUrl materials artisanDetails).attributes
      = [⟨"Materials", materials⟩, ⟨"Artisan", artisanDetails⟩, ⟨"Creation Date", now⟩] ∧
    (createNFTMetadata now name description imageUrl materials artisanDetails).toDoc
      = .obj [("name", .str name), ("description", .str description), ("image", .str imageUrl),
          ("attributes", .arr
            [.obj [("trait_type", .str "Materials"), ("value", .str materials)],
             .obj [("trait_type", .str "Artisan"), ("value", .str artisanDetails)],
             .obj [("trait_type", .str "Creation Date"), ("value", .str now)]])] :=
  ⟨rfl, rfl, rfl, rfl, rfl, rfl⟩

/-! ## Upload and read back -/

theorem startsWith_ipfs_append (cid : String) : startsWith ("ipfs://" ++ cid) "ipfs://" = true := by
  unfold startsWith
  rw [String.data_append]
  exact List.isPrefixOf_iff_prefix.2 (List.prefix_append _ _)

theorem startsWith_gateway_append (cid : String) :
    startsWith ("https://ipfs.io/ipfs/" ++ cid) "ipfs://" = false := rfl

theorem replaceFirst_ipfs_append (cid : String) :
    replaceFirst ("ipfs://" ++ cid) "ipfs://" "https://ipfs.io/ipfs/"
      = "https://ipfs.io/ipfs/" ++ cid := by
  rw [replaceFirst_ipfs_scheme _ _ (startsWith_ipfs_append cid)]
  rfl

theorem append_ne_empty_of_left (a cid : String) (ha : a.data ≠ []) : a ++ cid ≠ "" := by
  intro h
  have hd := congrArg String.data h
  rw [String.data_append] at hd
  exact ha (List.append_eq_nil.1 hd).1

theorem Marketplace.fetchMetadataDoc_view {β : Type} (codec : JsonCodec β)
    (fetch : String → Except String (RawResponse β)) (localeDate : Nat → String)
    (uri : String) :
    (Marketplace.fetchMetadataDoc codec fetch uri).view
      = Marketplace.fetchMetadata (gatewayWorld codec fetch localeDate) uri := by
  unfold Marketplace.fetchMetadataDoc Marketplace.fetchMetadata gatewayWorld
  by_cases h0 : uri = ""
  · simp only [h0, if_true]
    rfl
  · simp only [h0, if_false]
    cases fetch (if startsWith uri "ipfs://" = true
        then replaceFirst uri "ipfs://" "https://ipfs.io/ipfs/" else uri) with
    | error e => rfl
    | ok response =>
      by_cases hok : (decide (200 ≤ response.status) && decide (response.status ≤ 299)) = true
      · simp only [Response.ok, hok, Bool.not_true, Bool.false_eq_true, if_false]
        cases codec.parse response.body <;> rfl
      · simp only [Response.ok, hok, Bool.not_false, if_true]
        rfl

theorem Marketplace.fetchMetadataDoc_of_served {β : Type} (codec : JsonCodec β)
    (fetch : String → Except String (RawResponse β)) (uri url : String) (doc : JsonDoc)
    (body : β) (h0 : uri ≠ "")
    (hurl : (if startsWith uri "ipfs://" = true
      then replaceFirst uri "ipfs://" "https://ipfs.io/ipfs/" else uri) = url)
    (hfetch : fetch url = .ok { status := 200, body := body })
    (hparse : codec.parse body = .ok doc) :
    Marketplace.fetchMetadataDoc codec fetch uri = doc := by
  unfold Marketplace.fetchMetadataDoc
  simp only [h0, if_false, hurl, hfetch, hparse]
  rfl

/-- C15, as stated, fails: `uploadMetadataToIPFS` returns the bare content
identifier (`added.path`), and `fetchMetadata` on it requests that string as
it is; with a gateway that serves the uploaded bytes under
`https://ipfs.io/ipfs/QmMeta` only, the result is `null`, not the uploaded
object. -/
theorem bare_content_id_not_resolved :
    sampleCodec.Faithful ∧
    uploadMetadataToIPFS sampleCodec sampleClient sampleDescriptor = .ok "QmMeta" ∧
    (sampleGateway "https://ipfs.io/ipfs/QmMeta").map RawResponse.status = .ok 200 ∧
    (Marketplace.fetchMetadataTraced (gatewayWorld sampleCodec sampleGateway toString)
      (some "QmMeta")).1 = ["QmMeta"] ∧
    Marketplace.fetchMetadataDoc sampleCodec sampleGateway "QmMeta" = .null ∧
    Marketplace.fetchMetadataDoc sampleCodec sampleGateway "QmMeta" ≠ sampleDescriptor.toDoc ∧
    Marketplace.fetchMetadata (gatewayWorld sampleCodec sampleGateway toString) "QmMeta"
      = .null := by
  refine ⟨fun _ => rfl, rfl, rfl, rfl, rfl, ?_, rfl⟩
  intro h
  have h' : JsonDoc.null = sampleDescriptor.toDoc := h
  exact JsonDoc.noConfusion h'

/-- C15, amended. For a metadata object `d`, a faithful `JSON` pair and a
gateway that serves, under the content identifier the upload returned, the
bytes that were uploaded: `uploadMetadataToIPFS(d)` hands the serialized `d`
to the store, and `fetchMetadata` at either token URI the mint paths build
from the identifier (`ipfs://<cid>`, `https://ipfs.io/ipfs/<cid>`) yields `d`
again: same name, description, image and attributes in the same order. -/
theorem metadata_round_trip {β : Type} (codec : JsonCodec β) (client : IpfsClient β)
    (fetch : String → Except String (RawResponse β)) (localeDate : Nat → String)
    (d : NFTMetadata) (cid : String) (hcodec : codec.Faithful)
    (hup : uploadMetadataToIPFS codec client d = .ok cid)
    (hstore : fetch ("https://ipfs.io/ipfs/" ++ cid)
      = .ok { status := 200, body := codec.stringify d.toDoc }) :
    client.add (codec.stringify d.toDoc) = .ok cid ∧
    Marketplace.fetchMetadataDoc codec fetch ("ipfs://" ++ cid) = d.toDoc ∧
    Marketplace.fetchMetadataDoc codec fetch ("https://ipfs.io/ipfs/" ++ cid) = d.toDoc ∧
    Marketplace.fetchMetadata (gatewayWorld codec fetch localeDate) ("ipfs://" ++ cid)
      = d.toDoc.view ∧
    d.toDoc.view.prop "name" = .str d.name ∧
    d.toDoc.view.prop "description" = .str d.description ∧
    d.toDoc.view.prop "image" = .str d.image := by
  have hadd : client.add (codec.stringify d.toDoc) = .ok cid := by
    unfold uploadMetadataToIPFS at hup
    dsimp only at hup
    cases hc : client.add (codec.stringify d.toDoc) with
    | error e =>
      rw [hc] at hup
      exact Except.noConfusion hup
    | ok path =>
      rw [hc] at hup
      rw [Except.ok.inj hup]
  have h1 : Marketplace.fetchMetadataDoc codec fetch ("ipfs://" ++ cid) = d.toDoc :=
    Marketplace.fetchMetadataDoc_of_served codec fetch _ _ _ _
      (append_ne_empty_of_left _ _ (by decide))
      (by rw [startsWith_ipfs_append, if_pos rfl, replaceFirst_ipfs_append])
      hstore (hcodec _)
  have h2 : Marketplace.fetchMetadataDoc codec fetch ("https://ipfs.io/ipfs/" ++ cid)
      = d.toDoc :=
    Marketplace.fetchMetadataDoc_of_served codec fetch _ _ _ _
      (append_ne_empty_of_left _ _ (by decide))
      (by rw [startsWith_gateway_append, if_neg Bool.false_ne_true])
      hstore (hcodec _)
  refine ⟨hadd, h1, h2, ?_, rfl, rfl, rfl⟩
  rw [← Marketplace.fetchMetadataDoc_view, h1]

/-- Witness of the amended C15 on the sample mint. -/
theorem metadata_round_trip_witness :
    sampleCodec.Faithful ∧
    uploadMetadataToIPFS sampleCodec sampleClient sampleDescriptor = .ok "QmMeta" ∧
    Marketplace.fetchMetadataDoc sampleCodec sampleGateway "ipfs://QmMeta"
      = sampleDescriptor.toDoc ∧
    (Marketplace.fetchMetadata (gatewayWorld sampleCodec sampleGateway toString)
      "ipfs://QmMeta").prop "name" = .str "Vase" :=
  have h := metadata_round_trip sampleCodec sampleClient sampleGateway toString
    sampleDescriptor "QmMeta" (fun _ => rfl) rfl rfl
  ⟨fun _ => rfl, rfl, h.2.1, (congrArg (fun j => Json.prop j "name") h.2.2.2.1).trans rfl⟩

/-! ## The session -/

theorem Session.checkRoles_shape (address : String) (c : ContractHandle) :
    (∀ s, Session.checkRoles address c s = s) ∨
    (∃ a b, ∀ s, Session.checkRoles address c s = { s with isAdmin := a, isArtisan := b }) := by
  cases h1 : c.ledger.roles.ADMIN_ROLE with
  | error e =>
    left
    intro s
    simp only [Session.checkRoles, h1]
  | ok adminRole =>
    cases h2 : c.ledger.roles.ARTISAN_ROLE with
    | error e =>
      left
      intro s
      simp only [Session.checkRoles, h1, h2]
    | ok artisanRole =>
      cases h3 : c.ledger.roles.hasRole adminRole address with
      | error e =>
        left
        intro s
        simp only [Session.checkRoles, h1, h2, h3]
      | ok a =>
        cases h4 : c.ledger.roles.hasRole artisanRole address with
        | error e =>
          left
          intro s
          simp only [Session.checkRoles, h1, h2, h3, h4]
        | ok b =>
          right
          refine ⟨a, b, ?_⟩
          intro s
          simp only [Session.checkRoles, h1, h2, h3, h4]

theorem Session.checkRoles_frame (address : String) (c : ContractHandle) (s : Session) :
    (Session.checkRoles address c s).provider = s.provider ∧
    (Session.checkRoles address c s).signer = s.signer ∧
    (Session.checkRoles address c s).contract = s.contract ∧
    (Session.checkRoles address c s).account = s.account ∧
    (Session.checkRoles address c s).networkId = s.networkId ∧
    (Session.checkRoles address c s).loading = s.loading ∧
    (Session.checkRoles address c s).error = s.error := by
  rcases Session.checkRoles_shape address c with h | ⟨a, b, h⟩
  · rw [h s]
    exact ⟨rfl, rfl, rfl, rfl, rfl, rfl, rfl⟩
  · rw [h s]
    exact ⟨rfl, rfl, rfl, rfl, rfl, rfl, rfl⟩

theorem Session.checkRoles_flags_congr (address : String) (c : ContractHandle)
    (s s' : Session) (h1 : s'.isAdmin = s.isAdmin) (h2 : s'.isArtisan = s.isArtisan) :
    (Session.checkRoles address c s').isAdmin = (Session.checkRoles address c s).isAdmin ∧
    (Session.checkRoles address c s').isArtisan = (Session.checkRoles address c s).isArtisan := by
  rcases Session.checkRoles_shape address c with h | ⟨a, b, h⟩
  · rw [h s, h s']
    exact ⟨h1, h2⟩
  · rw [h s, h s']
    exact ⟨rfl, rfl⟩

theorem Session.checkRoles_of_reads {address : String} {c : ContractHandle} (s : Session)
    {adminRole artisanRole : String} {a b : Bool}
    (h1 : c.ledger.roles.ADMIN_ROLE = .ok adminRole)
    (h2 : c.ledger.roles.ARTISAN_ROLE = .ok artisanRole)
    (h3 : c.ledger.roles.hasRole adminRole address = .ok a)
    (h4 : c.ledger.roles.hasRole artisanRole address = .ok b) :
    Session.checkRoles address c s = { s with isAdmin := a, isArtisan := b } := by
  unfold Session.checkRoles
  simp only [h1, h2, h3, h4]

/-- C18. When the four role queries answer, `checkRoles` sets `isAdmin` to
`hasRole(ADMIN_ROLE, address)` and `isArtisan` to
`hasRole(ARTISAN_ROLE, address)` and changes nothing else; when one of the
four raises, the session is left as it was; and each of the four
combinations of the two flags is the outcome for some contract. -/
theorem checkRoles_sets_flags (address : String) (s : Session) :
    (∀ (c : ContractHandle) (adminRole artisanRole : String) (a b : Bool),
      c.ledger.roles.ADMIN_ROLE = .ok adminRole →
      c.ledger.roles.ARTISAN_ROLE = .ok artisanRole →
      c.ledger.roles.hasRole adminRole address = .ok a →
      c.ledger.roles.hasRole artisanRole address = .ok b →
      Session.checkRoles address c s = { s with isAdmin := a, isArtisan := b }) ∧
    (∀ (c : ContractHandle),
      ((∃ e, c.ledger.roles.ADMIN_ROLE = .error e) ∨
       (∃ e, c.ledger.roles.ARTISAN_ROLE = .error e) ∨
       (∃ r e, c.ledger.roles.ADMIN_ROLE = .ok r ∧
          c.ledger.roles.hasRole r address = .error e) ∨
       (∃ r e, c.ledger.roles.ARTISAN_ROLE = .ok r ∧
          c.ledger.roles.hasRole r address = .error e)) →
      Session.checkRoles address c s = s) ∧
    (∀ a b : Bool, ∃ c : ContractHandle,
      (Session.checkRoles address c s).isAdmin = a ∧
      (Session.checkRoles address c s).isArtisan = b) := by
  refine ⟨?_, ?_, ?_⟩
  · intro c adminRole artisanRole a b h1 h2 h3 h4
    exact Session.checkRoles_of_reads s h1 h2 h3 h4
  · intro c hfail
    cases h1 : c.ledger.roles.ADMIN_ROLE with
    | error e => simp only [Session.checkRoles, h1]
    | ok adminRole =>
      cases h2 : c.ledger.roles.ARTISAN_ROLE with
      | error e => simp only [Session.checkRoles, h1, h2]
      | ok artisanRole =>
        cases h3 : c.ledger.roles.hasRole adminRole address with
        | error e => simp only [Session.checkRoles, h1, h2, h3]
        | ok a =>
          cases h4 : c.ledger.roles.hasRole artisanRole address with
          | error e => simp only [Session.checkRoles, h1, h2, h3, h4]
          | ok b =>
            exfalso
            rcases hfail with ⟨e, he⟩ | ⟨e, he⟩ | ⟨r, e, hr, he⟩ | ⟨r, e, hr, he⟩
            · rw [h1] at he
              exact Except.noConfusion he
            · rw [h2] at he
              exact Except.noConfusion he
            · rw [h1] at hr
              rw [← Except.ok.inj hr, h3] at he
              exact Except.noConfusion he
            · rw [h2] at hr
              rw [← Except.ok.inj hr, h4] at he
              exact Except.noConfusion he
  · intro a b
    refine ⟨{ runner := { address := address },
              ledger := { reads := sampleLedger,
                          roles := { ADMIN_ROLE := .ok "admin", ARTISAN_ROLE := .ok "artisan",
                                     hasRole := fun role _ =>
                                       .ok (if role = "admin" then a else b) },
                          getProvenance := fun _ => .ok [] } }, ?_, ?_⟩
    · rfl
    · rfl

/-- Witness of C18 on the sample deployment: `0xA2` is an artisan and not an
administrator; a deployment whose `ARTISAN_ROLE` read reverts leaves the
flags of the session. -/
theorem checkRoles_sets_flags_witness :
    sampleHandle.ledger.roles.ADMIN_ROLE = .ok "0x00" ∧
    sampleHandle.ledger.roles.hasRole "0x00" "0xA2" = .ok false ∧
    sampleHandle.ledger.roles.hasRole "0x01" "0xA2" = .ok true ∧
    (Session.checkRoles "0xA2" sampleHandle Session.initial).isAdmin = false ∧
    (Session.checkRoles "0xA2" sampleHandle Session.initial).isArtisan = true ∧
    (Session.checkRoles "0xA2"
        { sampleHandle with
          ledger := { sampleDeployment with
            roles := { sampleRoles with ARTISAN_ROLE := .error "execution reverted" } } }
        { Session.initial with isAdmin := true }).isAdmin = true :=
  have h := checkRoles_sets_flags "0xA2" Session.initial
  have h' := checkRoles_sets_flags "0xA2" { Session.initial with isAdmin := true }
  ⟨rfl, rfl, rfl,
   congrArg Session.isAdmin (h.1 sampleHandle "0x00" "0x01" false true rfl rfl rfl rfl),
   congrArg Session.isArtisan (h.1 sampleHandle "0x00" "0x01" false true rfl rfl rfl rfl),
   congrArg Session.isAdmin (h'.2.1 _ (Or.inr (Or.inl ⟨_, rfl⟩)))⟩

/-- C19. `disconnectWallet` and `handleAccountsChanged` with an empty list
(whatever `contract` the handler captured) leave `account = null`,
`isAdmin = false`, `isArtisan = false`, and provider, signer, contract,
network id, loading and error as they were. -/
theorem disconnect_frame (s : Session) (captured : Option ContractHandle) :
    ((Session.disconnectWallet s).account = none ∧
     (Session.disconnectWallet s).isAdmin = false ∧
     (Session.disconnectWallet s).isArtisan = false ∧
     (Session.disconnectWallet s).provider = s.provider ∧
     (Session.disconnectWallet s).signer = s.signer ∧
     (Session.disconnectWallet s).contract = s.contract ∧
     (Session.disconnectWallet s).networkId = s.networkId ∧
     (Session.disconnectWallet s).loading = s.loading ∧
     (Session.disconnectWallet s).error = s.error) ∧
    ((Session.handleAccountsChanged captured [] s).account = none ∧
     (Session.handleAccountsChanged captured [] s).isAdmin = false ∧
     (Session.handleAccountsChanged captured [] s).isArtisan = false ∧
     (Session.handleAccountsChanged captured [] s).provider = s.provider ∧
     (Session.handleAccountsChanged captured [] s).signer = s.signer ∧
     (Session.handleAccountsChanged captured [] s).contract = s.contract ∧
     (Session.handleAccountsChanged captured [] s).networkId = s.networkId ∧
     (Session.handleAccountsChanged captured [] s).loading = s.loading ∧
     (Session.handleAccountsChanged captured [] s).error = s.error) ∧
    Session.onAccountsChanged [] s = Session.disconnectWallet s :=
  ⟨⟨rfl, rfl, rfl, rfl, rfl, rfl, rfl, rfl, rfl⟩,
   ⟨rfl, rfl, rfl, rfl, rfl, rfl, rfl, rfl, rfl⟩, rfl⟩

theorem Session.connectWallet_true {b : Browser} {s : Session}
    (h : (Session.connectWallet b s).1 = true) :
    ∃ ethereum first rest ethersSigner chainId ledger,
      b.ethereum = some ethereum ∧ ethereum.requestAccounts = .ok (first :: rest) ∧
      ethereum.getSigner = .ok ethersSigner ∧ ethereum.getNetwork = .ok chainId ∧
      b.contractTarget = .ok ledger ∧
      (Session.connectWallet b s).2
        = { Session.checkRoles first { runner := ethersSigner, ledger := ledger }
              { s with loading := true, account := some first, provider := some ethereum,
                       signer := some ethersSigner, networkId := some chainId,
                       contract := some { runner := ethersSigner, ledger := ledger } }
            with loading := false } := by
  cases hb : b.ethereum with
  | none => simp [Session.connectWallet, hb] at h
  | some ethereum =>
    cases h1 : ethereum.requestAccounts with
    | error e => simp [Session.connectWallet, hb, h1] at h
    | ok accounts =>
      cases accounts with
      | nil => simp [Session.connectWallet, hb, h1] at h
      | cons first rest =>
        cases h2 : ethereum.getSigner with
        | error e => simp [Session.connectWallet, hb, h1, h2] at h
        | ok ethersSigner =>
          cases h3 : ethereum.getNetwork with
          | error e => simp [Session.connectWallet, hb, h1, h2, h3] at h
          | ok chainId =>
            cases h4 : b.contractTarget with
            | error e => simp [Session.connectWallet, hb, h1, h2, h3, h4] at h
            | ok ledger =>
              refine ⟨ethereum, first, rest, ethersSigner, chainId, ledger, rfl, h1, h2, h3,
                rfl, ?_⟩
              simp only [Session.connectWallet, hb, h1, h2, h3, h4]

/-- C16. `connectWallet` returns `false` with `error` set to a message when
the provider is absent, when the authorization request is rejected and when
the provider returns no account; when it returns `true`, an account was
obtained and stored, the signer was read, the contract handle was
constructed with that signer and stored, and the flags are those
`checkRoles` leaves for that account and that handle. -/
theorem connectWallet_result (b : Browser) (s : Session) :
    (b.ethereum = none →
      (Session.connectWallet b s).1 = false ∧
      (Session.connectWallet b s).2.error = some "MetaMask is not installed") ∧
    (∀ ethereum msg, b.ethereum = some ethereum → ethereum.requestAccounts = .error msg →
      (Session.connectWallet b s).1 = false ∧
      (Session.connectWallet b s).2.error = some msg) ∧
    (∀ ethereum, b.ethereum = some ethereum → ethereum.requestAccounts = .ok [] →
      (Session.connectWallet b s).1 = false ∧
      (Session.connectWallet b s).2.error
        = some "No accounts found. Please unlock MetaMask.") ∧
    ((Session.connectWallet b s).1 = true →
      ∃ ethereum first rest ethersSigner ledger,
        b.ethereum = some ethereum ∧ ethereum.requestAccounts = .ok (first :: rest) ∧
        ethereum.getSigner = .ok ethersSigner ∧ b.contractTarget = .ok ledger ∧
        (Session.connectWallet b s).2.account = some first ∧
        (Session.connectWallet b s).2.signer = some ethersSigner ∧
        (Session.connectWallet b s).2.contract
          = some { runner := ethersSigner, ledger := ledger } ∧
        (Session.connectWallet b s).2.isAdmin
          = (Session.checkRoles first { runner := ethersSigner, ledger := ledger } s).isAdmin ∧
        (Session.connectWallet b s).2.isArtisan
          = (Session.checkRoles first { runner := ethersSigner, ledger := ledger } s).isArtisan) := by
  refine ⟨?_, ?_, ?_, ?_⟩
  · intro hb
    simp only [Session.connectWallet, hb, and_self]
  · intro ethereum msg hb h1
    simp only [Session.connectWallet, hb, h1, and_self]
  · intro ethereum hb h1
    simp only [Session.connectWallet, hb, h1, and_self]
  · intro h
    obtain ⟨ethereum, first, rest, ethersSigner, chainId, ledger, hb, h1, h2, _, h4, hres⟩ :=
      Session.connectWallet_true h
    refine ⟨ethereum, first, rest, ethersSigner, ledger, hb, h1, h2, h4, ?_, ?_, ?_, ?_, ?_⟩
    · rw [hres]
      exact (Session.checkRoles_frame _ _ _).2.2.2.1
    · rw [hres]
      exact (Session.checkRoles_frame _ _ _).2.1
    · rw [hres]
      exact (Session.checkRoles_frame _ _ _).2.2.1
    · rw [hres]
      exact (Session.checkRoles_flags_congr first { runner := ethersSigner, ledger := ledger } s
        { s with loading := true, account := some first, provider := some ethereum,
                 signer := some ethersSigner, networkId := some chainId,
                 contract := some { runner := ethersSigner, ledger := ledger } } rfl rfl).1
    · rw [hres]
      exact (Session.checkRoles_flags_congr first { runner := ethersSigner, ledger := ledger } s
        { s with loading := true, account := some first, provider := some ethereum,
                 signer := some ethersSigner, networkId := some chainId,
                 contract := some { runner := ethersSigner, ledger := ledger } } rfl rfl).2

/-- Witness of C16: without a provider the call fails with a message; with
the sample wallet it succeeds and the administrator is recognised. -/
theorem connectWallet_result_witness :
    (Session.connectWallet { sampleBrowser with ethereum := none } Session.initial).1 = false ∧
    (Session.connectWallet { sampleBrowser with ethereum := none } Session.initial).2.error
      = some "MetaMask is not installed" ∧
    (Session.connectWallet sampleBrowser Session.initial).1 = true ∧
    (Session.connectWallet sampleBrowser Session.initial).2.account = some "0xAd01" ∧
    (Session.connectWallet sampleBrowser Session.initial).2.isAdmin = true :=
  have h0 := (connectWallet_result { sampleBrowser with ethereum := none } Session.initial).1 rfl
  ⟨h0.1, h0.2, rfl, rfl, rfl⟩

theorem Session.handleAccountsChanged_of_reads {c : ContractHandle} (s : Session)
    {first : String} (rest : List String) {adminRole artisanRole : String} {a b : Bool}
    (h1 : c.ledger.roles.ADMIN_ROLE = .ok adminRole)
    (h2 : c.ledger.roles.ARTISAN_ROLE = .ok artisanRole)
    (h3 : c.ledger.roles.hasRole adminRole first = .ok a)
    (h4 : c.ledger.roles.hasRole artisanRole first = .ok b) :
    Session.handleAccountsChanged (some c) (first :: rest) s
      = { s with account := some first, isAdmin := a, isArtisan := b } := by
  unfold Session.handleAccountsChanged
  simp only []
  rw [Session.checkRoles_of_reads _ h1 h2 h3 h4]

/-- C17 at its failing input. The administrator `0xAd01` connects through
the sample wallet, so the session has a bound contract and `isAdmin = true`.
The provider then reports the account list `["0xA2"]`, an artisan who is not
an administrator. The registered listener reads the `contract` of the first
render, `null`, and skips `checkRoles`: the account becomes `0xA2` while
`isAdmin` stays `true` and `isArtisan` stays `false`, the flags of the
previous identity. -/
theorem stale_flags_after_account_change :
    (Session.connectWallet sampleBrowser Session.initial).2.account = some "0xAd01" ∧
    (Session.connectWallet sampleBrowser Session.initial).2.contract.isSome = true ∧
    (Session.connectWallet sampleBrowser Session.initial).2.isAdmin = true ∧
    sampleRoles.hasRole "0x00" "0xA2" = .ok false ∧
    sampleRoles.hasRole "0x01" "0xA2" = .ok true ∧
    (Session.onAccountsChanged ["0xA2"]
      (Session.connectWallet sampleBrowser Session.initial).2).account = some "0xA2" ∧
    (Session.onAccountsChanged ["0xA2"]
      (Session.connectWallet sampleBrowser Session.initial).2).isAdmin = true ∧
    (Session.onAccountsChanged ["0xA2"]
      (Session.connectWallet sampleBrowser Session.initial).2).isArtisan = false :=
  ⟨rfl, rfl, rfl, rfl, rfl, rfl, rfl, rfl⟩

theorem Session.init_account_none {b : Browser} {s : Session}
    (h : (Session.init b s).account = none) :
    s.account = none ∧ (Session.init b s).isAdmin = s.isAdmin ∧
      (Session.init b s).isArtisan = s.isArtisan := by
  cases hb : b.ethereum with
  | none =>
    simpa [Session.init, hb] using h
  | some ethereum =>
    cases h1 : ethereum.getNetwork with
    | error e =>
      simpa [Session.init, hb, h1] using h
    | ok chainId =>
      cases h2 : ethereum.listAccounts with
      | error e =>
        simpa [Session.init, hb, h1, h2] using h
      | ok accounts =>
        cases accounts with
        | nil =>
          simpa [Session.init, hb, h1, h2] using h
        | cons first rest =>
          cases h3 : ethereum.getSigner with
          | error e =>
            simp only [Session.init, hb, h1, h2, h3] at h
            exact absurd h (by simp)
          | ok ethersSigner =>
            cases h4 : b.contractTarget with
            | error e =>
              simp only [Session.init, hb, h1, h2, h3, h4] at h
              exact absurd h (by simp)
            | ok ledger =>
              simp only [Session.init, hb, h1, h2, h3, h4] at h
              rw [(Session.checkRoles_frame _ _ _).2.2.2.1] at h
              exact absurd h (by simp)

theorem Session.connectWallet_account_none {b : Browser} {s : Session}
    (h : (Session.connectWallet b s).2.account = none) :
    s.account = none ∧ (Session.connectWallet b s).2.isAdmin = s.isAdmin ∧
      (Session.connectWallet b s).2.isArtisan = s.isArtisan := by
  cases hb : b.ethereum with
  | none =>
    simpa [Session.connectWallet, hb] using h
  | some ethereum =>
    cases h1 : ethereum.requestAccounts with
    | error e =>
      simpa [Session.connectWallet, hb, h1] using h
    | ok accounts =>
      cases accounts with
      | nil =>
        simpa [Session.connectWallet, hb, h1] using h
      | cons first rest =>
        cases h2 : ethereum.getSigner with
        | error e =>
          simp only [Session.connectWallet, hb, h1, h2] at h
          exact absurd h (by simp)
        | ok ethersSigner =>
          cases h3 : ethereum.getNetwork with
          | error e =>
            simp only [Session.connectWallet, hb, h1, h2, h3] at h
            exact absurd h (by simp)
          | ok chainId =>
            cases h4 : b.contractTarget with
            | error e =>
              simp only [Session.connectWallet, hb, h1, h2, h3, h4] at h
              exact absurd h (by simp)
            | ok ledger =>
              simp only [Session.connectWallet, hb, h1, h2, h3, h4] at h
              rw [(Session.checkRoles_frame _ _ _).2.2.2.1] at h
              exact absurd h (by simp)

theorem Session.handleAccountsChanged_account_none {captured : Option ContractHandle}
    {accounts : List String} {s : Session}
    (h : (Session.handleAccountsChanged captured accounts s).account = none) :
    (Session.handleAccountsChanged captured accounts s).isAdmin = false ∧
      (Session.handleAccountsChanged captured accounts s).isArtisan = false := by
  cases accounts with
  | nil => exact ⟨rfl, rfl⟩
  | cons first rest =>
    cases captured with
    | none =>
      simp only [Session.handleAccountsChanged] at h
      exact absurd h (by simp)
    | some c =>
      simp only [Session.handleAccountsChanged] at h
      rw [(Session.checkRoles_frame _ _ _).2.2.2.1] at h
      exact absurd h (by simp)

/-- The four operations run one after the other: in every state the session
reaches from the initial one through `init`, `connectWallet`,
`handleAccountsChanged` and `disconnectWallet`, each run to its end before
the next starts, `account = null` implies `isAdmin = false` and
`isArtisan = false`. -/
theorem flags_false_without_account (s : Session) (hs : Session.Reachable s)
    (hacc : s.account = none) : s.isAdmin = false ∧ s.isArtisan = false := by
  induction hs with
  | initial => exact ⟨rfl, rfl⟩
  | init b _ ih =>
    obtain ⟨h0, h1, h2⟩ := Session.init_account_none hacc
    rw [h1, h2]
    exact ih h0
  | connectWallet b _ ih =>
    obtain ⟨h0, h1, h2⟩ := Session.connectWallet_account_none hacc
    rw [h1, h2]
    exact ih h0
  | handleAccountsChanged captured accounts _ ih =>
    exact Session.handleAccountsChanged_account_none hacc
  | disconnectWallet _ ih => exact ⟨rfl, rfl⟩

/-! ## The details page against the marketplace record -/

theorem NFTDetails.secondRequest_ipfsMetadata (w : World) (uri : String)
    (s : NFTDetails.State) :
    (NFTDetails.secondRequest w uri s).ipfsMetadata = s.ipfsMetadata := by
  cases h1 : w.fetch (NFTDetails.pinataUrl uri) with
  | error e => simp only [NFTDetails.secondRequest, h1]
  | ok metadataResponse =>
    cases h2 : metadataResponse.json with
    | error e => simp only [NFTDetails.secondRequest, h1, h2]
    | ok metadataJson =>
      cases metadataJson with
      | null => simp only [NFTDetails.secondRequest, h1, h2]
      | bool b => simp only [NFTDetails.secondRequest, h1, h2, Json.prop]
      | num q => simp only [NFTDetails.secondRequest, h1, h2, Json.prop]
      | str t => simp only [NFTDetails.secondRequest, h1, h2, Json.prop]
      | arr => simp only [NFTDetails.secondRequest, h1, h2, Json.prop]
      | obj fields =>
        simp only [NFTDetails.secondRequest, h1, h2]
        cases (Json.obj fields).prop "image" <;> rfl

theorem NFTDetails.secondRequest_of_error (w : World) (uri : String) (s : NFTDetails.State)
    (h : ∃ e, w.fetch (NFTDetails.pinataUrl uri) = .error e) :
    NFTDetails.secondRequest w uri s = s := by
  obtain ⟨e, he⟩ := h
  unfold NFTDetails.secondRequest
  simp only [he]

theorem gateway_url_eq (uri : String) (h : startsWith uri "ipfs://" = true) :
    "https://ipfs.io/ipfs/" ++ replaceFirst uri "ipfs://" ""
      = replaceFirst uri "ipfs://" "https://ipfs.io/ipfs/" := by
  rw [replaceFirst_ipfs_scheme uri _ h, replaceFirst_ipfs_scheme uri _ h]
  apply String.ext
  simp only [String.data_append]
  rfl

theorem NFTDetails.firstRequest_ipfs (w : World) (uri : String) (s : NFTDetails.State)
    (h : startsWith uri "ipfs://" = true) (hs : s.ipfsMetadata = .null) :
    (NFTDetails.firstRequest w uri s = none → Marketplace.fetchMetadata w uri = .null) ∧
    (∀ s', NFTDetails.firstRequest w uri s = some s' →
      s'.ipfsMetadata = Marketplace.fetchMetadata w uri ∧ s'.meta = s.meta) := by
  have h0 : uri ≠ "" := by
    intro h0
    rw [h0] at h
    exact absurd h (by decide)
  unfold NFTDetails.firstRequest Marketplace.fetchMetadata
  simp only [h0, h, if_true, if_false, ne_eq, not_false_eq_true, decide_True, Bool.true_and,
    gateway_url_eq uri h]
  cases w.fetch (replaceFirst uri "ipfs://" "https://ipfs.io/ipfs/") with
  | error e => exact ⟨fun _ => rfl, fun s' hs' => Option.noConfusion hs'⟩
  | ok response =>
    by_cases hok : response.ok = true
    · simp only [hok, if_true, Bool.not_true, Bool.false_eq_true, if_false]
      cases response.json with
      | error e => exact ⟨fun _ => rfl, fun s' hs' => Option.noConfusion hs'⟩
      | ok metadata =>
        refine ⟨fun hn => Option.noConfusion hn, ?_⟩
        intro s' hs'
        rw [← Option.some.inj hs']
        exact ⟨rfl, rfl⟩
    · simp only [hok, if_false, Bool.not_false, if_true]
      simp only [Bool.not_eq_true] at hok
      simp only [hok, Bool.not_false, if_true, Bool.false_eq_true, if_false]
      refine ⟨fun hn => Option.noConfusion hn, ?_⟩
      intro s' hs'
      rw [← Option.some.inj hs']
      exact ⟨hs, rfl⟩

theorem NFTDetails.fetchData_of_reads {c : ContractHandle} (w : World) {id : Nat}
    {m : ItemMetadata} {pv : List String} {uri : String}
    (hm : c.ledger.reads.getItemMetadata id = .ok m)
    (hpv : c.ledger.getProvenance id = .ok pv)
    (huri : c.ledger.reads.tokenURI id = .ok uri)
    (hscheme : startsWith uri "ipfs://" = true) :
    (NFTDetails.fetchData (some c) w id NFTDetails.initial).ipfsMetadata
      = Marketplace.fetchMetadata w uri ∧
    ((∃ e, w.fetch (NFTDetails.pinataUrl uri) = .error e) →
      (NFTDetails.fetchData (some c) w id NFTDetails.initial).meta = .onChain m) := by
  have hfirst := NFTDetails.firstRequest_ipfs w uri
    { NFTDetails.initial with meta := .onChain m, provenance := pv, tokenURI := some uri }
    hscheme rfl
  unfold NFTDetails.fetchData
  simp only [hm, hpv, huri]
  cases hf : NFTDetails.firstRequest w uri
      { NFTDetails.initial with meta := .onChain m, provenance := pv, tokenURI := some uri } with
  | none =>
    refine ⟨?_, fun _ => rfl⟩
    rw [hfirst.1 hf]
    rfl
  | some s' =>
    obtain ⟨h1, h2⟩ := hfirst.2 s' hf
    refine ⟨?_, ?_⟩
    · show (NFTDetails.secondRequest w uri s').ipfsMetadata = _
      rw [NFTDetails.secondRequest_ipfsMetadata, h1]
    · intro herr
      show (NFTDetails.secondRequest w uri s').meta = _
      rw [NFTDetails.secondRequest_of_error w uri s' herr, h2]

/-- C11 at its failing input: the sample document is served behind both
gateways, so both requests of `fetchData` succeed and `setMeta(metadataJson)`
replaces the on-ledger tuple that the page then reads its fields from. The
details page of token 1 shows the off-ledger description `A vase`, no
materials, no artisan details and the date `Invalid Date`, while the record
of `Marketplace.fetchNFTData` has the on-ledger description
`Hand-thrown vase`, the materials `Clay`, the artisan details `Asha` and
the on-ledger date; the names agree, and the image is the Pinata address on
the page and the locator `ipfs://QmImg` in the record. -/
theorem details_differ_from_record :
    ∃ d r,
      NFTDetails.view mirroredStore (fun _ => "Invalid Date") (toString 1)
        (NFTDetails.fetchData (some sampleHandle) mirroredStore 1 NFTDetails.initial) = some d ∧
      Marketplace.fetchNFTData sampleHandle.ledger.reads mirroredStore 1 = some r ∧
      d.name = .str "Vase" ∧ r.name = .str "Vase" ∧
      d.description = .str "A vase" ∧ r.description = .str "Hand-thrown vase" ∧
      d.description ≠ r.description ∧
      d.materials = .undefined ∧ r.materials = .str "Clay" ∧
      d.artisanDetails = .undefined ∧ r.artisanDetails = .str "Asha" ∧
      d.creationDate = "Invalid Date" ∧ r.creationDate = "day 19675" ∧
      d.image = "https://gateway.pinata.cloud/ipfs/QmImg" ∧ r.image = .str "ipfs://QmImg" :=
  ⟨_, _, rfl, rfl, rfl, rfl, rfl, rfl, by decide, rfl, rfl, rfl, rfl, rfl, by decide, rfl, rfl⟩

/-- What the two views share. For a token whose `getItemMetadata`,
`getProvenance` and `tokenURI` reads answer, whose locator starts with
`ipfs://` and which both views show, the heading of `NFTDetails` (opened
from its initial state) equals the name of the record of
`Marketplace.fetchNFTData`; and as long as `meta` holds the on-ledger tuple,
which is the case when the second metadata request fails, the description,
materials and artisan details shown equal those of the record wherever the
on-ledger strings are non-empty, and the creation date wherever the
timestamp is not zero. -/
theorem details_agree_with_record (c : ContractHandle) (w : World)
    (dateOfValue : JsVal → String) (id : Nat) (m : ItemMetadata) (pv : List String)
    (uri : String) (r : NFT) (d : NFTDetails.Shown)
    (hm : c.ledger.reads.getItemMetadata id = .ok m)
    (hpv : c.ledger.getProvenance id = .ok pv)
    (huri : c.ledger.reads.tokenURI id = .ok uri)
    (hscheme : startsWith uri "ipfs://" = true)
    (hr : Marketplace.fetchNFTData c.ledger.reads w id = some r)
    (hd : NFTDetails.view w dateOfValue (toString id)
      (NFTDetails.fetchData (some c) w id NFTDetails.initial) = some d) :
    d.name = r.name ∧
    ((NFTDetails.fetchData (some c) w id NFTDetails.initial).meta = .onChain m →
      (m.description ≠ "" → d.description = r.description) ∧
      (m.materials ≠ "" → d.materials = r.materials) ∧
      (m.artisanDetails ≠ "" → d.artisanDetails = r.artisanDetails) ∧
      (m.creationDate ≠ 0 → d.creationDate = r.creationDate)) ∧
    ((∃ e, w.fetch (NFTDetails.pinataUrl uri) = .error e) →
      (NFTDetails.fetchData (some c) w id NFTDetails.initial).meta = .onChain m) := by
  obtain ⟨hipfs, hmeta⟩ := NFTDetails.fetchData_of_reads w hm hpv huri hscheme
  obtain ⟨owner, uri', b, p, pn, _, h2, _, _, hrec⟩ := Marketplace.fetchNFTData_eq_some hr
  rw [huri] at h2
  have huri' : uri' = uri := (Except.ok.inj h2).symm
  subst huri'
  have hon : Marketplace.onChainMetadata c.ledger.reads id = some m := by
    unfold Marketplace.onChainMetadata
    rw [hm]
  rw [hon] at hrec
  generalize NFTDetails.fetchData (some c) w id NFTDetails.initial = S at hipfs hmeta hd ⊢
  unfold NFTDetails.view at hd
  by_cases hfalsy : S.meta.falsy = true
  · rw [if_pos hfalsy] at hd
    exact Option.noConfusion hd
  rw [if_neg hfalsy] at hd
  have hd' := (Option.some.inj hd).symm
  refine ⟨?_, ?_, hmeta⟩
  · rw [hd', hrec]
    show NFTDetails.heading S.ipfsMetadata (toString id) = _
    rw [hipfs]
    rfl
  · intro hS
    rw [hS] at hd'
    refine ⟨?_, ?_, ?_, ?_⟩
    · intro hne
      rw [hd', hrec]
      show JsVal.str m.description = ((JsVal.str m.description).or _).or _
      rw [JsVal.str_or hne, JsVal.str_or hne]
    · intro hne
      rw [hd', hrec]
      exact (JsVal.str_or hne _).symm
    · intro hne
      rw [hd', hrec]
      exact (JsVal.str_or hne _).symm
    · intro hne
      rw [hd', hrec]
      show w.localeDate m.creationDate
        = if m.creationDate ≠ 0 then w.localeDate m.creationDate else "Unknown"
      rw [if_pos hne]

/-- The two views of token 1 of the sample deployment with the sample store,
where only the `ipfs.io` gateway answers: the fields agree. -/
theorem details_agree_with_record_witness :
    startsWith "ipfs://QmVase" "ipfs://" = true ∧
    sampleStore.fetch (NFTDetails.pinataUrl "ipfs://QmVase") = .error "Failed to fetch" ∧
    ∃ d r,
      NFTDetails.view sampleStore (fun _ => "Invalid Date") (toString 1)
        (NFTDetails.fetchData (some sampleHandle) sampleStore 1 NFTDetails.initial) = some d ∧
      Marketplace.fetchNFTData sampleHandle.ledger.reads sampleStore 1 = some r ∧
      d.name = r.name ∧ d.name = .str "Vase" ∧
      d.description = r.description ∧ d.materials = r.materials ∧
      d.artisanDetails = r.artisanDetails ∧ d.creationDate = r.creationDate :=
  have h := details_agree_with_record sampleHandle sampleStore (fun _ => "Invalid Date") 1
    sampleMetadata ["0xAbCd"] "ipfs://QmVase" _ _ rfl rfl rfl (by decide) rfl rfl
  have h' := h.2.1 (h.2.2 ⟨_, rfl⟩)
  ⟨by decide, rfl, _, _, rfl, rfl, h.1, rfl, h'.1 (by decide), h'.2.1 (by decide),
    h'.2.2.1 (by decide), h'.2.2.2 (by decide)⟩

/-! ## The mint forms -/

/-- C21: in `ArtisanDashboard.handleSubmit`, when the contract is missing, the
account is missing (or empty) or `isArtisan` is false, no request is sent
(no image or metadata upload, no `mintNFT` call), the only toast is the
error "You must be a registered artisan to mint NFTs." and the form state
is left as it was. -/
theorem handleSubmit_rejects_unregistered {β : Type} (s : Session) (env : MintEnv β)
    (st : ArtisanDashboard.Form β)
    (h : s.contract = none ∨ s.account = none ∨ s.account = some "" ∨ s.isArtisan = false) :
    (ArtisanDashboard.handleSubmit s env st).1.calls = [] ∧
    (ArtisanDashboard.handleSubmit s env st).1.toasts =
      [{ title := "Error", description := "You must be a registered artisan to mint NFTs.",
         status := "error" }] ∧
    (ArtisanDashboard.handleSubmit s env st).2 = st := by
  cases hc : s.contract <;> cases ha : s.account <;>
    simp only [ArtisanDashboard.handleSubmit, hc, ha, and_self]
  rename_i c account
  have h2 : account = "" ∨ s.isArtisan = false := by
    rcases h with h | h | h | h
    · rw [hc] at h; exact absurd h (by simp)
    · rw [ha] at h; exact absurd h (by simp)
    · rw [ha] at h; exact Or.inl (Option.some.inj h)
    · exact Or.inr h
  simp only [if_pos h2, and_self]

/-- Witness of C21: the initial session, with no contract and no account. -/
theorem handleSubmit_rejects_unregistered_witness :
    (ArtisanDashboard.handleSubmit Session.initial sampleEnv sampleForm).1.calls = [] ∧
    (ArtisanDashboard.handleSubmit Session.initial sampleEnv sampleForm).1.toasts =
      [{ title := "Error", description := "You must be a registered artisan to mint NFTs.",
         status := "error" }] ∧
    (ArtisanDashboard.handleSubmit Session.initial sampleEnv sampleForm).2 = sampleForm :=
  handleSubmit_rejects_unregistered Session.initial sampleEnv sampleForm (Or.inl rfl)

theorem Call.mintArgs_append {β : Type} (a b : List (Call β)) :
    Call.mintArgs (a ++ b) = Call.mintArgs a ++ Call.mintArgs b := by
  induction a with
  | nil => rfl
  | cons x xs ih => cases x <;> simp [Call.mintArgs, ih]

theorem Call.listings_append {β : Type} (a b : List (Call β)) :
    Call.listings (a ++ b) = Call.listings a ++ Call.listings b := by
  induction a with
  | nil => rfl
  | cons x xs ih => cases x <;> simp [Call.listings, ih]

/-- The optional listing makes no request, or the one `setNFTForSale` call. -/
theorem MintTestNFT.listForSale_calls {β : Type} (env : MintEnv β) (newTokenId price : String) :
    ((MintTestNFT.listForSale env newTokenId price).1 = [] ∧
      ((parseFloat price).gtZero = false ∨
        ∃ msg, Ethers.parseEtherThrowing env.ethersVersion price = .error msg)) ∨
    ∃ v, (parseFloat price).gtZero = true ∧
      Ethers.parseEtherThrowing env.ethersVersion price = .ok v ∧
      (MintTestNFT.listForSale env newTokenId price).1 = [.setNFTForSale newTokenId v] := by
  unfold MintTestNFT.listForSale
  cases hg : (parseFloat price).gtZero
  · exact Or.inl ⟨by simp, Or.inl rfl⟩
  · cases hp : Ethers.parseEtherThrowing env.ethersVersion price with
    | error msg => exact Or.inl ⟨by simp, Or.inr ⟨msg, rfl⟩⟩
    | ok v =>
      refine Or.inr ⟨v, rfl, rfl, ?_⟩
      cases hw : env.writes.setNFTForSale newTokenId v with
      | error msg => simp [hw]
      | ok saleTx => cases hs : saleTx.wait <;> simp [hw, hs]

theorem MintTestNFT.listForSale_mintArgs {β : Type} (env : MintEnv β)
    (newTokenId price : String) :
    Call.mintArgs (MintTestNFT.listForSale env newTokenId price).1 = [] := by
  rcases MintTestNFT.listForSale_calls env newTokenId price with ⟨h, _⟩ | ⟨v, _, _, h⟩ <;>
    rw [h] <;> rfl

/-- The requests of `handleMint` once a contract and an account are bound:
the upload, then, when it succeeded, the mint, then what the listing adds. -/
theorem MintTestNFT.handleMint_bound {β : Type} {s : Session} {c : ContractHandle}
    {account : String} (env : MintEnv β) (st : MintTestNFT.State)
    (hc : s.contract = some c) (ha : s.account = some account) (hne : account ≠ "") :
    let metadata := createNFTMetadata env.now st.name st.description
      "https://via.placeholder.com/500?text=Test+NFT" st.materials st.artisanDetails
    (∃ rest, (MintTestNFT.handleMint s env st).1.calls = .uploadMetadataToIPFS metadata :: rest) ∧
    (∀ msg, uploadMetadataToIPFS env.codec env.client metadata = .error msg →
      (MintTestNFT.handleMint s env st).1.calls = [.uploadMetadataToIPFS metadata]) ∧
    (∀ cid, uploadMetadataToIPFS env.codec env.client metadata = .ok cid →
      Call.mintArgs (MintTestNFT.handleMint s env st).1.calls =
        [[account, st.description, st.materials, st.artisanDetails, "ipfs://" ++ cid]]) := by
  intro metadata
  have hm : metadata = createNFTMetadata env.now st.name st.description
      "https://via.placeholder.com/500?text=Test+NFT" st.materials st.artisanDetails := rfl
  simp only [MintTestNFT.handleMint, hc, ha, if_neg hne, ← hm]
  cases hu : uploadMetadataToIPFS env.codec env.client metadata with
  | error msg => simp [Call.mintArgs]
  | ok cid =>
    simp only [hu]
    cases hw : env.writes.mintNFT
        [account, st.description, st.materials, st.artisanDetails, "ipfs://" ++ cid] with
    | error msg => simp [hw, Call.mintArgs]
    | ok tx =>
      cases hwait : tx.wait with
      | error msg => simp [hw, hwait, Call.mintArgs]
      | ok u =>
        cases hts : env.totalSupply with
        | error msg => simp [hw, hwait, hts, Call.mintArgs]
        | ok n =>
          have hl := MintTestNFT.listForSale_mintArgs env (toString n) st.price
          rcases hres : MintTestNFT.listForSale env (toString n) st.price with ⟨listing, o⟩
          rw [hres] at hl
          cases o <;> simp [hw, hwait, hts, hres, Call.mintArgs, Call.mintArgs_append, hl]

theorem MintTestNFT.handleMint_unbound {β : Type} {s : Session} (env : MintEnv β)
    (st : MintTestNFT.State)
    (h : s.contract = none ∨ s.account = none ∨ s.account = some "") :
    (MintTestNFT.handleMint s env st).1.calls = [] := by
  cases hc : s.contract <;> cases ha : s.account <;>
    simp only [MintTestNFT.handleMint, hc, ha]
  rename_i c account
  have h2 : account = "" := by
    rcases h with h | h | h
    · rw [hc] at h; exact absurd h (by simp)
    · rw [ha] at h; exact absurd h (by simp)
    · rw [ha] at h; exact Option.some.inj h
  simp only [if_pos h2]

/-- Counterexample to C22: the administrator of the sample deployment, who is
not an artisan, reaches the mint button after connecting, and the click
uploads the metadata and calls `mintNFT`. -/
theorem test_mint_by_admin :
    Session.Reachable adminSession ∧
    adminSession.isAdmin = true ∧ adminSession.isArtisan = false ∧
    MintTestNFT.rendered adminSession = true ∧
    Call.mintArgs (MintTestNFT.clickMint adminSession sampleEnv MintTestNFT.initial).1.calls
      = [["0xAd01", "This is a test NFT", "Digital", "Test Artisan", "ipfs://QmMeta"]] :=
  ⟨Session.Reachable.connectWallet sampleBrowser Session.Reachable.initial, rfl, rfl, rfl,
    (@MintTestNFT.handleMint_bound JsonDoc adminSession sampleHandle "0xAd01"
      sampleEnv MintTestNFT.initial rfl rfl (by decide)).2.2 "QmMeta" rfl⟩

/-- C22, amended: a click on the mint button of `MintTestNFT` sends a request
exactly when the component is rendered (`isAdmin` or `isArtisan`), no mint
has succeeded or is running, and a contract and a non-empty account are
bound; it calls `mintNFT` exactly when, in addition, the metadata upload
succeeded, whatever `isArtisan` is. A caller that is neither administrator
nor artisan gets no upload and no transaction. -/
theorem clickMint_role_guard {β : Type} (s : Session) (env : MintEnv β)
    (st : MintTestNFT.State) :
    ((MintTestNFT.clickMint s env st).1.calls ≠ [] ↔
      (s.isAdmin = true ∨ s.isArtisan = true) ∧ st.mintSuccess = false ∧ st.loading = false ∧
      ∃ c account, s.contract = some c ∧ s.account = some account ∧ account ≠ "") ∧
    (Call.mintArgs (MintTestNFT.clickMint s env st).1.calls ≠ [] ↔
      (s.isAdmin = true ∨ s.isArtisan = true) ∧ st.mintSuccess = false ∧ st.loading = false ∧
      (∃ c account, s.contract = some c ∧ s.account = some account ∧ account ≠ "") ∧
      ∃ cid, uploadMetadataToIPFS env.codec env.client
        (createNFTMetadata env.now st.name st.description
          "https://via.placeholder.com/500?text=Test+NFT" st.materials st.artisanDetails)
        = .ok cid) ∧
    (s.isAdmin = false → s.isArtisan = false → (MintTestNFT.clickMint s env st).1.calls = []) := by
  have hshown : (MintTestNFT.rendered s && !st.mintSuccess && !st.loading) = true ↔
      (s.isAdmin = true ∨ s.isArtisan = true) ∧ st.mintSuccess = false ∧ st.loading = false := by
    simp [MintTestNFT.rendered, and_assoc]
  by_cases hr : (MintTestNFT.rendered s && !st.mintSuccess && !st.loading) = true
  · have hclick : MintTestNFT.clickMint s env st = MintTestNFT.handleMint s env st := by
      simp only [MintTestNFT.clickMint, if_pos hr]
    have hr2 := hshown.mp hr
    rw [hclick]
    by_cases hb : ∃ c account, s.contract = some c ∧ s.account = some account ∧ account ≠ ""
    · obtain ⟨c, account, hc, ha, hne⟩ := hb
      obtain ⟨⟨rest, h1⟩, h2, h3⟩ := MintTestNFT.handleMint_bound env st hc ha hne
      refine ⟨⟨fun _ => ⟨hr2.1, hr2.2.1, hr2.2.2, c, account, hc, ha, hne⟩,
        fun _ => by rw [h1]; exact List.cons_ne_nil _ _⟩, ⟨?_, ?_⟩, ?_⟩
      · intro hm
        refine ⟨hr2.1, hr2.2.1, hr2.2.2, ⟨c, account, hc, ha, hne⟩, ?_⟩
        cases hu : uploadMetadataToIPFS env.codec env.client
          (createNFTMetadata env.now st.name st.description
            "https://via.placeholder.com/500?text=Test+NFT" st.materials st.artisanDetails) with
        | error msg => rw [h2 msg hu] at hm; exact absurd rfl hm
        | ok cid => exact ⟨cid, rfl⟩
      · rintro ⟨_, _, _, _, cid, hu⟩
        rw [h3 cid hu]
        exact List.cons_ne_nil _ _
      · intro h1 h2
        rcases hr2.1 with h | h
        · rw [h1] at h; exact absurd h (by decide)
        · rw [h2] at h; exact absurd h (by decide)
    · have hunb : s.contract = none ∨ s.account = none ∨ s.account = some "" := by
        cases hc : s.contract with
        | none => exact Or.inl rfl
        | some c =>
          cases ha : s.account with
          | none => exact Or.inr (Or.inl rfl)
          | some account =>
            by_cases hne : account = ""
            · exact Or.inr (Or.inr (by rw [hne]))
            · exact absurd ⟨c, account, hc, ha, hne⟩ hb
      have h0 := MintTestNFT.handleMint_unbound env st hunb
      rw [h0]
      refine ⟨⟨fun h => absurd rfl h, fun h => absurd h.2.2.2 hb⟩,
        ⟨fun h => absurd rfl h, fun h => absurd h.2.2.2.1 hb⟩, fun _ _ => rfl⟩
  · have hclick : (MintTestNFT.clickMint s env st).1.calls = [] := by
      simp only [MintTestNFT.clickMint, if_neg hr]
    rw [hclick]
    refine ⟨⟨fun h => absurd rfl h, fun h => absurd (hshown.mpr ⟨h.1, h.2.1, h.2.2.1⟩) hr⟩,
      ⟨fun h => absurd rfl h, fun h => absurd (hshown.mpr ⟨h.1, h.2.1, h.2.2.1⟩) hr⟩,
      fun _ _ => rfl⟩

/-- Witness of C22: in the initial session nobody is administrator or
artisan, and the click sends nothing. -/
theorem clickMint_role_guard_witness :
    (MintTestNFT.clickMint Session.initial sampleEnv MintTestNFT.initial).1.calls = [] :=
  (clickMint_role_guard Session.initial sampleEnv MintTestNFT.initial).2.2 rfl rfl

/-- The requests of `handleSubmit` of the dashboard carry at most one
`mintNFT` call, with the account first and the gateway URL of the uploaded
metadata last. -/
theorem ArtisanDashboard.handleSubmit_mintArgs {β : Type} (s : Session) (env : MintEnv β)
    (st : ArtisanDashboard.Form β) :
    Call.mintArgs (ArtisanDashboard.handleSubmit s env st).1.calls = [] ∨
    ∃ account cid, s.account = some account ∧
      Call.mintArgs (ArtisanDashboard.handleSubmit s env st).1.calls =
        [[account, st.formData.description, st.formData.materials, st.formData.artisanDetails,
          "https://ipfs.io/ipfs/" ++ cid]] := by
  cases hc : s.contract with
  | none => left; simp [ArtisanDashboard.handleSubmit, hc, Call.mintArgs]
  | some c =>
    cases ha : s.account with
    | none => left; simp [ArtisanDashboard.handleSubmit, hc, ha, Call.mintArgs]
    | some account =>
      by_cases hg : account = "" ∨ s.isArtisan = false
      · left; simp [ArtisanDashboard.handleSubmit, hc, ha, hg, Call.mintArgs]
      · cases hf : st.file with
        | none => left; simp [ArtisanDashboard.handleSubmit, hc, ha, hg, hf, Call.mintArgs]
        | some file =>
          have hsub : Call.mintArgs (ArtisanDashboard.submit env account st.formData file).1 = [] ∨
              ∃ cid, Call.mintArgs (ArtisanDashboard.submit env account st.formData file).1 =
                [[account, st.formData.description, st.formData.materials,
                  st.formData.artisanDetails, "https://ipfs.io/ipfs/" ++ cid]] := by
            unfold ArtisanDashboard.submit
            cases h1 : uploadToIPFS env.client file with
            | error msg => left; simp [Call.mintArgs]
            | ok imageCID =>
              cases h2 : uploadMetadataToIPFS env.codec env.client
                (createNFTMetadata env.now st.formData.name st.formData.description
                  ("https://ipfs.io/ipfs/" ++ imageCID) st.formData.materials
                  st.formData.artisanDetails) with
              | error msg => left; simp [h2, Call.mintArgs]
              | ok metadataCID =>
                right
                refine ⟨metadataCID, ?_⟩
                cases h3 : env.writes.mintNFT [account, st.formData.description,
                  st.formData.materials, st.formData.artisanDetails,
                  "https://ipfs.io/ipfs/" ++ metadataCID] with
                | error msg => simp [h2, h3, Call.mintArgs]
                | ok tx => cases h4 : tx.wait <;> simp [h2, h3, h4, Call.mintArgs]
          have hcalls : (ArtisanDashboard.handleSubmit s env st).1.calls =
              (ArtisanDashboard.submit env account st.formData file).1 := by
            simp only [ArtisanDashboard.handleSubmit, hc, ha, if_neg hg, hf]
            rcases hres : ArtisanDashboard.submit env account st.formData file with ⟨calls, o⟩
            cases o <;> rfl
          rw [hcalls]
          rcases hsub with h | ⟨cid, h⟩
          · exact Or.inl h
          · exact Or.inr ⟨account, cid, rfl, h⟩

/-- The requests of `handleMint` of `MintTestNFT` carry at most one `mintNFT`
call, with the account first and the `ipfs://` locator of the uploaded
metadata last. -/
theorem MintTestNFT.handleMint_mintArgs {β : Type} (s : Session) (env : MintEnv β)
    (st : MintTestNFT.State) :
    Call.mintArgs (MintTestNFT.handleMint s env st).1.calls = [] ∨
    ∃ account cid, s.account = some account ∧
      Call.mintArgs (MintTestNFT.handleMint s env st).1.calls =
        [[account, st.description, st.materials, st.artisanDetails, "ipfs://" ++ cid]] := by
  by_cases hb : ∃ c account, s.contract = some c ∧ s.account = some account ∧ account ≠ ""
  · obtain ⟨c, account, hc, ha, hne⟩ := hb
    obtain ⟨_, h2, h3⟩ := MintTestNFT.handleMint_bound env st hc ha hne
    cases hu : uploadMetadataToIPFS env.codec env.client
      (createNFTMetadata env.now st.name st.description
        "https://via.placeholder.com/500?text=Test+NFT" st.materials st.artisanDetails) with
    | error msg => left; rw [h2 msg hu]; rfl
    | ok cid => exact Or.inr ⟨account, cid, ha, h3 cid hu⟩
  · left
    have hunb : s.contract = none ∨ s.account = none ∨ s.account = some "" := by
      cases hc : s.contract with
      | none => exact Or.inl rfl
      | some c =>
        cases ha : s.account with
        | none => exact Or.inr (Or.inl rfl)
        | some account =>
          by_cases hne : account = ""
          · exact Or.inr (Or.inr (by rw [hne]))
          · exact absurd ⟨c, account, hc, ha, hne⟩ hb
    rw [MintTestNFT.handleMint_unbound env st hunb]
    rfl

/-- C23, as the code has it: the dashboard form and the test dialog call
`mintNFT`, when they call it, with five arguments in the order of the test
script (owner, description, materials, creator details, locator), while
`Mint.handleMint` with a bound contract calls it with four, the description
first and no owner. -/
theorem mint_paths_arguments :
    (∀ (β : Type) (s : Session) (env : MintEnv β) (st : ArtisanDashboard.Form β),
      Call.mintArgs (ArtisanDashboard.handleSubmit s env st).1.calls = [] ∨
      ∃ account cid, s.account = some account ∧
        Call.mintArgs (ArtisanDashboard.handleSubmit s env st).1.calls =
          [[account, st.formData.description, st.formData.materials,
            st.formData.artisanDetails, "https://ipfs.io/ipfs/" ++ cid]]) ∧
    (∀ (β : Type) (s : Session) (env : MintEnv β) (st : MintTestNFT.State),
      Call.mintArgs (MintTestNFT.handleMint s env st).1.calls = [] ∨
      ∃ account cid, s.account = some account ∧
        Call.mintArgs (MintTestNFT.handleMint s env st).1.calls =
          [[account, st.description, st.materials, st.artisanDetails, "ipfs://" ++ cid]]) ∧
    (∀ deployer : String, ∃ description materials artisanDetails tokenURI,
      TestContract.mintArgs deployer =
        [deployer, description, materials, artisanDetails, tokenURI]) ∧
    (∀ (c : ContractHandle) (writes : Writes) (form : Mint.Form),
      Call.mintArgs (Mint.handleMint (some c) writes form).calls =
        [[form.description, form.materials, form.artisanDetails, form.ipfsLink]]) ∧
    Call.mintArgs (ArtisanDashboard.handleSubmit artisanSession sampleEnv sampleForm).1.calls =
      [["0xA2", "A vase", "Clay", "Asha", "https://ipfs.io/ipfs/QmMeta"]] ∧
    Call.mintArgs (Mint.handleMint (some sampleHandle) sampleWrites
        { description := "A vase", materials := "Clay", artisanDetails := "Asha",
          ipfsLink := "ipfs://QmMeta" }).calls =
      [["A vase", "Clay", "Asha", "ipfs://QmMeta"]] := by
  refine ⟨fun β s env st => ArtisanDashboard.handleSubmit_mintArgs s env st,
    fun β s env st => MintTestNFT.handleMint_mintArgs s env st,
    fun deployer => ⟨_, _, _, _, rfl⟩, ?_, rfl, rfl⟩
  intro c writes form
  simp only [Mint.handleMint]
  cases h : writes.mintNFT [form.description, form.materials, form.artisanDetails,
    form.ipfsLink] with
  | error msg => rfl
  | ok tx => cases h2 : tx.wait <;> simp only [h2] <;> rfl

/-! ## Registration and the error messages of the test mint -/

/-- The method `includes` holds exactly when the pattern occurs as a
contiguous piece of the string. -/
theorem includes_iff (s pat : String) :
    includes s pat = true ↔ ∃ a b : List Char, s.data = a ++ pat.data ++ b := by
  unfold includes
  rw [List.any_eq_true]
  constructor
  · rintro ⟨t, ht, hp⟩
    rw [List.mem_tails] at ht
    obtain ⟨a, ha⟩ := ht
    rw [List.isPrefixOf_iff_prefix] at hp
    obtain ⟨b, hb⟩ := hp
    exact ⟨a, b, by rw [← ha, ← hb, List.append_assoc]⟩
  · rintro ⟨a, b, h⟩
    refine ⟨pat.data ++ b, ?_, ?_⟩
    · rw [List.mem_tails]
      exact ⟨a, by rw [h, List.append_assoc]⟩
    · rw [List.isPrefixOf_iff_prefix]
      exact ⟨b, rfl⟩

/-- The test of the address field accepts exactly `0x` followed by 40
hexadecimal digits. -/
theorem AdminDashboard.matchesAddress_iff (address : String) :
    AdminDashboard.matchesAddress address = true ↔
      ∃ hex : List Char, address = "0x" ++ String.mk hex ∧ hex.length = 40 ∧
        ∀ ch ∈ hex, ('a' ≤ ch ∧ ch ≤ 'f') ∨ ('A' ≤ ch ∧ ch ≤ 'F') ∨ ('0' ≤ ch ∧ ch ≤ '9') := by
  have hhex : ∀ ch : Char, AdminDashboard.isHexChar ch = true ↔
      (('a' ≤ ch ∧ ch ≤ 'f') ∨ ('A' ≤ ch ∧ ch ≤ 'F') ∨ ('0' ≤ ch ∧ ch ≤ '9')) := by
    intro ch
    simp [AdminDashboard.isHexChar, or_assoc]
  constructor
  · intro h
    unfold AdminDashboard.matchesAddress at h
    rcases hd : address.data with _ | ⟨c0, _ | ⟨c1, rest⟩⟩
    · rw [hd] at h; simp at h
    · rw [hd] at h; simp at h
    · rw [hd] at h
      by_cases h0 : c0 = '0'
      · by_cases h1 : c1 = 'x'
        · subst h0; subst h1
          simp only [Bool.and_eq_true, decide_eq_true_eq, List.all_eq_true] at h
          refine ⟨rest, ?_, h.1, fun ch hch => (hhex ch).mp (h.2 ch hch)⟩
          apply String.ext
          rw [hd]
          rfl
        · exfalso
          subst h0
          split at h
          · rename_i heq
            simp only [List.cons.injEq] at heq
            exact h1 heq.2.1
          · simp at h
      · exfalso
        split at h
        · rename_i heq
          simp only [List.cons.injEq] at heq
          exact h0 heq.1
        · simp at h
  · rintro ⟨hex, rfl, hlen, hall⟩
    have hd : ("0x" ++ String.mk hex).data = '0' :: 'x' :: hex := rfl
    unfold AdminDashboard.matchesAddress
    rw [hd]
    simp only [Bool.and_eq_true, decide_eq_true_eq, List.all_eq_true]
    exact ⟨hlen, fun ch hch => (hhex ch).mpr (hall ch hch)⟩

/-- C26: `handleRegisterArtisan` calls `registerArtisan`, with the entered
address, exactly when a contract is bound, `isAdmin` is true, the address is
`0x` followed by 40 hexadecimal digits, and the ledger answers that the
address does not hold the artisan role; it never makes another request. For
an address that already holds the role it sends nothing, shows a warning and
no error, and leaves `isRegistering` false and the field as it was. -/
theorem handleRegisterArtisan_submits (s : Session) (writes : Writes)
    (st : AdminDashboard.State) :
    ((AdminDashboard.handleRegisterArtisan s writes st).1.calls
        = [.registerArtisan st.newArtisanAddress] ↔
      ∃ c role, s.contract = some c ∧ s.isAdmin = true ∧
        (∃ hex : List Char, st.newArtisanAddress = "0x" ++ String.mk hex ∧ hex.length = 40 ∧
          ∀ ch ∈ hex, ('a' ≤ ch ∧ ch ≤ 'f') ∨ ('A' ≤ ch ∧ ch ≤ 'F') ∨ ('0' ≤ ch ∧ ch ≤ '9')) ∧
        c.ledger.roles.ARTISAN_ROLE = .ok role ∧
        c.ledger.roles.hasRole role st.newArtisanAddress = .ok false) ∧
    ((AdminDashboard.handleRegisterArtisan s writes st).1.calls = [] ∨
      (AdminDashboard.handleRegisterArtisan s writes st).1.calls
        = [.registerArtisan st.newArtisanAddress]) ∧
    (∀ c role, s.contract = some c → s.isAdmin = true →
      AdminDashboard.matchesAddress st.newArtisanAddress = true →
      c.ledger.roles.ARTISAN_ROLE = .ok role →
      c.ledger.roles.hasRole role st.newArtisanAddress = .ok true →
      (AdminDashboard.handleRegisterArtisan s writes st).1.calls = [] ∧
      (AdminDashboard.handleRegisterArtisan s writes st).1.toasts =
        [{ title := "Already Registered",
           description := "This address is already registered as an artisan.",
           status := "warning" }] ∧
      (AdminDashboard.handleRegisterArtisan s writes st).2 =
        { newArtisanAddress := st.newArtisanAddress, isRegistering := false }) := by
  have hne : ∀ a : String, ([] : List (Call Unit)) ≠ [.registerArtisan a] := fun a h =>
    List.noConfusion h
  rw [← AdminDashboard.matchesAddress_iff]
  cases hc : s.contract with
  | none =>
    refine ⟨⟨fun h => ?_, fun ⟨c, _, h, _⟩ => absurd h (by simp)⟩, Or.inl ?_,
      fun c _ h => absurd h (by simp)⟩
    · simp only [AdminDashboard.handleRegisterArtisan, hc] at h
      exact absurd h (hne _)
    · simp only [AdminDashboard.handleRegisterArtisan, hc]
  | some c =>
    by_cases hg : s.isAdmin = false ∨ st.newArtisanAddress = ""
    · have hcalls : (AdminDashboard.handleRegisterArtisan s writes st).1.calls = [] := by
        simp only [AdminDashboard.handleRegisterArtisan, hc, if_pos hg]
      have hno : ¬ (s.isAdmin = true ∧ AdminDashboard.matchesAddress st.newArtisanAddress = true) := by
        rintro ⟨h1, h2⟩
        rcases hg with h | h
        · rw [h1] at h; exact absurd h (by decide)
        · rw [h] at h2; exact absurd h2 (by decide)
      refine ⟨⟨fun h => ?_, fun ⟨_, _, _, h1, h2, _⟩ => absurd ⟨h1, h2⟩ hno⟩, Or.inl hcalls,
        fun _ _ _ h1 h2 => absurd ⟨h1, h2⟩ hno⟩
      rw [hcalls] at h
      exact absurd h (hne _)
    · have hadmin : s.isAdmin = true := by
        cases h : s.isAdmin with
        | true => rfl
        | false => exact absurd (Or.inl h) hg
      cases hm : AdminDashboard.matchesAddress st.newArtisanAddress with
      | false =>
        have hcalls : (AdminDashboard.handleRegisterArtisan s writes st).1.calls = [] := by
          simp [AdminDashboard.handleRegisterArtisan, hc, if_neg hg, hm]
        refine ⟨⟨fun h => ?_, fun ⟨_, _, _, _, h, _⟩ => absurd h (by simp)⟩, Or.inl hcalls,
          fun _ _ _ _ h => absurd h (by simp)⟩
        rw [hcalls] at h
        exact absurd h (hne _)
      | true =>
        cases hrole : c.ledger.roles.ARTISAN_ROLE with
        | error msg =>
          have hcalls : (AdminDashboard.handleRegisterArtisan s writes st).1.calls = [] := by
            simp [AdminDashboard.handleRegisterArtisan, hc, if_neg hg, hm, hrole]
          refine ⟨⟨fun h => ?_, ?_⟩, Or.inl hcalls, ?_⟩
          · rw [hcalls] at h
            exact absurd h (hne _)
          · rintro ⟨c2, role, h1, _, _, h2, _⟩
            obtain rfl := Option.some.inj h1
            rw [hrole] at h2
            exact Except.noConfusion h2
          · intro c2 role h1 _ _ h2
            obtain rfl := Option.some.inj h1
            rw [hrole] at h2
            exact Except.noConfusion h2
        | ok artisanRole =>
          cases hhas : c.ledger.roles.hasRole artisanRole st.newArtisanAddress with
          | error msg =>
            have hcalls : (AdminDashboard.handleRegisterArtisan s writes st).1.calls = [] := by
              simp [AdminDashboard.handleRegisterArtisan, hc, if_neg hg, hm, hrole, hhas]
            refine ⟨⟨fun h => ?_, ?_⟩, Or.inl hcalls, ?_⟩
            · rw [hcalls] at h
              exact absurd h (hne _)
            · rintro ⟨c2, role, h1, _, _, h2, h3⟩
              obtain rfl := Option.some.inj h1
              rw [hrole] at h2
              obtain rfl := Except.ok.inj h2
              rw [hhas] at h3
              exact Except.noConfusion h3
            · intro c2 role h1 _ _ h2 h3
              obtain rfl := Option.some.inj h1
              rw [hrole] at h2
              obtain rfl := Except.ok.inj h2
              rw [hhas] at h3
              exact Except.noConfusion h3
          | ok isAlreadyArtisan =>
            cases isAlreadyArtisan with
            | true =>
              have hres : AdminDashboard.handleRegisterArtisan s writes st =
                  ({ calls := [],
                     toasts := [{ title := "Already Registered",
                                  description := "This address is already registered as an artisan.",
                                  status := "warning" }] },
                   { st with isRegistering := false }) := by
                simp [AdminDashboard.handleRegisterArtisan, hc, if_neg hg, hm, hrole, hhas]
              refine ⟨⟨fun h => ?_, ?_⟩, Or.inl (by rw [hres]), ?_⟩
              · rw [hres] at h
                exact absurd h (hne _)
              · rintro ⟨c2, role, h1, _, _, h2, h3⟩
                obtain rfl := Option.some.inj h1
                rw [hrole] at h2
                obtain rfl := Except.ok.inj h2
                rw [hhas] at h3
                exact absurd (Except.ok.inj h3) (by decide)
              · intro _ _ _ _ _ _ _
                rw [hres]
                exact ⟨rfl, rfl, rfl⟩
            | false =>
              have hcalls : (AdminDashboard.handleRegisterArtisan s writes st).1.calls =
                  [.registerArtisan st.newArtisanAddress] := by
                simp only [AdminDashboard.handleRegisterArtisan, hc, if_neg hg, hm, hrole, hhas]
                cases hw : writes.registerArtisan st.newArtisanAddress with
                | error msg => simp
                | ok tx => cases hwait : tx.wait <;> simp [hwait]
              refine ⟨⟨fun _ => ⟨c, artisanRole, rfl, hadmin, rfl, hrole, hhas⟩, fun _ => hcalls⟩,
                Or.inr hcalls, ?_⟩
              intro c2 role h1 _ _ h2 h3
              obtain rfl := Option.some.inj h1
              rw [hrole] at h2
              obtain rfl := Except.ok.inj h2
              rw [hhas] at h3
              exact absurd (Except.ok.inj h3) (by decide)

/-- Witness of C26: the administrator of the sample deployment enters the
address of the test script; while it holds no role the call is made, and
once it is registered nothing is sent and a warning is shown. -/
theorem handleRegisterArtisan_submits_witness :
    (AdminDashboard.handleRegisterArtisan adminSession sampleWrites
        { newArtisanAddress := "0x711C527EB5211e38747d82f40E162fEC650C5eAd",
          isRegistering := false }).1.calls
      = [.registerArtisan "0x711C527EB5211e38747d82f40E162fEC650C5eAd"] ∧
    ((AdminDashboard.handleRegisterArtisan registeredSession sampleWrites
        { newArtisanAddress := "0x711C527EB5211e38747d82f40E162fEC650C5eAd",
          isRegistering := false }).1.calls = [] ∧
      (AdminDashboard.handleRegisterArtisan registeredSession sampleWrites
        { newArtisanAddress := "0x711C527EB5211e38747d82f40E162fEC650C5eAd",
          isRegistering := false }).1.toasts =
        [{ title := "Already Registered",
           description := "This address is already registered as an artisan.",
           status := "warning" }] ∧
      (AdminDashboard.handleRegisterArtisan registeredSession sampleWrites
        { newArtisanAddress := "0x711C527EB5211e38747d82f40E162fEC650C5eAd",
          isRegistering := false }).2 =
        { newArtisanAddress := "0x711C527EB5211e38747d82f40E162fEC650C5eAd",
          isRegistering := false }) :=
  ⟨(handleRegisterArtisan_submits adminSession sampleWrites
      { newArtisanAddress := "0x711C527EB5211e38747d82f40E162fEC650C5eAd",
        isRegistering := false }).1.mpr
    ⟨sampleHandle, "0x01", rfl, rfl,
      ⟨"711C527EB5211e38747d82f40E162fEC650C5eAd".data, rfl, rfl, by decide⟩, rfl, rfl⟩,
   (handleRegisterArtisan_submits registeredSession sampleWrites
      { newArtisanAddress := "0x711C527EB5211e38747d82f40E162fEC650C5eAd",
        isRegistering := false }).2.2
    { runner := { address := "0xAd01" },
      ledger := { sampleDeployment with roles := registeredRoles } }
    "0x01" rfl rfl rfl rfl rfl⟩

/-- C27: the message chosen by the `catch` block of `MintTestNFT.handleMint` is
"Transaction was rejected in your wallet" for every error message that
contains "user rejected", "You don't have enough ETH to complete this
transaction" for every other message that contains "insufficient funds", and
the message itself otherwise; the toast describes the failure as
"Failed to mint NFT: " followed by that text, and every toast `handleMint`
raises for an error caught by its `try` is of this form. The text for
insufficient funds differs from the message it replaces. -/
theorem mint_error_classifier (message : String) :
    (includes message "user rejected" = true →
      MintTestNFT.errorMessage message = "Transaction was rejected in your wallet") ∧
    (includes message "user rejected" = false → includes message "insufficient funds" = true →
      MintTestNFT.errorMessage message
        = "You don't have enough ETH to complete this transaction" ∧
      MintTestNFT.errorMessage message ≠ message ∧
      (MintTestNFT.failed message).description ≠ "Failed to mint NFT: " ++ message) ∧
    (includes message "user rejected" = false → includes message "insufficient funds" = false →
      MintTestNFT.errorMessage message = message) ∧
    (MintTestNFT.failed message).description
      = "Failed to mint NFT: " ++ MintTestNFT.errorMessage message ∧
    (∀ (β : Type) (s : Session) (env : MintEnv β) (st : MintTestNFT.State),
      ∃ t, (MintTestNFT.handleMint s env st).1.toasts = [t] ∧
        (t.description = "Please connect your wallet first" ∨ t.status = "success" ∨
          ∃ msg, t = MintTestNFT.failed msg)) := by
  refine ⟨fun h => ?_, fun h1 h2 => ?_, fun h1 h2 => ?_, rfl, fun β s env st => ?_⟩
  · simp only [MintTestNFT.errorMessage, h, if_true]
  · have he : MintTestNFT.errorMessage message
        = "You don't have enough ETH to complete this transaction" := by
      simp [MintTestNFT.errorMessage, h1, h2]
    have hne : MintTestNFT.errorMessage message ≠ message := by
      intro h
      rw [he] at h
      rw [← h] at h2
      exact absurd h2 (by decide)
    refine ⟨he, hne, fun h => hne ?_⟩
    have h3 : ("Failed to mint NFT: " ++ MintTestNFT.errorMessage message).data
        = ("Failed to mint NFT: " ++ message).data := congrArg String.data h
    rw [String.data_append, String.data_append] at h3
    exact String.ext (List.append_cancel_left h3)
  · simp [MintTestNFT.errorMessage, h1, h2]
  · cases hc : s.contract with
    | none => exact ⟨{ title := "Error", description := "Please connect your wallet first", status := "error" },
        by simp only [MintTestNFT.handleMint, hc], Or.inl rfl⟩
    | some c =>
      cases ha : s.account with
      | none => exact ⟨{ title := "Error", description := "Please connect your wallet first", status := "error" },
          by simp only [MintTestNFT.handleMint, hc, ha], Or.inl rfl⟩
      | some account =>
        by_cases hne : account = ""
        · exact ⟨{ title := "Error", description := "Please connect your wallet first", status := "error" },
            by simp only [MintTestNFT.handleMint, hc, ha, if_pos hne], Or.inl rfl⟩
        · simp only [MintTestNFT.handleMint, hc, ha, if_neg hne]
          cases hu : uploadMetadataToIPFS env.codec env.client
            (createNFTMetadata env.now st.name st.description
              "https://via.placeholder.com/500?text=Test+NFT" st.materials st.artisanDetails) with
          | error msg => exact ⟨_, rfl, Or.inr (Or.inr ⟨msg, rfl⟩)⟩
          | ok cid =>
            simp only []
            cases hw : env.writes.mintNFT
                [account, st.description, st.materials, st.artisanDetails, "ipfs://" ++ cid] with
            | error msg => exact ⟨_, rfl, Or.inr (Or.inr ⟨msg, rfl⟩)⟩
            | ok tx =>
              simp only []
              cases hwait : tx.wait with
              | error msg => exact ⟨_, rfl, Or.inr (Or.inr ⟨msg, rfl⟩)⟩
              | ok u =>
                simp only []
                cases hts : env.totalSupply with
                | error msg => exact ⟨_, rfl, Or.inr (Or.inr ⟨msg, rfl⟩)⟩
                | ok n =>
                  simp only []
                  rcases hres : MintTestNFT.listForSale env (toString n) st.price with
                    ⟨listing, o⟩
                  cases o with
                  | some msg => exact ⟨_, rfl, Or.inr (Or.inr ⟨msg, rfl⟩)⟩
                  | none => exact ⟨_, rfl, Or.inr (Or.inl rfl)⟩

/-- Witness of C27: a declined signature, a balance that is too low and a
revert. -/
theorem mint_error_classifier_witness :
    MintTestNFT.errorMessage "user rejected action (action=\"sendTransaction\")"
      = "Transaction was rejected in your wallet" ∧
    MintTestNFT.errorMessage "insufficient funds for gas * price + value"
      = "You don't have enough ETH to complete this transaction" ∧
    MintTestNFT.errorMessage "execution reverted" = "execution reverted" :=
  ⟨(mint_error_classifier "user rejected action (action=\"sendTransaction\")").1 (by decide),
   ((mint_error_classifier "insufficient funds for gas * price + value").2.1
      (by decide) (by decide)).1,
   (mint_error_classifier "execution reverted").2.2.1 (by decide) (by decide)⟩

/-! ## A failed connection -/

/-- Counterexample to C28: the wallet authorizes an account but the signer
cannot be obtained; `connectWallet` returns false, and the account of the
session, unset before the call, is the authorized one after it. -/
theorem connectWallet_keeps_account_on_failure :
    (Session.connectWallet lockedBrowser Session.initial).1 = false ∧
    Session.initial.account = none ∧
    (Session.connectWallet lockedBrowser Session.initial).2.account = some "0xAd01" ∧
    (Session.connectWallet lockedBrowser Session.initial).2.signer = none :=
  ⟨rfl, rfl, rfl, rfl⟩

/-- C28, amended: when `connectWallet` returns false, the contract handle and
the flags `isAdmin` and `isArtisan` are the ones from before the call, the
error is set and `loading` is false. The account and the signer are
untouched only when the failure is the missing provider or the account
request; once accounts were returned the account is the first of them, and
the signer is the new one exactly when it could be obtained. -/
theorem connectWallet_failure_frame (b : Browser) (s : Session)
    (h : (Session.connectWallet b s).1 = false) :
    (Session.connectWallet b s).2.contract = s.contract ∧
    (Session.connectWallet b s).2.isAdmin = s.isAdmin ∧
    (Session.connectWallet b s).2.isArtisan = s.isArtisan ∧
    (Session.connectWallet b s).2.error ≠ none ∧
    (Session.connectWallet b s).2.loading = false ∧
    ((b.ethereum = none ∨ ∃ ethereum, b.ethereum = some ethereum ∧
        (ethereum.requestAccounts = .ok [] ∨ ∃ msg, ethereum.requestAccounts = .error msg)) →
      (Session.connectWallet b s).2.account = s.account ∧
      (Session.connectWallet b s).2.signer = s.signer) ∧
    (∀ ethereum first rest, b.ethereum = some ethereum →
      ethereum.requestAccounts = .ok (first :: rest) →
      (Session.connectWallet b s).2.account = some first ∧
      ((∃ msg, ethereum.getSigner = .error msg) →
        (Session.connectWallet b s).2.signer = s.signer) ∧
      (∀ ethersSigner, ethereum.getSigner = .ok ethersSigner →
        (Session.connectWallet b s).2.signer = some ethersSigner)) := by
  cases hb : b.ethereum with
  | none =>
    have hres : Session.connectWallet b s =
        (false, { s with error := some "MetaMask is not installed", loading := false }) := by
      simp only [Session.connectWallet, hb]
    rw [hres]
    exact ⟨rfl, rfl, rfl, fun h0 => Option.noConfusion h0, rfl, fun _ => ⟨rfl, rfl⟩,
      fun _ _ _ h0 => Option.noConfusion h0⟩
  | some ethereum =>
    cases h1 : ethereum.requestAccounts with
    | error msg =>
      have hres : Session.connectWallet b s =
          (false, { s with error := some msg, loading := false }) := by
        simp only [Session.connectWallet, hb, h1]
      rw [hres]
      refine ⟨rfl, rfl, rfl, fun h0 => Option.noConfusion h0, rfl, fun _ => ⟨rfl, rfl⟩, ?_⟩
      intro e first rest he hr
      obtain rfl := Option.some.inj he
      rw [h1] at hr
      exact Except.noConfusion hr
    | ok accounts =>
      cases accounts with
      | nil =>
        have hres : Session.connectWallet b s =
            (false, { s with error := some "No accounts found. Please unlock MetaMask.",
                             loading := false }) := by
          simp only [Session.connectWallet, hb, h1]
        rw [hres]
        refine ⟨rfl, rfl, rfl, fun h0 => Option.noConfusion h0, rfl, fun _ => ⟨rfl, rfl⟩, ?_⟩
        intro e first rest he hr
        obtain rfl := Option.some.inj he
        rw [h1] at hr
        exact absurd (Except.ok.inj hr) (by simp)
      | cons first rest =>
        have hnot : ¬ (some ethereum = none ∨ ∃ e, some ethereum = some e ∧
            (e.requestAccounts = .ok [] ∨ ∃ msg, e.requestAccounts = .error msg)) := by
          rintro (h0 | ⟨e, he, h0 | ⟨msg, h0⟩⟩)
          · exact Option.noConfusion h0
          · obtain rfl := Option.some.inj he
            rw [h1] at h0
            exact absurd (Except.ok.inj h0) (by simp)
          · obtain rfl := Option.some.inj he
            rw [h1] at h0
            exact Except.noConfusion h0
        have hsig : ∀ e f r, some ethereum = some e → e.requestAccounts = .ok (f :: r) →
            e = ethereum ∧ f = first := by
          intro e f r he hr
          obtain rfl := Option.some.inj he
          rw [h1] at hr
          exact ⟨rfl, (List.cons.inj (Except.ok.inj hr)).1.symm⟩
        cases h2 : ethereum.getSigner with
        | error msg =>
          have hres : Session.connectWallet b s =
              (false, { s with account := some first, provider := some ethereum,
                               error := some msg, loading := false }) := by
            simp only [Session.connectWallet, hb, h1, h2]
          rw [hres]
          refine ⟨rfl, rfl, rfl, fun h0 => Option.noConfusion h0, rfl,
            fun h0 => absurd h0 hnot, ?_⟩
          intro e f r he hr
          obtain ⟨rfl, rfl⟩ := hsig e f r he hr
          refine ⟨rfl, fun _ => rfl, fun es hes => ?_⟩
          rw [h2] at hes
          exact Except.noConfusion hes
        | ok ethersSigner =>
          cases h3 : ethereum.getNetwork with
          | error msg =>
            have hres : Session.connectWallet b s =
                (false, { s with account := some first, provider := some ethereum,
                                 signer := some ethersSigner,
                                 error := some msg, loading := false }) := by
              simp only [Session.connectWallet, hb, h1, h2, h3]
            rw [hres]
            refine ⟨rfl, rfl, rfl, fun h0 => Option.noConfusion h0, rfl,
              fun h0 => absurd h0 hnot, ?_⟩
            intro e f r he hr
            obtain ⟨rfl, rfl⟩ := hsig e f r he hr
            refine ⟨rfl, fun ⟨msg2, hm⟩ => ?_, fun es hes => ?_⟩
            · rw [h2] at hm; exact Except.noConfusion hm
            · rw [h2] at hes; rw [← Except.ok.inj hes]
          | ok chainId =>
            cases h4 : b.contractTarget with
            | error msg =>
              have hres : Session.connectWallet b s =
                  (false, { s with account := some first, provider := some ethereum,
                                   signer := some ethersSigner, networkId := some chainId,
                                   error := some msg, loading := false }) := by
                simp only [Session.connectWallet, hb, h1, h2, h3, h4]
              rw [hres]
              refine ⟨rfl, rfl, rfl, fun h0 => Option.noConfusion h0, rfl,
                fun h0 => absurd h0 hnot, ?_⟩
              intro e f r he hr
              obtain ⟨rfl, rfl⟩ := hsig e f r he hr
              refine ⟨rfl, fun ⟨msg2, hm⟩ => ?_, fun es hes => ?_⟩
              · rw [h2] at hm; exact Except.noConfusion hm
              · rw [h2] at hes; rw [← Except.ok.inj hes]
            | ok ledger =>
              exfalso
              simp only [Session.connectWallet, hb, h1, h2, h3, h4] at h
              exact absurd h (by simp)

/-- Witness of C28: the failed connection of the counterexample leaves the
contract and the flags of the initial session. -/
theorem connectWallet_failure_frame_witness :
    (Session.connectWallet lockedBrowser Session.initial).2.contract = none ∧
    (Session.connectWallet lockedBrowser Session.initial).2.isAdmin = false ∧
    (Session.connectWallet lockedBrowser Session.initial).2.isArtisan = false :=
  ⟨(connectWallet_failure_frame lockedBrowser Session.initial rfl).1,
   (connectWallet_failure_frame lockedBrowser Session.initial rfl).2.1,
   (connectWallet_failure_frame lockedBrowser Session.initial rfl).2.2.1⟩

/-! ## The two listing loaders side by side -/

/-- Counterexample to C30: on the sample ledger the on-ledger metadata of
token 4 cannot be read; `fetchAllNFTs` keeps the token, `loadNFTs` drops it. -/
theorem loaders_ids_differ :
    (Marketplace.fetchAllNFTs (some sampleLedger) sampleStore Marketplace.initial).nfts.map
        (fun nft => toString nft.id) = ["1", "3", "4"] ∧
    (NFTMarketplace.loadNFTs (some sampleLedger) sampleStore
        { nfts := [], loading := true }).nfts.map (fun nft => nft.tokenId) = ["1", "3"] ∧
    (Marketplace.fetchNFTData sampleLedger sampleStore 4).isSome = true ∧
    NFTMarketplace.loadItem sampleLedger sampleStore 4 = none :=
  ⟨by rfl, by rfl, by rfl, by rfl⟩

theorem map_filterMap_label {α : Type} (f : Nat → Option α) (label : α → String)
    (hlabel : ∀ i a, f i = some a → label a = toString i) (l : List Nat) :
    (l.filterMap f).map label = (l.filter fun i => (f i).isSome).map toString := by
  induction l with
  | nil => rfl
  | cons i l ih =>
    cases hf : f i with
    | none => simp [List.filterMap_cons, List.filter_cons, hf, ih]
    | some a => simp [List.filterMap_cons, List.filter_cons, hf, ih, hlabel i a hf]

/-- The item `i` is kept by `loadNFTs` exactly when the four ledger reads
answer, the stored price can be formatted and the document read from the
content store is not `null`. -/
theorem NFTMarketplace.loadItem_isSome_iff (c : Contract) (w : World) (i : Nat) :
    (NFTMarketplace.loadItem c w i).isSome = true ↔
      ∃ owner uri isForSale price m priceString,
        c.ownerOf i = .ok owner ∧ c.tokenURI i = .ok uri ∧
        c.isForSale i = .ok (isForSale, price) ∧ c.getItemMetadata i = .ok m ∧
        Ethers.formatEther price = .ok priceString ∧
        NFTMarketplace.fetchIpfsMetadata w uri ≠ .null := by
  constructor
  · intro h
    obtain ⟨item, hitem⟩ := Option.isSome_iff_exists.mp h
    obtain ⟨owner, uri, b, p, m, ps, h1, h2, h3, h4, h5, h6, _⟩ :=
      NFTMarketplace.loadItem_eq_some hitem
    exact ⟨owner, uri, b, p, m, ps, h1, h2, h3, h4, h5, h6⟩
  · rintro ⟨owner, uri, b, p, m, ps, h1, h2, h3, h4, h5, h6⟩
    simp [NFTMarketplace.loadItem, h1, h2, h3, h4, h5, h6]

/-- The item `tokenId` is kept by `fetchAllNFTs` exactly when the three
ledger reads of owner, locator and sale state answer and, for a listed
item, the price can be formatted. -/
theorem Marketplace.fetchNFTData_isSome_iff (c : Contract) (w : World) (tokenId : Nat) :
    (Marketplace.fetchNFTData c w tokenId).isSome = true ↔
      ∃ owner uri isForSale price,
        c.ownerOf tokenId = .ok owner ∧ c.tokenURI tokenId = .ok uri ∧
        c.isForSale tokenId = .ok (isForSale, price) ∧
        (isForSale = true → ∃ priceString, Ethers.formatEther price = .ok priceString) := by
  constructor
  · intro h
    obtain ⟨r, hr⟩ := Option.isSome_iff_exists.mp h
    obtain ⟨owner, uri, b, p, pn, h1, h2, h3, h4, _⟩ := Marketplace.fetchNFTData_eq_some hr
    refine ⟨owner, uri, b, p, h1, h2, h3, fun hb => ?_⟩
    subst hb
    unfold Marketplace.priceField at h4
    cases hf : Ethers.formatEther p with
    | error e => simp [hf] at h4
    | ok ps => exact ⟨ps, rfl⟩
  · rintro ⟨owner, uri, b, p, h1, h2, h3, h4⟩
    cases b with
    | false => simp [Marketplace.fetchNFTData, h1, h2, h3, Marketplace.priceField]
    | true =>
      obtain ⟨ps, hps⟩ := h4 rfl
      simp [Marketplace.fetchNFTData, h1, h2, h3, Marketplace.priceField, hps]

/-- C30, amended: with the total supply read as `N`, both loaders keep ids
of `1..N` in ascending order, `loadNFTs` as decimal strings; every id kept
by `loadNFTs` is kept by `fetchAllNFTs`, so the ids of `loadNFTs` are a
sublist of those of `fetchAllNFTs`; `loadNFTs` drops in addition exactly the
ids whose on-ledger metadata cannot be read, whose stored price cannot be
formatted or whose document in the content store is `null`. When none of
these occurs for an id of `1..N` the two lists carry the same ids. -/
theorem loadNFTs_ids_within_fetchAllNFTs (c : Contract) (w : World)
    (s : NFTMarketplace.State) (s2 : Marketplace.State) (N : Nat)
    (hN : c.totalSupply = .ok N) :
    (NFTMarketplace.loadNFTs (some c) w s).nfts.map (fun nft => nft.tokenId)
      = ((List.range' 1 N).filter fun i => (NFTMarketplace.loadItem c w i).isSome).map
          toString ∧
    (Marketplace.fetchAllNFTs (some c) w s2).nfts.map (fun nft => toString nft.id)
      = ((List.range' 1 N).filter fun i => (Marketplace.fetchNFTData c w i).isSome).map
          toString ∧
    ((NFTMarketplace.loadNFTs (some c) w s).nfts.map fun nft => nft.tokenId).Sublist
      ((Marketplace.fetchAllNFTs (some c) w s2).nfts.map fun nft => toString nft.id) ∧
    (∀ i, (NFTMarketplace.loadItem c w i).isSome = true ↔
      (Marketplace.fetchNFTData c w i).isSome = true ∧
      (∃ m, c.getItemMetadata i = .ok m) ∧
      (∀ isForSale price, c.isForSale i = .ok (isForSale, price) →
        ∃ priceString, Ethers.formatEther price = .ok priceString) ∧
      (∀ uri, c.tokenURI i = .ok uri → NFTMarketplace.fetchIpfsMetadata w uri ≠ .null)) ∧
    ((∀ i, 1 ≤ i → i ≤ N →
        (∃ m, c.getItemMetadata i = .ok m) ∧
        (∀ isForSale price, c.isForSale i = .ok (isForSale, price) → price < 2 ^ 256) ∧
        (∀ uri, c.tokenURI i = .ok uri → NFTMarketplace.fetchIpfsMetadata w uri ≠ .null)) →
      (NFTMarketplace.loadNFTs (some c) w s).nfts.map (fun nft => nft.tokenId)
        = (Marketplace.fetchAllNFTs (some c) w s2).nfts.map fun nft => toString nft.id) := by
  have hload : (NFTMarketplace.loadNFTs (some c) w s).nfts.map (fun nft => nft.tokenId)
      = ((List.range' 1 N).filter fun i => (NFTMarketplace.loadItem c w i).isSome).map
          toString := by
    simp only [NFTMarketplace.loadNFTs, hN]
    refine map_filterMap_label _ _ (fun i a h => ?_) _
    obtain ⟨_, _, _, _, _, _, _, _, _, _, _, _, ha⟩ := NFTMarketplace.loadItem_eq_some h
    rw [ha]
    rfl
  have hnfts : (Marketplace.fetchAllNFTs (some c) w s2).nfts
      = (List.range' 1 N).filterMap (Marketplace.fetchNFTData c w) := by
    simp only [Marketplace.fetchAllNFTs, hN]
    split
    · rename_i h0
      rw [h0]
      rfl
    · simp only [List.reduceOption, List.filterMap_map]
      rfl
  have hfetch : (Marketplace.fetchAllNFTs (some c) w s2).nfts.map (fun nft => toString nft.id)
      = ((List.range' 1 N).filter fun i => (Marketplace.fetchNFTData c w i).isSome).map
          toString := by
    rw [hnfts]
    refine map_filterMap_label _ _ (fun i a h => ?_) _
    rw [Marketplace.fetchNFTData_id h]
  have hiff : ∀ i, (NFTMarketplace.loadItem c w i).isSome = true ↔
      (Marketplace.fetchNFTData c w i).isSome = true ∧
      (∃ m, c.getItemMetadata i = .ok m) ∧
      (∀ isForSale price, c.isForSale i = .ok (isForSale, price) →
        ∃ priceString, Ethers.formatEther price = .ok priceString) ∧
      (∀ uri, c.tokenURI i = .ok uri → NFTMarketplace.fetchIpfsMetadata w uri ≠ .null) := by
    intro i
    rw [NFTMarketplace.loadItem_isSome_iff, Marketplace.fetchNFTData_isSome_iff]
    constructor
    · rintro ⟨owner, uri, b, p, m, ps, h1, h2, h3, h4, h5, h6⟩
      refine ⟨⟨owner, uri, b, p, h1, h2, h3, fun _ => ⟨ps, h5⟩⟩, ⟨m, h4⟩, ?_, ?_⟩
      · intro b2 p2 h
        rw [h3] at h
        obtain ⟨_, rfl⟩ := Prod.mk.inj (Except.ok.inj h)
        exact ⟨ps, h5⟩
      · intro uri2 h
        rw [h2] at h
        rw [← Except.ok.inj h]
        exact h6
    · rintro ⟨⟨owner, uri, b, p, h1, h2, h3, _⟩, ⟨m, h4⟩, h5, h6⟩
      obtain ⟨ps, hps⟩ := h5 b p h3
      exact ⟨owner, uri, b, p, m, ps, h1, h2, h3, h4, hps, h6 uri h2⟩
  refine ⟨hload, hfetch, ?_, hiff, ?_⟩
  · rw [hload, hfetch]
    apply List.Sublist.map
    have hsub : ((List.range' 1 N).filter fun i => (NFTMarketplace.loadItem c w i).isSome)
        = (((List.range' 1 N).filter fun i => (Marketplace.fetchNFTData c w i).isSome).filter
            fun i => (NFTMarketplace.loadItem c w i).isSome) := by
      rw [List.filter_filter]
      apply List.filter_congr
      intro i _
      cases hl : (NFTMarketplace.loadItem c w i).isSome with
      | false => simp
      | true => simp [((hiff i).mp hl).1]
    rw [hsub]
    exact List.filter_sublist _
  · intro hgood
    rw [hload, hfetch]
    congr 1
    apply List.filter_congr
    intro i hi
    rw [List.mem_range'_1] at hi
    obtain ⟨⟨m, hm⟩, hfit, hdoc⟩ := hgood i hi.1 (by omega)
    cases hf : (Marketplace.fetchNFTData c w i).isSome with
    | false =>
      cases hl : (NFTMarketplace.loadItem c w i).isSome with
      | false => rfl
      | true => rw [((hiff i).mp hl).1] at hf; exact absurd hf (by decide)
    | true =>
      refine (hiff i).mpr ⟨hf, ⟨m, hm⟩, fun b p hsale => ?_, hdoc⟩
      have hp : p < 2 ^ 511 :=
        Nat.lt_of_lt_of_le (hfit b p hsale) (Nat.pow_le_pow_right (by decide) (by decide))
      exact ⟨_, Ethers.formatEther_of_lt hp⟩

/-- Witness of C30: on the sample ledger the ids of `loadNFTs` are a sublist
of those of `fetchAllNFTs`; on the ledger with one readable token the two
lists are the same. -/
theorem loadNFTs_ids_within_fetchAllNFTs_witness :
    ((NFTMarketplace.loadNFTs (some sampleLedger) sampleStore
        { nfts := [], loading := true }).nfts.map fun nft => nft.tokenId).Sublist
      ((Marketplace.fetchAllNFTs (some sampleLedger) sampleStore Marketplace.initial).nfts.map
        fun nft => toString nft.id) ∧
    (NFTMarketplace.loadNFTs (some httpLedger) errorPageStore
        { nfts := [], loading := true }).nfts.map (fun nft => nft.tokenId)
      = (Marketplace.fetchAllNFTs (some httpLedger) errorPageStore Marketplace.initial).nfts.map
        fun nft => toString nft.id :=
  ⟨(loadNFTs_ids_within_fetchAllNFTs sampleLedger sampleStore { nfts := [], loading := true }
      Marketplace.initial 4 rfl).2.2.1,
   (loadNFTs_ids_within_fetchAllNFTs httpLedger errorPageStore { nfts := [], loading := true }
      Marketplace.initial 1 rfl).2.2.2.2
    (fun _ _ _ => ⟨⟨sampleMetadata, rfl⟩,
      fun _ _ h => by
        rw [← (Prod.mk.inj (Except.ok.inj h)).2]
        decide,
      fun _ h => by
        rw [← Except.ok.inj h]
        decide⟩)⟩

/-! ## Prices typed into a form -/

/-- A decimal literal is positive exactly when it has no minus sign and its
digits are not all zero. -/
theorem decimalValue_pos (neg : Bool) (digits : Nat) (exp : Int) :
    0 < decimalValue neg digits exp ↔ neg = false ∧ 0 < digits := by
  have h10 : (0 : ℚ) < (10 : ℚ) ^ exp := zpow_pos (by norm_num) exp
  unfold decimalValue
  cases neg with
  | false =>
    simp only [Bool.false_eq_true, if_false, one_mul, true_and]
    rw [mul_pos_iff_of_pos_right h10]
    exact Nat.cast_pos
  | true =>
    simp only [if_true, Bool.true_eq_false, false_and, iff_false, not_lt]
    have h : (0 : ℚ) ≤ (digits : ℚ) * (10 : ℚ) ^ exp :=
      mul_nonneg (Nat.cast_nonneg digits) (le_of_lt h10)
    linarith

theorem Ethers.checkValue_ok {val r : Int} {width : Nat}
    (h : Ethers.checkValue val width = .ok r) : r = val := by
  unfold Ethers.checkValue at h
  cases val with
  | ofNat n =>
    simp only at h
    split at h
    · exact (Except.ok.inj h).symm
    · exact Except.noConfusion h
  | negSucc n =>
    simp only at h
    split at h
    · exact (Except.ok.inj h).symm
    · exact Except.noConfusion h

/-- The padding loop appends zeros only, and enough of them. -/
theorem Ethers.padDecimal_zeros (d : List Char) :
    ∃ k, Ethers.padDecimal 18 19 d = d ++ List.replicate k '0' ∧ 18 ≤ d.length + k := by
  by_cases h : d.length < 18
  · have hzl : Ethers.Zeros.length = 128 := by rw [Ethers.Zeros_eq, List.length_replicate]
    have h2 : ¬ ((d ++ Ethers.Zeros).length < 18) := by
      rw [List.length_append, hzl]; omega
    refine ⟨128, ?_, by omega⟩
    simp only [Ethers.padDecimal, h, h2, if_true, if_false]
    rw [Ethers.Zeros_eq]
  · refine ⟨0, ?_, by omega⟩
    simp only [Ethers.padDecimal, h, if_false]
    simp

theorem Ethers.digitsVal_all_zero {l : List Char}
    (h : l.all (fun c => decide (c = '0')) = true) : Ethers.digitsVal l = 0 := by
  have hl : l = List.replicate l.length '0' := by
    rw [List.eq_replicate_iff]
    refine ⟨rfl, fun c hc => ?_⟩
    have := List.all_eq_true.mp h c hc
    simpa using this
  rw [hl]
  exact Ethers.digitsVal_zeros _

/-- The amount read by `fromString` with 18 decimals is the value of the
digits scaled by ten to the power 18. -/
theorem Ethers.scaled_digits (w d : List Char)
    (hz : ((Ethers.padDecimal 18 19 d).drop 18).all (fun c => decide (c = '0')) = true) :
    Ethers.digitsVal ((if w = [] then ['0'] else w) ++ (Ethers.padDecimal 18 19 d).take 18)
        * 10 ^ d.length
      = Ethers.digitsVal (w ++ d) * 10 ^ 18 := by
  obtain ⟨k, hk, hlen⟩ := Ethers.padDecimal_zeros d
  have hwhole : Ethers.digitsVal (if w = [] then ['0'] else w) = Ethers.digitsVal w := by
    by_cases hw : w = []
    · rw [if_pos hw, hw]; rfl
    · rw [if_neg hw]
  have htl : ((Ethers.padDecimal 18 19 d).take 18).length = 18 := by
    rw [List.length_take, hk, List.length_append, List.length_replicate]
    omega
  have hsplit : Ethers.digitsVal (Ethers.padDecimal 18 19 d)
      = Ethers.digitsVal ((Ethers.padDecimal 18 19 d).take 18)
          * 10 ^ ((Ethers.padDecimal 18 19 d).drop 18).length := by
    conv_lhs => rw [← List.take_append_drop 18 (Ethers.padDecimal 18 19 d)]
    rw [Ethers.digitsVal_append, Ethers.digitsVal_all_zero hz, Nat.add_zero]
  have hdl : ((Ethers.padDecimal 18 19 d).drop 18).length = d.length + k - 18 := by
    rw [List.length_drop, hk, List.length_append, List.length_replicate]
  have hpad : Ethers.digitsVal (Ethers.padDecimal 18 19 d) = Ethers.digitsVal d * 10 ^ k := by
    rw [hk, Ethers.digitsVal_append, Ethers.digitsVal_zeros, List.length_replicate, Nat.add_zero]
  rw [hdl, hpad] at hsplit
  have hT : Ethers.digitsVal ((Ethers.padDecimal 18 19 d).take 18) * 10 ^ d.length
      = Ethers.digitsVal d * 10 ^ 18 := by
    have h10 : 0 < 10 ^ k := Nat.pow_pos (by decide)
    apply Nat.eq_of_mul_eq_mul_right h10
    calc Ethers.digitsVal ((Ethers.padDecimal 18 19 d).take 18) * 10 ^ d.length * 10 ^ k
        = Ethers.digitsVal ((Ethers.padDecimal 18 19 d).take 18) * 10 ^ (d.length + k - 18)
            * 10 ^ 18 := by
          rw [Nat.mul_assoc, Nat.mul_assoc, ← Nat.pow_add, ← Nat.pow_add]
          congr 2
          omega
      _ = Ethers.digitsVal d * 10 ^ k * 10 ^ 18 := by rw [hsplit]
      _ = Ethers.digitsVal d * 10 ^ 18 * 10 ^ k := by ring
  rw [Ethers.digitsVal_append, Ethers.digitsVal_append, hwhole, htl, Nat.add_mul, Nat.add_mul,
    hT]
  ring

theorem dropWhile_of_all_false {p : Char → Bool} {l : List Char}
    (h : ∀ c ∈ l, p c = false) : l.dropWhile p = l := by
  cases l with
  | nil => rfl
  | cons c cs => simp [List.dropWhile, h c (List.mem_cons_self c cs)]

/-- Half of the smallest positive double is below ten to the power -300. -/
theorem tiny_lt_pow_ten : (1 : ℚ) / 2 ^ 1075 < 1 / 10 ^ 300 := by
  have h1 : (10 : ℕ) ^ 300 < 2 ^ 1075 := by
    have ha : ((10 : ℕ) ^ 3) ^ 100 < ((2 : ℕ) ^ 10) ^ 100 :=
      Nat.pow_lt_pow_left (by decide) (by decide)
    have hb : ((2 : ℕ) ^ 10) ^ 100 ≤ 2 ^ 1075 := by
      rw [← Nat.pow_mul]
      exact Nat.pow_le_pow_right (by decide) (by decide)
    rw [← Nat.pow_mul] at ha
    exact Nat.lt_of_lt_of_le ha hb
  have h2 : ((10 : ℚ)) ^ 300 < 2 ^ 1075 := by exact_mod_cast h1
  exact one_div_lt_one_div_of_lt (pow_pos (by norm_num) 300) h2

theorem tiny_pos : (0 : ℚ) < 1 / 2 ^ 1075 :=
  one_div_pos.mpr (pow_pos (by norm_num) 1075)

/-- A positive decimal literal with an exponent of at least -300 rounds to
a double greater than 0. -/
theorem Literal.gtZero_of_digits {digits : Nat} {exp : Int} (hd : 0 < digits)
    (he : -300 ≤ exp) : (Literal.exact (decimalValue false digits exp)).gtZero = true := by
  unfold Literal.gtZero decimalValue
  rw [decide_eq_true_eq]
  have h1 : (1 : ℚ) ≤ (digits : ℚ) := by exact_mod_cast hd
  have h2 : (1 : ℚ) / 10 ^ 300 ≤ (10 : ℚ) ^ exp := by
    have : (10 : ℚ) ^ (-300 : ℤ) ≤ (10 : ℚ) ^ exp := zpow_le_zpow_right₀ (by norm_num) he
    have h3 : (10 : ℚ) ^ (-300 : ℤ) = 1 / 10 ^ 300 := by
      rw [zpow_neg, one_div]
      congr 1
      exact_mod_cast zpow_natCast (10 : ℚ) 300
    rw [h3] at this
    exact this
  have h3 : (0 : ℚ) < (10 : ℚ) ^ exp := zpow_pos (by norm_num) exp
  calc (1 : ℚ) / 2 ^ 1075 < 1 / 10 ^ 300 := tiny_lt_pow_ten
    _ ≤ (10 : ℚ) ^ exp := h2
    _ ≤ (digits : ℚ) * (10 : ℚ) ^ exp := le_mul_of_one_le_left (le_of_lt h3) h1
    _ = (if false = true then -1 else 1) * (digits : ℚ) * (10 : ℚ) ^ exp := by simp

/-- A minus sign, a decimal point and a digit are not white space. -/
theorem not_isWhiteSpace_of_numeric {c : Char}
    (h : c = '-' ∨ c = '.' ∨ c.isDigit = true) : isWhiteSpace c = false := by
  cases hw : isWhiteSpace c with
  | false => rfl
  | true =>
    exfalso
    unfold isWhiteSpace at hw
    rw [List.contains_iff_exists_mem_beq] at hw
    obtain ⟨n, hn, hcn⟩ := hw
    have hc : c = Char.ofNat n := by
      rw [← Char.ofNat_toNat c, beq_iff_eq.mp hcn]
    have hall : ∀ n ∈ [0x9, 0xA, 0xB, 0xC, 0xD, 0x20, 0xA0, 0x1680, 0x2000, 0x2001, 0x2002,
        0x2003, 0x2004, 0x2005, 0x2006, 0x2007, 0x2008, 0x2009, 0x200A, 0x2028, 0x2029, 0x202F,
        0x205F, 0x3000, 0xFEFF],
        ¬ (Char.ofNat n = '-' ∨ Char.ofNat n = '.' ∨ (Char.ofNat n).isDigit = true) := by
      decide
    exact hall n hn (hc ▸ h)

/-- A string accepted by the pattern of `FixedNumber.fromString` is read by
the scanner of decimal literals as a whole, with the same sign and digits
and no exponent; it is made of a minus sign, digits and a decimal point
only and, unless it has no digit at all, is not empty. -/
theorem scanDecimal_of_matchFixed {s : List Char} {neg : Bool} {w d : List Char}
    (h : Ethers.matchFixed s = some (neg, w, d)) (hlen : ¬ (w.length + d.length = 0)) :
    scanDecimal s
      = some (.exact (decimalValue neg (Ethers.digitsVal (w ++ d)) (-(d.length : ℤ))), []) ∧
    (∀ c ∈ s, c = '-' ∨ c = '.' ∨ c.isDigit = true) ∧ s ≠ [] := by
  have hplus : s.head? ≠ some '+' := by
    intro hp
    cases s with
    | nil => simp at hp
    | cons c t =>
      simp only [List.head?_cons, Option.some.injEq] at hp
      subst hp
      simp [Ethers.matchFixed, List.takeWhile, List.dropWhile] at h
  unfold Ethers.matchFixed at h
  simp only at h
  generalize hr0 : (if s.head? = some '-' then List.drop 1 s else s) = r0 at h
  have hs1 : (if decide (s.head? = some '-') = true ∨ s.head? = some '+' then List.drop 1 s else s)
      = r0 := by
    rw [← hr0]
    by_cases hm : s.head? = some '-'
    · simp [hm]
    · simp [hm, hplus]
  generalize hr2 : (if (List.dropWhile Char.isDigit r0).head? = some '.' then
      List.drop 1 (List.dropWhile Char.isDigit r0) else List.dropWhile Char.isDigit r0) = r2 at h
  by_cases hall : r2.all Char.isDigit = true
  swap
  · rw [if_neg hall] at h
    exact Option.noConfusion h
  rw [if_pos hall] at h
  simp only [Option.some.injEq, Prod.mk.injEq] at h
  obtain ⟨hneg, hw, hd⟩ := h
  subst hd
  have hall2 : ∀ c ∈ r2, c.isDigit = true := List.all_eq_true.mp hall
  have htake : List.takeWhile Char.isDigit r2 = r2 := List.takeWhile_eq_self_iff.mpr hall2
  have hdrop : List.dropWhile Char.isDigit r2 = [] := List.dropWhile_eq_nil_iff.mpr hall2
  have hwd : ∀ c ∈ List.takeWhile Char.isDigit r0, c.isDigit = true := fun c hc =>
    (List.mem_takeWhile_imp hc)
  have hr0mem : ∀ c ∈ r0, c = '.' ∨ c.isDigit = true := by
    intro c hc
    rw [← List.takeWhile_append_dropWhile Char.isDigit r0, List.mem_append] at hc
    rcases hc with hc | hc
    · exact Or.inr (hwd c hc)
    · by_cases hdot : (List.dropWhile Char.isDigit r0).head? = some '.'
      · rw [if_pos hdot] at hr2
        cases hdw : List.dropWhile Char.isDigit r0 with
        | nil => rw [hdw] at hc; exact absurd hc (List.not_mem_nil c)
        | cons x xs =>
          rw [hdw] at hc hdot hr2
          simp only [List.head?_cons, Option.some.injEq] at hdot
          simp only [List.drop_succ_cons, List.drop_zero] at hr2
          rcases List.mem_cons.mp hc with rfl | hc
          · exact Or.inl hdot
          · exact Or.inr (hall2 c (hr2 ▸ hc))
      · rw [if_neg hdot] at hr2
        exact Or.inr (hall2 c (hr2 ▸ hc))
  have hinf : ("Infinity".data.isPrefixOf r0) = false := by
    cases hr : r0 with
    | nil => rfl
    | cons x xs =>
      have hx := hr0mem x (by rw [hr]; exact List.mem_cons_self x xs)
      cases hp : "Infinity".data.isPrefixOf (x :: xs) with
      | false => rfl
      | true =>
        exfalso
        have hxI : x = 'I' := by
          have h1 : ("Infinity".data.isPrefixOf (x :: xs)) = true := hp
          simp only [String.data, List.isPrefixOf, Bool.and_eq_true, beq_iff_eq] at h1
          exact h1.1.symm
        rw [hxI] at hx
        rcases hx with hx | hx
        · exact absurd hx (by decide)
        · exact absurd hx (by decide)
  refine ⟨?_, ?_, ?_⟩
  · unfold scanDecimal
    rw [← hneg]
    simp only [hs1, hinf, hr2, htake, hdrop, hw]
    rw [if_neg hlen]
    simp [scanExponent]
  · intro c hc
    by_cases hm : s.head? = some '-'
    · rw [if_pos hm] at hr0
      cases s with
      | nil => exact absurd hc (List.not_mem_nil c)
      | cons x xs =>
        simp only [List.head?_cons, Option.some.injEq] at hm
        simp only [List.drop_succ_cons, List.drop_zero] at hr0
        rcases List.mem_cons.mp hc with rfl | hc
        · exact Or.inl hm
        · exact Or.inr (hr0mem c (hr0 ▸ hc))
    · rw [if_neg hm] at hr0
      exact Or.inr (hr0mem c (hr0 ▸ hc))
  · intro hnil
    subst hnil
    simp only [List.head?_nil, List.drop_nil, ite_self, reduceCtorEq, if_false] at hr0
    subst hr0
    simp only [List.dropWhile_nil, List.head?_nil, reduceCtorEq, if_false] at hr2
    subst hr2
    subst hw
    exact hlen rfl

/-- A string made of a minus sign, digits and a decimal point is not a
literal of base 16, 8 or 2. -/
theorem scanNonDecimal_of_numeric {s : List Char}
    (h : ∀ c ∈ s, c = '-' ∨ c = '.' ∨ c.isDigit = true) : scanNonDecimal s = none := by
  unfold scanNonDecimal
  split
  · rename_i x d ds
    have hx := h x (by simp)
    have hb : baseOfLetter x = 0 := by
      have hne : ∀ y : Char, (y = 'x' ∨ y = 'X' ∨ y = 'o' ∨ y = 'O' ∨ y = 'b' ∨ y = 'B') →
          ¬ (y = '-' ∨ y = '.' ∨ y.isDigit = true) := by
        intro y hy
        rcases hy with rfl | rfl | rfl | rfl | rfl | rfl <;> decide
      unfold baseOfLetter
      by_cases h1 : x = 'x' ∨ x = 'X'
      · exact absurd hx (hne x (by rcases h1 with h1 | h1 <;> simp [h1]))
      by_cases h2 : x = 'o' ∨ x = 'O'
      · exact absurd hx (hne x (by rcases h2 with h2 | h2 <;> simp [h2]))
      by_cases h3 : x = 'b' ∨ x = 'B'
      · exact absurd hx (hne x (by rcases h3 with h3 | h3 <;> simp [h3]))
      rw [if_neg h1, if_neg h2, if_neg h3]
    rw [if_pos hb]
  · rfl

/-- The function `parseEtherThrowing` accepts the strings `parseEther` accepts,
with the same amount. -/
theorem Ethers.parseEtherThrowing_ok (version s : String) (v : Int) :
    Ethers.parseEtherThrowing version s = .ok v ↔ Ethers.parseEther s = .ok v := by
  unfold Ethers.parseEtherThrowing Ethers.parseEther Ethers.fromStringFixed
  cases hm : Ethers.matchFixed s.data with
  | none => simp
  | some t =>
    obtain ⟨neg, w, d⟩ := t
    simp only
    by_cases hlen : w.length + d.length = 0
    · simp [hlen]
    rw [if_neg hlen, if_neg hlen]
    by_cases hz : ((Ethers.padDecimal 18 (18 + 1) d).drop 18).all (fun c => decide (c = '0')) = true
    · rw [if_pos hz, if_pos hz]
      cases hc : Ethers.checkValue
        (if neg = true then
          -((Ethers.digitsVal ((if w = [] then ['0'] else w) ++
            List.take 18 (Ethers.padDecimal 18 (18 + 1) d)) : ℕ) : ℤ)
        else ((Ethers.digitsVal ((if w = [] then ['0'] else w) ++
            List.take 18 (Ethers.padDecimal 18 (18 + 1) d)) : ℕ) : ℤ)) 512 with
      | error e => simp
      | ok r => simp
    · rw [if_neg hz, if_neg hz]
      simp

/-- A price accepted by `parseEther` is read by `parseFloat` and by the
conversion to a number as the same exact value, and the amount is that value
times ten to the power 18. -/
theorem parseEther_reads_number {s : String} {v : Int} (h : Ethers.parseEther s = .ok v) :
    ∃ q : ℚ, parseFloat s = .exact q ∧ toNumber s = .exact q ∧ (v : ℚ) = q * 10 ^ 18 := by
  unfold Ethers.parseEther Ethers.fromStringFixed at h
  cases hm : Ethers.matchFixed s.data with
  | none => rw [hm] at h; exact Except.noConfusion h
  | some t =>
    obtain ⟨neg, w, d⟩ := t
    rw [hm] at h
    simp only at h
    by_cases hlen : w.length + d.length = 0
    · rw [if_pos hlen] at h; exact Except.noConfusion h
    rw [if_neg hlen] at h
    by_cases hz : ((Ethers.padDecimal 18 (18 + 1) d).drop 18).all (fun c => decide (c = '0')) = true
    swap
    · rw [if_neg hz] at h; exact Except.noConfusion h
    rw [if_pos hz] at h
    have hv := Ethers.checkValue_ok h
    obtain ⟨hscan, hchars, hne⟩ := scanDecimal_of_matchFixed hm hlen
    have hws : ∀ c ∈ s.data, isWhiteSpace c = false := fun c hc =>
      not_isWhiteSpace_of_numeric (hchars c hc)
    refine ⟨decimalValue neg (Ethers.digitsVal (w ++ d)) (-(d.length : ℤ)), ?_, ?_, ?_⟩
    · unfold parseFloat
      rw [dropWhile_of_all_false hws, hscan]
    · unfold toNumber
      have h1 : ((s.data.dropWhile isWhiteSpace).reverse.dropWhile isWhiteSpace).reverse
          = s.data := by
        rw [dropWhile_of_all_false hws,
          dropWhile_of_all_false (fun c hc => hws c (List.mem_reverse.mp hc)), List.reverse_reverse]
      simp only [h1, if_neg hne, scanNonDecimal_of_numeric hchars, hscan]
    · have hnat := Ethers.scaled_digits w d hz
      have hq : ((Ethers.digitsVal ((if w = [] then ['0'] else w) ++
            (Ethers.padDecimal 18 19 d).take 18) : ℕ) : ℚ) * (10 : ℚ) ^ d.length
          = (Ethers.digitsVal (w ++ d) : ℚ) * (10 : ℚ) ^ 18 := by
        exact_mod_cast hnat
      have h10 : ((10 : ℚ) ^ d.length) ≠ 0 := pow_ne_zero _ (by norm_num)
      have hmag : ((Ethers.digitsVal ((if w = [] then ['0'] else w) ++
            (Ethers.padDecimal 18 19 d).take 18) : ℕ) : ℚ)
          = (Ethers.digitsVal (w ++ d) : ℚ) * (10 : ℚ) ^ (-(d.length : ℤ)) * 10 ^ 18 := by
        rw [zpow_neg, zpow_natCast]
        field_simp
        linarith
      rw [hv]
      unfold decimalValue
      cases neg with
      | false =>
        simp only [Bool.false_eq_true, if_false, one_mul]
        rw [← hmag]
        push_cast
        rfl
      | true =>
        simp only [if_true]
        push_cast
        rw [hmag]
        ring

/-- For a price accepted by `parseEther`, the tests `parseFloat(price) > 0`
and `price <= 0` are the tests of the sign of the amount: an amount of at
least one base unit is far above the values that round to 0. -/
theorem price_sign_of_parseEther {s : String} {v : Int} (h : Ethers.parseEther s = .ok v) :
    ((parseFloat s).gtZero = true ↔ 0 < v) ∧ ((toNumber s).leZero = true ↔ v ≤ 0) := by
  obtain ⟨q, h1, h2, h3⟩ := parseEther_reads_number h
  have h10 : (0 : ℚ) < 10 ^ 18 := by norm_num
  have hq : q = (v : ℚ) / 10 ^ 18 := by
    rw [h3]
    field_simp
  have hbig : 0 < v → (1 : ℚ) / 2 ^ 1075 < q := by
    intro hv
    have hv1 : (1 : ℚ) ≤ (v : ℚ) := by exact_mod_cast hv
    have hle : (1 : ℚ) / 10 ^ 300 ≤ 1 / 10 ^ 18 :=
      one_div_le_one_div_of_le h10 (pow_le_pow_right₀ (by norm_num) (by norm_num))
    calc (1 : ℚ) / 2 ^ 1075 < 1 / 10 ^ 300 := tiny_lt_pow_ten
      _ ≤ 1 / 10 ^ 18 := hle
      _ ≤ (v : ℚ) / 10 ^ 18 := div_le_div_of_nonneg_right hv1 (le_of_lt h10)
      _ = q := hq.symm
  have hsmall : v ≤ 0 → q ≤ (1 : ℚ) / 2 ^ 1075 := by
    intro hv
    have hv0 : (v : ℚ) ≤ 0 := by exact_mod_cast hv
    have : q ≤ 0 := by
      rw [hq]
      exact div_nonpos_of_nonpos_of_nonneg hv0 (le_of_lt h10)
    exact le_trans this (le_of_lt tiny_pos)
  rw [h1, h2]
  simp only [Literal.gtZero, Literal.leZero, decide_eq_true_eq]
  constructor
  · constructor
    · intro hlt
      by_contra hv
      exact absurd hlt (not_lt.mpr (hsmall (not_lt.mp hv)))
    · exact hbig
  · constructor
    · intro hle
      by_contra hv
      exact absurd (hbig (not_le.mp hv)) (not_lt.mpr hle)
    · exact hsmall

/-- The three outcomes of the optional listing. -/
theorem MintTestNFT.listForSale_cases {β : Type} (env : MintEnv β) (newTokenId price : String) :
    ((parseFloat price).gtZero = false →
      MintTestNFT.listForSale env newTokenId price = ([], none)) ∧
    (∀ msg, (parseFloat price).gtZero = true →
      Ethers.parseEtherThrowing env.ethersVersion price = .error msg →
      MintTestNFT.listForSale env newTokenId price = ([], some msg)) ∧
    (∀ v, (parseFloat price).gtZero = true → Ethers.parseEther price = .ok v →
      (MintTestNFT.listForSale env newTokenId price).1 = [.setNFTForSale newTokenId v]) := by
  refine ⟨fun hg => ?_, fun msg hg hp => ?_, fun v hg hp => ?_⟩
  · simp [MintTestNFT.listForSale, hg]
  · simp [MintTestNFT.listForSale, hg, hp]
  · have hp2 := (Ethers.parseEtherThrowing_ok env.ethersVersion price v).mpr hp
    simp only [MintTestNFT.listForSale, hg, hp2, if_true]
    cases hw : env.writes.setNFTForSale newTokenId v with
    | error msg => rfl
    | ok saleTx => cases hs : saleTx.wait <;> simp [hs]

/-- The outcome of `handleMint` once the mint is confirmed and the total
supply is read: the token id is stored, and what follows is decided by the
optional listing. -/
theorem MintTestNFT.handleMint_confirmed {β : Type} {s : Session} {c : ContractHandle}
    {account cid : String} {tx : Tx} {n : Nat} (env : MintEnv β) (st : MintTestNFT.State)
    (hc : s.contract = some c) (ha : s.account = some account) (hne : account ≠ "")
    (hup : uploadMetadataToIPFS env.codec env.client
      (createNFTMetadata env.now st.name st.description
        "https://via.placeholder.com/500?text=Test+NFT" st.materials st.artisanDetails) = .ok cid)
    (hmint : env.writes.mintNFT
      [account, st.description, st.materials, st.artisanDetails, "ipfs://" ++ cid] = .ok tx)
    (hwait : tx.wait = .ok ()) (hsupply : env.totalSupply = .ok n) :
    Call.listings (MintTestNFT.handleMint s env st).1.calls
      = Call.listings (MintTestNFT.listForSale env (toString n) st.price).1 ∧
    (MintTestNFT.handleMint s env st).2.tokenId = some (toString n) ∧
    (∀ msg, (MintTestNFT.listForSale env (toString n) st.price).2 = some msg →
      (MintTestNFT.handleMint s env st).1.toasts = [MintTestNFT.failed msg] ∧
      (MintTestNFT.handleMint s env st).2.mintSuccess = st.mintSuccess) ∧
    ((MintTestNFT.listForSale env (toString n) st.price).2 = none →
      (MintTestNFT.handleMint s env st).1.toasts =
        [{ title := "Success",
           description := "NFT #" ++ toString n ++ " minted successfully!",
           status := "success" }] ∧
      (MintTestNFT.handleMint s env st).2.mintSuccess = true) := by
  simp only [MintTestNFT.handleMint, hc, ha, if_neg hne, hup, hmint, hwait, hsupply]
  rcases hres : MintTestNFT.listForSale env (toString n) st.price with ⟨listing, o⟩
  cases o with
  | some msg =>
    refine ⟨?_, rfl, fun m hm => ?_, fun hm => Option.noConfusion hm⟩
    · simp [Call.listings_append, Call.listings]
    · obtain rfl := Option.some.inj hm
      exact ⟨rfl, rfl⟩
  | none =>
    refine ⟨?_, rfl, fun m hm => Option.noConfusion hm, fun _ => ⟨rfl, rfl⟩⟩
    simp [Call.listings_append, Call.listings]

/-- The comparison of an exact literal with 0 is the comparison of its value
with half the smallest positive double. -/
theorem Literal.gtZero_exact (q : ℚ) :
    (Literal.exact q).gtZero = decide ((1 : ℚ) / 2 ^ 1075 < q) := rfl

/-- The value of the digit 1 with a decimal exponent. -/
theorem decimalValue_one (exp : Int) : decimalValue false 1 exp = (10 : ℚ) ^ exp := by
  simp [decimalValue]

/-- Ten to the power minus 400 is below half the smallest positive double. -/
theorem pow_ten_le_tiny : (1 : ℚ) / 10 ^ 400 ≤ 1 / 2 ^ 1075 := by
  have h1 : (2 : ℕ) ^ 1075 ≤ 10 ^ 400 := by
    have ha : (2 : ℕ) ^ 1075 ≤ (2 ^ 3) ^ 400 := by
      rw [← Nat.pow_mul]
      exact Nat.pow_le_pow_right (by decide) (by decide)
    have hb : ((2 : ℕ) ^ 3) ^ 400 ≤ 10 ^ 400 := Nat.pow_le_pow_left (by decide) 400
    exact Nat.le_trans ha hb
  have h2 : ((2 : ℚ)) ^ 1075 ≤ 10 ^ 400 := by exact_mod_cast h1
  have hp : (0 : ℚ) < 2 ^ 1075 := pow_pos two_pos 1075
  exact one_div_le_one_div_of_le hp h2

/-- The price `1e-400` is a literal whose value rounds to the double 0: it
does not parse to a number greater than 0. -/
theorem parseFloat_underflow : (parseFloat "1e-400").gtZero = false := by
  have h : parseFloat "1e-400" = .exact (decimalValue false 1 (-400 - 0)) := by rfl
  have h3 : (10 : ℚ) ^ (-400 - 0 : ℤ) = 1 / 10 ^ 400 := by
    rw [sub_zero, zpow_neg, one_div]
    congr 1
    exact_mod_cast zpow_natCast (10 : ℚ) 400
  rw [h, Literal.gtZero_exact, decimalValue_one, decide_eq_false_iff_not, not_lt, h3]
  exact pow_ten_le_tiny

/-- Counterexample to C24: the price `0.0000000000000000001` (a tenth of the
smallest unit) parses to a number greater than 0, but `parseEther` rejects
it; after the confirmed mint no `setNFTForSale` call is made and the toast
reports a failure with the message of the library. -/
theorem listing_skipped_for_sub_unit_price :
    (parseFloat "0.0000000000000000001").gtZero = true ∧
    (∀ v, Ethers.parseEther "0.0000000000000000001" ≠ .ok v) ∧
    Call.mintArgs (MintTestNFT.handleMint artisanSession sampleEnv
        { MintTestNFT.initial with price := "0.0000000000000000001" }).1.calls
      = [["0xA2", "This is a test NFT", "Digital", "Test Artisan", "ipfs://QmMeta"]] ∧
    Call.listings (MintTestNFT.handleMint artisanSession sampleEnv
        { MintTestNFT.initial with price := "0.0000000000000000001" }).1.calls = [] ∧
    (MintTestNFT.handleMint artisanSession sampleEnv
        { MintTestNFT.initial with price := "0.0000000000000000001" }).1.toasts
      = [{ title := "Error",
           description := "Failed to mint NFT: too many decimals for format " ++
             "(operation=\"fromString\", fault=\"underflow\", " ++
             "value=\"0.0000000000000000001\", code=NUMERIC_FAULT, version=6.13.5)",
           status := "error" }] ∧
    (MintTestNFT.handleMint artisanSession sampleEnv
        { MintTestNFT.initial with price := "0.0000000000000000001" }).2.mintSuccess = false := by
  have hg : (parseFloat "0.0000000000000000001").gtZero = true := by
    have h : parseFloat "0.0000000000000000001" = .exact (decimalValue false 1 (0 - 19)) := by
      rfl
    rw [h]
    exact Literal.gtZero_of_digits (by decide) (by decide)
  have hp : Ethers.parseEtherThrowing sampleEnv.ethersVersion "0.0000000000000000001"
      = .error ("too many decimals for format " ++
          "(operation=\"fromString\", fault=\"underflow\", " ++
          "value=\"0.0000000000000000001\", code=NUMERIC_FAULT, version=6.13.5)") := by
    decide
  have hl := (MintTestNFT.listForSale_cases sampleEnv (toString 5) "0.0000000000000000001").2.1
    _ hg hp
  obtain ⟨h1, _, h3, _⟩ := @MintTestNFT.handleMint_confirmed JsonDoc artisanSession
    { runner := { address := "0xA2" }, ledger := sampleDeployment } "0xA2" "QmMeta" sampleTx 5
    sampleEnv { MintTestNFT.initial with price := "0.0000000000000000001" }
    rfl rfl (by decide) rfl rfl rfl rfl
  have h3 := h3 _ (by rw [hl])
  refine ⟨hg, fun v hv => ?_, ?_, ?_, ?_, h3.2⟩
  · rw [← Ethers.parseEtherThrowing_ok sampleEnv.ethersVersion, hp] at hv
    exact Except.noConfusion hv
  · exact (@MintTestNFT.handleMint_bound JsonDoc artisanSession
      { runner := { address := "0xA2" }, ledger := sampleDeployment } "0xA2" sampleEnv
      { MintTestNFT.initial with price := "0.0000000000000000001" } rfl rfl (by decide)).2.2
      "QmMeta" rfl
  · rw [h1]
    show Call.listings (MintTestNFT.listForSale sampleEnv (toString 5)
      "0.0000000000000000001").1 = []
    rw [hl]
    rfl
  · rw [h3.1]
    decide

/-- C24, amended: in `MintTestNFT.handleMint`, after a confirmed mint and the
read of the total supply `n`, a `setNFTForSale` call is made exactly when
the entered price parses to a number greater than 0 and `parseEther` accepts
it (a decimal with at most 18 fraction digits); its id is then `n` as a
decimal string and its amount is the price times ten to the power 18, a
positive amount. When the price does not parse to a number greater than 0
no listing is made and the mint is reported as successful; when it does and
`parseEther` throws, no listing is made and the toast is the one the `catch`
block makes of the message of that error. -/
theorem mint_then_list {β : Type} (s : Session) (env : MintEnv β) (st : MintTestNFT.State)
    (c : ContractHandle) (account cid : String) (tx : Tx) (n : Nat)
    (hc : s.contract = some c) (ha : s.account = some account) (hne : account ≠ "")
    (hup : uploadMetadataToIPFS env.codec env.client
      (createNFTMetadata env.now st.name st.description
        "https://via.placeholder.com/500?text=Test+NFT" st.materials st.artisanDetails) = .ok cid)
    (hmint : env.writes.mintNFT
      [account, st.description, st.materials, st.artisanDetails, "ipfs://" ++ cid] = .ok tx)
    (hwait : tx.wait = .ok ()) (hsupply : env.totalSupply = .ok n) :
    (∀ id v, Call.listings (MintTestNFT.handleMint s env st).1.calls = [(id, v)] ↔
      id = toString n ∧ (parseFloat st.price).gtZero = true ∧
        Ethers.parseEther st.price = .ok v) ∧
    (Call.listings (MintTestNFT.handleMint s env st).1.calls = [] ∨
      ∃ v, Call.listings (MintTestNFT.handleMint s env st).1.calls = [(toString n, v)]) ∧
    (∀ id v, Call.listings (MintTestNFT.handleMint s env st).1.calls = [(id, v)] →
      0 < v ∧ ∃ q : ℚ, parseFloat st.price = .exact q ∧ (v : ℚ) = q * 10 ^ 18) ∧
    ((parseFloat st.price).gtZero = false →
      Call.listings (MintTestNFT.handleMint s env st).1.calls = [] ∧
      (MintTestNFT.handleMint s env st).2.mintSuccess = true ∧
      (MintTestNFT.handleMint s env st).1.toasts =
        [{ title := "Success",
           description := "NFT #" ++ toString n ++ " minted successfully!",
           status := "success" }]) ∧
    (∀ msg, (parseFloat st.price).gtZero = true →
      Ethers.parseEtherThrowing env.ethersVersion st.price = .error msg →
      Call.listings (MintTestNFT.handleMint s env st).1.calls = [] ∧
      (MintTestNFT.handleMint s env st).1.toasts = [MintTestNFT.failed msg]) := by
  obtain ⟨h1, _, h3, h4⟩ := MintTestNFT.handleMint_confirmed env st hc ha hne hup hmint hwait
    hsupply
  obtain ⟨l1, l2, l3⟩ := MintTestNFT.listForSale_cases env (toString n) st.price
  have hiff : ∀ id v, Call.listings (MintTestNFT.handleMint s env st).1.calls = [(id, v)] ↔
      id = toString n ∧ (parseFloat st.price).gtZero = true ∧
        Ethers.parseEther st.price = .ok v := by
    intro id v
    rw [h1]
    cases hg : (parseFloat st.price).gtZero with
    | false =>
      rw [l1 hg]
      simp [Call.listings]
    | true =>
      cases hp : Ethers.parseEtherThrowing env.ethersVersion st.price with
      | error msg =>
        rw [l2 msg hg hp]
        have hno : ¬ (Ethers.parseEther st.price = .ok v) := by
          intro hv
          rw [(Ethers.parseEtherThrowing_ok env.ethersVersion st.price v).mpr hv] at hp
          exact Except.noConfusion hp
        simp [Call.listings, hno]
      | ok v2 =>
        have hp2 := (Ethers.parseEtherThrowing_ok env.ethersVersion st.price v2).mp hp
        rw [l3 v2 hg hp2, hp2]
        simp only [Call.listings, List.cons.injEq, Prod.mk.injEq, and_true, Except.ok.injEq,
          true_and]
        constructor
        · rintro ⟨rfl, rfl⟩
          exact ⟨rfl, rfl⟩
        · rintro ⟨rfl, rfl⟩
          exact ⟨rfl, rfl⟩
  refine ⟨hiff, ?_, ?_, ?_, ?_⟩
  · cases hg : (parseFloat st.price).gtZero with
    | false => left; rw [h1, l1 hg]; rfl
    | true =>
      cases hp : Ethers.parseEtherThrowing env.ethersVersion st.price with
      | error msg => left; rw [h1, l2 msg hg hp]; rfl
      | ok v =>
        exact Or.inr ⟨v, (hiff _ v).mpr
          ⟨rfl, hg, (Ethers.parseEtherThrowing_ok env.ethersVersion st.price v).mp hp⟩⟩
  · intro id v hl
    obtain ⟨_, hg, hp⟩ := (hiff id v).mp hl
    obtain ⟨q, hq, _, hv⟩ := parseEther_reads_number hp
    exact ⟨(price_sign_of_parseEther hp).1.mp hg, q, hq, hv⟩
  · intro hg
    have hl := l1 hg
    refine ⟨by rw [h1, hl]; rfl, (h4 (by rw [hl])).2, (h4 (by rw [hl])).1⟩
  · intro msg hg hp
    have hl := l2 msg hg hp
    exact ⟨by rw [h1, hl]; rfl, (h3 msg (by rw [hl])).1⟩

/-- Witness of C24: the artisan of the sample deployment mints with the
preset price `0.01`, and the new item, the fifth, is listed for 10^16 base
units; with the price `1e-400`, which rounds to 0, nothing is listed and the
mint is reported as successful. -/
theorem mint_then_list_witness :
    Call.listings (MintTestNFT.handleMint artisanSession sampleEnv MintTestNFT.initial).1.calls
      = [("5", 10000000000000000)] ∧
    (Call.listings (MintTestNFT.handleMint artisanSession sampleEnv
        { MintTestNFT.initial with price := "1e-400" }).1.calls = [] ∧
      (MintTestNFT.handleMint artisanSession sampleEnv
        { MintTestNFT.initial with price := "1e-400" }).2.mintSuccess = true ∧
      (MintTestNFT.handleMint artisanSession sampleEnv
        { MintTestNFT.initial with price := "1e-400" }).1.toasts =
        [{ title := "Success", description := "NFT #" ++ toString 5 ++ " minted successfully!",
           status := "success" }]) :=
  have hp : Ethers.parseEther MintTestNFT.initial.price = .ok 10000000000000000 := by decide
  ⟨((mint_then_list artisanSession sampleEnv MintTestNFT.initial
      { runner := { address := "0xA2" }, ledger := sampleDeployment } "0xA2" "QmMeta" sampleTx 5
      rfl rfl (by decide) rfl rfl rfl rfl).1 "5" 10000000000000000).mpr
    ⟨rfl, (price_sign_of_parseEther hp).1.mpr (by decide), hp⟩,
   (mint_then_list artisanSession sampleEnv { MintTestNFT.initial with price := "1e-400" }
      { runner := { address := "0xA2" }, ledger := sampleDeployment } "0xA2" "QmMeta" sampleTx 5
      rfl rfl (by decide) rfl rfl rfl rfl).2.2.2.1 parseFloat_underflow⟩

/-! ## Listing an item of the collection -/

/-- The requests of `handleSetForSale`: none, or the one `setNFTForSale` call
for the selected item with the amount `parseEther` gives for the price. -/
theorem MyCollection.handleSetForSale_calls (contract : Option ContractHandle)
    (writes : Writes) (ethersVersion : String) (st : MyCollection.SaleForm) :
    (MyCollection.handleSetForSale contract writes ethersVersion st).1.calls = [] ∨
      ∃ nft v, st.selectedNFT = some nft ∧ st.price ≠ "" ∧ Ethers.parseEther st.price = .ok v ∧
        (MyCollection.handleSetForSale contract writes ethersVersion st).1.calls
          = [.setNFTForSale nft.tokenId v] := by
  cases hn : st.selectedNFT with
  | none => left; simp only [MyCollection.handleSetForSale, hn]
  | some nft =>
    by_cases hp : st.price = ""
    · left; simp only [MyCollection.handleSetForSale, hn, if_pos hp]
    · cases hv : Ethers.parseEtherThrowing ethersVersion st.price with
      | error msg => left; simp only [MyCollection.handleSetForSale, hn, if_neg hp, hv]
      | ok v =>
        cases hc : contract with
        | none => left; simp only [MyCollection.handleSetForSale, hn, if_neg hp, hv]
        | some c =>
          right
          refine ⟨nft, v, rfl, hp, (Ethers.parseEtherThrowing_ok ethersVersion st.price v).mp hv,
            ?_⟩
          simp only [MyCollection.handleSetForSale, hn, if_neg hp, hv]
          cases hw : writes.setNFTForSale nft.tokenId v with
          | error msg => rfl
          | ok tx => cases hwait : tx.wait <;> simp [hwait]

/-- A click reaches `handleSetForSale` only past the early returns of the
render and with the button enabled; otherwise it does nothing. -/
theorem MyCollection.clickSetForSale_cases (page : MyCollection.Page)
    (contract : Option ContractHandle) (writes : Writes) (ethersVersion : String)
    (st : MyCollection.SaleForm) :
    MyCollection.clickSetForSale page contract writes ethersVersion st
        = ({ calls := [], toasts := [] }, st) ∨
      (page.isConnected.truthy = true ∧ page.loading = false ∧ page.isOpen = true ∧
        MyCollection.setForSaleDisabled st.price = false ∧
        MyCollection.clickSetForSale page contract writes ethersVersion st
          = MyCollection.handleSetForSale contract writes ethersVersion st) := by
  by_cases hpage : (!page.isConnected.truthy || page.loading || !page.isOpen) = true
  · left; simp only [MyCollection.clickSetForSale, if_pos hpage]
  · cases hn : st.selectedNFT with
    | none => left; simp only [MyCollection.clickSetForSale, if_neg hpage, hn]
    | some nft =>
      by_cases hd : (MyCollection.setForSaleDisabled st.price ||
          (st.processing && !nft.isForSale)) = true
      · left; simp only [MyCollection.clickSetForSale, if_neg hpage, hn, if_pos hd]
      · right
        simp only [Bool.or_eq_true, Bool.not_eq_true', not_or, Bool.not_eq_false,
          Bool.not_eq_true] at hpage
        simp only [Bool.or_eq_true, not_or, Bool.not_eq_true] at hd
        refine ⟨hpage.1.1, hpage.1.2, hpage.2, hd.1, ?_⟩
        have hpage2 : ¬ ((!page.isConnected.truthy || page.loading || !page.isOpen) = true) := by
          simp [hpage.1.1, hpage.1.2, hpage.2]
        have hd2 : ¬ ((MyCollection.setForSaleDisabled st.price ||
            (st.processing && !nft.isForSale)) = true) := by
          simp [hd.1, hd.2]
        simp only [MyCollection.clickSetForSale, if_neg hpage2, hn, if_neg hd2]

/-- C25: in MyCollection a `setNFTForSale` call is submitted only for the
selected item and only when the price is a strictly positive amount, the one
`parseEther` gives for it; for a price of zero (as the string `"0"`) or a
negative price nothing is submitted. This is so for every click on the
button of the sale form, the only caller of `handleSetForSale`, whatever the
render reads for `isConnected`, and for `handleSetForSale` at every price
the enabled button passes. With the value the session provides for
`isConnected`, the component returns before the form and a click submits
nothing at all. -/
theorem clickSetForSale_positive (page : MyCollection.Page) (contract : Option ContractHandle)
    (writes : Writes) (ethersVersion : String) (st : MyCollection.SaleForm) :
    ((MyCollection.clickSetForSale page contract writes ethersVersion st).1.calls = [] ∨
      ∃ nft v, st.selectedNFT = some nft ∧ Ethers.parseEther st.price = .ok v ∧ 0 < v ∧
        (MyCollection.clickSetForSale page contract writes ethersVersion st).1.calls
          = [.setNFTForSale nft.tokenId v]) ∧
    (∀ v, Ethers.parseEther st.price = .ok v → v ≤ 0 →
      (MyCollection.clickSetForSale page contract writes ethersVersion st).1.calls = []) ∧
    ((toNumber st.price).leZero = true →
      (MyCollection.clickSetForSale page contract writes ethersVersion st).1.calls = []) ∧
    (MyCollection.setForSaleDisabled st.price = false →
      (MyCollection.handleSetForSale contract writes ethersVersion st).1.calls = [] ∨
      ∃ nft v, st.selectedNFT = some nft ∧ Ethers.parseEther st.price = .ok v ∧ 0 < v ∧
        (MyCollection.handleSetForSale contract writes ethersVersion st).1.calls
          = [.setNFTForSale nft.tokenId v]) ∧
    (∀ s : Session, page.isConnected = s.isConnected →
      MyCollection.clickSetForSale page contract writes ethersVersion st
        = ({ calls := [], toasts := [] }, st)) := by
  have hhandler : MyCollection.setForSaleDisabled st.price = false →
      (MyCollection.handleSetForSale contract writes ethersVersion st).1.calls = [] ∨
      ∃ nft v, st.selectedNFT = some nft ∧ Ethers.parseEther st.price = .ok v ∧ 0 < v ∧
        (MyCollection.handleSetForSale contract writes ethersVersion st).1.calls
          = [.setNFTForSale nft.tokenId v] := by
    intro hen
    rcases MyCollection.handleSetForSale_calls contract writes ethersVersion st with h |
      ⟨nft, v, h1, _, h3, h4⟩
    · exact Or.inl h
    · refine Or.inr ⟨nft, v, h1, h3, ?_, h4⟩
      by_contra hv
      have hle := (price_sign_of_parseEther h3).2.mpr (not_lt.mp hv)
      simp [MyCollection.setForSaleDisabled, hle] at hen
  have hzero : (toNumber st.price).leZero = true →
      (MyCollection.clickSetForSale page contract writes ethersVersion st).1.calls = [] := by
    intro hle
    rcases MyCollection.clickSetForSale_cases page contract writes ethersVersion st with h |
      ⟨_, _, _, hen, _⟩
    · rw [h]
    · simp [MyCollection.setForSaleDisabled, hle] at hen
  refine ⟨?_, fun v hv hle => hzero ((price_sign_of_parseEther hv).2.mpr hle), hzero, hhandler,
    ?_⟩
  · rcases MyCollection.clickSetForSale_cases page contract writes ethersVersion st with h |
      ⟨_, _, _, hen, hclick⟩
    · left; rw [h]
    · rw [hclick]
      exact hhandler hen
  · intro s hs
    have hpage : (!page.isConnected.truthy || page.loading || !page.isOpen) = true := by
      rw [hs]
      rfl
    simp only [MyCollection.clickSetForSale, if_pos hpage]

/-- Witness of C25: were the form shown, a click with the price `"0"` would
submit nothing and a click with the price `"1.5"` would list the selected
item, the third, for 15 * 10^17 base units; with the value the initial
session provides for `isConnected` the click with `"1.5"` submits nothing. -/
theorem clickSetForSale_positive_witness :
    (MyCollection.clickSetForSale { isConnected := .bool true, loading := false, isOpen := true }
        (some sampleHandle) sampleWrites "6.13.5"
        { selectedNFT := some sampleItem, price := "0", processing := false }).1.calls = [] ∧
    ((MyCollection.handleSetForSale (some sampleHandle) sampleWrites "6.13.5"
        { selectedNFT := some sampleItem, price := "1.5", processing := false }).1.calls = [] ∨
      ∃ nft v, some sampleItem = some nft ∧ Ethers.parseEther "1.5" = .ok v ∧ 0 < v ∧
        (MyCollection.handleSetForSale (some sampleHandle) sampleWrites "6.13.5"
          { selectedNFT := some sampleItem, price := "1.5", processing := false }).1.calls
          = [.setNFTForSale nft.tokenId v]) ∧
    (MyCollection.handleSetForSale (some sampleHandle) sampleWrites "6.13.5"
        { selectedNFT := some sampleItem, price := "1.5", processing := false }).1.calls
      = [.setNFTForSale "3" 1500000000000000000] ∧
    MyCollection.clickSetForSale
        { isConnected := Session.initial.isConnected, loading := false, isOpen := true }
        (some sampleHandle) sampleWrites "6.13.5"
        { selectedNFT := some sampleItem, price := "1.5", processing := false }
      = ({ calls := [], toasts := [] },
         { selectedNFT := some sampleItem, price := "1.5", processing := false }) :=
  have hp : Ethers.parseEther "1.5" = .ok 1500000000000000000 := by decide
  ⟨(clickSetForSale_positive { isConnected := .bool true, loading := false, isOpen := true }
      (some sampleHandle) sampleWrites "6.13.5"
      { selectedNFT := some sampleItem, price := "0", processing := false }).2.1 0
      (by decide) (by decide),
   (clickSetForSale_positive { isConnected := .bool true, loading := false, isOpen := true }
      (some sampleHandle) sampleWrites "6.13.5"
      { selectedNFT := some sampleItem, price := "1.5", processing := false }).2.2.2.1
      (by
        have h := (price_sign_of_parseEther hp).2
        cases hz : (toNumber "1.5").leZero with
        | false => simp [MyCollection.setForSaleDisabled, hz]
        | true => exact absurd (h.mp hz) (by decide)),
   rfl,
   (clickSetForSale_positive
      { isConnected := Session.initial.isConnected, loading := false, isOpen := true }
      (some sampleHandle) sampleWrites "6.13.5"
      { selectedNFT := some sampleItem, price := "1.5", processing := false }).2.2.2.2
      Session.initial rfl⟩

/-! ## Search and filter of the marketplace page -/

/-- A filter call that returns keeps, in order, the elements the callback
answered `true` for, and the callback raised for none. -/
theorem Marketplace.filterRecords_ok {p : NFT → Except String Bool} {l r : List NFT}
    (h : Marketplace.filterRecords p l = .ok r) :
    r = l.filter (fun x => decide (p x = .ok true)) ∧ ∀ x ∈ l, ∃ b, p x = .ok b := by
  induction l generalizing r with
  | nil =>
    simp only [Marketplace.filterRecords] at h
    exact ⟨(Except.ok.inj h).symm, fun x hx => absurd hx (List.not_mem_nil x)⟩
  | cons x xs ih =>
    simp only [Marketplace.filterRecords] at h
    cases hp : p x with
    | error e => rw [hp] at h; exact Except.noConfusion h
    | ok keep =>
      rw [hp] at h
      cases hr : Marketplace.filterRecords p xs with
      | error e => rw [hr] at h; exact Except.noConfusion h
      | ok kept =>
        rw [hr] at h
        obtain ⟨h1, h2⟩ := ih hr
        refine ⟨?_, ?_⟩
        · rw [← Except.ok.inj h, h1]
          cases keep <;> simp [List.filter_cons, hp]
        · intro y hy
          rcases List.mem_cons.mp hy with rfl | hy
          · exact ⟨keep, hp⟩
          · exact h2 y hy

/-- When the callback raises for no element, the filter call returns. -/
theorem Marketplace.filterRecords_of_ok {p : NFT → Except String Bool} {l : List NFT}
    (h : ∀ x ∈ l, ∃ b, p x = .ok b) :
    Marketplace.filterRecords p l = .ok (l.filter (fun x => decide (p x = .ok true))) := by
  induction l with
  | nil => rfl
  | cons x xs ih =>
    obtain ⟨b, hb⟩ := h x (List.mem_cons_self x xs)
    have ih2 := ih (fun y hy => h y (List.mem_cons_of_mem x hy))
    simp only [Marketplace.filterRecords, hb, ih2]
    cases b <;> simp [List.filter_cons, hb]

/-- Two callbacks that raise the same errors on the same elements make the
filter call raise the same error. -/
theorem Marketplace.filterRecords_error {p q : NFT → Except String Bool}
    (hpq : ∀ x e, p x = .error e ↔ q x = .error e) (l : List NFT) (e : String) :
    Marketplace.filterRecords p l = .error e ↔ Marketplace.filterRecords q l = .error e := by
  induction l with
  | nil => simp [Marketplace.filterRecords]
  | cons x xs ih =>
    simp only [Marketplace.filterRecords]
    cases hp : p x with
    | error e1 =>
      rw [(hpq x e1).mp hp]
    | ok b =>
      cases hq : q x with
      | error e1 =>
        rw [(hpq x e1).mpr hq] at hp
        exact Except.noConfusion hp
      | ok b2 =>
        cases h1 : Marketplace.filterRecords p xs with
        | error e1 =>
          cases h2 : Marketplace.filterRecords q xs with
          | error e2 =>
            rw [h1, h2] at ih
            simpa using ih
          | ok k2 =>
            rw [h1, h2] at ih
            simp only [false_iff, iff_false, reduceCtorEq] at ih ⊢
            simpa using ih
        | ok k1 =>
          cases h2 : Marketplace.filterRecords q xs with
          | error e2 =>
            rw [h1, h2] at ih
            simpa using ih
          | ok k2 => simp

/-- The callback for the filter `all` is the search alone, and the other two
add the test of the sale flag. -/
theorem Marketplace.keeps_of_matches {lower : String → String} {searchTerm : String} {nft : NFT}
    {m : Bool} (h : Marketplace.matchesSearch lower searchTerm nft = .ok m) :
    Marketplace.keeps lower searchTerm "all" nft = .ok m ∧
    Marketplace.keeps lower searchTerm "forSale" nft = .ok (m && nft.isForSale) ∧
    Marketplace.keeps lower searchTerm "notForSale" nft = .ok (m && !nft.isForSale) := by
  simp [Marketplace.keeps, h]

/-- The callback raises exactly when the search does. -/
theorem Marketplace.keeps_error (lower : String → String) (searchTerm filter : String)
    (nft : NFT) (e : String) :
    Marketplace.keeps lower searchTerm filter nft = .error e ↔
      Marketplace.matchesSearch lower searchTerm nft = .error e := by
  unfold Marketplace.keeps
  cases h : Marketplace.matchesSearch lower searchTerm nft with
  | error e1 => simp
  | ok m =>
    by_cases h1 : filter = "forSale"
    · simp [h1]
    · by_cases h2 : filter = "notForSale"
      · simp [h2]
      · simp [h1, h2]

/-- The search answers `true` exactly for a record whose name is a string
that contains the term, both in lower case, or whose name is a string that
does not and whose description is a string that does. -/
theorem Marketplace.matchesSearch_true (lower : String → String) (searchTerm : String)
    (nft : NFT) :
    Marketplace.matchesSearch lower searchTerm nft = .ok true ↔
      ∃ name, nft.name = .str name ∧
        (includes (lower name) (lower searchTerm) = true ∨
          ∃ description, nft.description = .str description ∧
            includes (lower description) (lower searchTerm) = true) := by
  unfold Marketplace.matchesSearch
  cases hn : nft.name with
  | str name =>
    simp only [Marketplace.lowerCased]
    by_cases hi : includes (lower name) (lower searchTerm) = true
    · simp [hi]
    · cases hd : nft.description <;> simp [hi, Marketplace.lowerCased]
  | _ => simp [Marketplace.lowerCased]

/-- The search raises on a record whose name is not a string, whatever the
term. -/
theorem Marketplace.matchesSearch_error_of_name (lower : String → String) (searchTerm : String)
    (nft : NFT) (h : ∀ name, nft.name ≠ .str name) :
    ∃ e, Marketplace.matchesSearch lower searchTerm nft = .error e := by
  unfold Marketplace.matchesSearch
  cases hn : nft.name with
  | str name => exact absurd hn (h name)
  | undefined => exact ⟨_, rfl⟩
  | null => exact ⟨_, rfl⟩
  | bool b => exact ⟨_, rfl⟩
  | num x => exact ⟨_, rfl⟩
  | object => exact ⟨_, rfl⟩

/-- A filter call raises when its callback raises on an element. -/
theorem Marketplace.filterRecords_raises {p : NFT → Except String Bool} {l : List NFT}
    {x : NFT} (hx : x ∈ l) (h : ∃ e, p x = .error e) :
    ∃ e, Marketplace.filterRecords p l = .error e := by
  cases hr : Marketplace.filterRecords p l with
  | error e => exact ⟨e, rfl⟩
  | ok r =>
    obtain ⟨b, hb⟩ := (Marketplace.filterRecords_ok hr).2 x hx
    obtain ⟨e, he⟩ := h
    rw [he] at hb
    exact Except.noConfusion hb

/-- Ids hidden one after the other are appended to the hidden list. -/
theorem Marketplace.handleHideNFT_foldl (ids hiddenNFTs : List Nat) :
    ids.foldl (fun hidden id => Marketplace.handleHideNFT id hidden) hiddenNFTs
      = hiddenNFTs ++ ids := by
  induction ids generalizing hiddenNFTs with
  | nil => simp
  | cons id rest ih =>
    rw [List.foldl_cons, ih]
    simp [Marketplace.handleHideNFT]

/-- Counterexample to C29: the document of token 1 has the number 5 as its
name; `fetchAllNFTs` builds a record with that name, and on the record list
it leaves, with an empty search term, the filter `all` selects no record
list: it raises the TypeError of `nft.name.toLowerCase`. -/
theorem filter_raises_on_numeric_name :
    (∃ nft rest, (Marketplace.fetchAllNFTs (some sampleLedger) numericNameStore
        Marketplace.initial).nfts = nft :: rest ∧ nft.id = 1 ∧ nft.name = .num (.val 5)) ∧
    (∀ lower : String → String,
      Marketplace.filteredNFTs lower
          (Marketplace.fetchAllNFTs (some sampleLedger) numericNameStore Marketplace.initial).nfts
          "" "all"
        = .error "nft.name.toLowerCase is not a function") :=
  ⟨⟨_, _, rfl, rfl, rfl⟩, fun _ => rfl⟩

/-- C29, amended: for every record list and search term of the marketplace
page and every `toLowerCase`, if the filter `all` selects a list, then
`forSale` selects its records that are for sale and `notForSale` those that
are not, each in the order of the list; the two share no record and every
selected record is in one of them; the selected records are, in the order
of the page state, those whose name or description contains the term, all
in lower case, so the selection does not depend on the case of the term.
`visibleNFTs` is, for every filter, the selected list without the records
whose id is in the hidden list, and `handleHideNFT` adds one id to that
list: after the ids `ids` were hidden, starting from the empty list,
`visibleNFTs` is the selected list without exactly the records whose id is
among `ids`. On a record whose name is not a string the search raises, and
then the three filters raise alike and select nothing. With an empty term,
which `toLowerCase` leaves empty, the filter `all` selects every record of
a list whose names are all strings. -/
theorem marketplace_filters (lower : String → String) (nfts : List NFT) (searchTerm : String)
    (hiddenNFTs : List Nat) :
    (∀ selected, Marketplace.filteredNFTs lower nfts searchTerm "all" = .ok selected →
      Marketplace.filteredNFTs lower nfts searchTerm "forSale"
        = .ok (selected.filter fun nft => nft.isForSale) ∧
      Marketplace.filteredNFTs lower nfts searchTerm "notForSale"
        = .ok (selected.filter fun nft => !nft.isForSale) ∧
      (∀ nft, ¬ (nft ∈ selected.filter (fun nft => nft.isForSale) ∧
        nft ∈ selected.filter (fun nft => !nft.isForSale))) ∧
      (∀ nft, nft ∈ selected ↔ nft ∈ selected.filter (fun nft => nft.isForSale) ∨
        nft ∈ selected.filter (fun nft => !nft.isForSale)) ∧
      (selected.filter fun nft => nft.isForSale).Sublist selected ∧
      (selected.filter fun nft => !nft.isForSale).Sublist selected ∧
      selected.Sublist nfts ∧
      (∀ nft, nft ∈ selected ↔ nft ∈ nfts ∧ ∃ name, nft.name = .str name ∧
        (includes (lower name) (lower searchTerm) = true ∨
          ∃ description, nft.description = .str description ∧
            includes (lower description) (lower searchTerm) = true))) ∧
    (∀ filter selected, Marketplace.filteredNFTs lower nfts searchTerm filter = .ok selected →
      ∃ visible, Marketplace.visibleNFTs lower nfts searchTerm filter hiddenNFTs = .ok visible ∧
        visible.Sublist selected ∧
        ∀ nft, nft ∈ visible ↔ nft ∈ selected ∧ nft.id ∉ hiddenNFTs) ∧
    (∀ id n, n ∈ Marketplace.handleHideNFT id hiddenNFTs ↔ n ∈ hiddenNFTs ∨ n = id) ∧
    (∀ (ids : List Nat) (filter : String) (selected : List NFT),
      Marketplace.filteredNFTs lower nfts searchTerm filter = .ok selected →
      Marketplace.visibleNFTs lower nfts searchTerm filter
          (ids.foldl (fun hidden id => Marketplace.handleHideNFT id hidden) [])
        = .ok (selected.filter fun nft => !ids.contains nft.id)) ∧
    (∀ filter e, Marketplace.filteredNFTs lower nfts searchTerm filter = .error e ↔
      Marketplace.filteredNFTs lower nfts searchTerm "all" = .error e) ∧
    (∀ filter nft, nft ∈ nfts → (∀ name, nft.name ≠ .str name) →
      ∃ e, Marketplace.filteredNFTs lower nfts searchTerm filter = .error e) ∧
    (lower "" = "" → (∀ nft ∈ nfts, ∃ name, nft.name = .str name) →
      Marketplace.filteredNFTs lower nfts "" "all" = .ok nfts) ∧
    (∀ filter term, lower term = lower searchTerm →
      Marketplace.filteredNFTs lower nfts term filter
        = Marketplace.filteredNFTs lower nfts searchTerm filter) := by
  refine ⟨?_, ?_, ?_, ?_, ?_, ?_, ?_, ?_⟩
  · intro selected h
    obtain ⟨hsel, hok⟩ := Marketplace.filterRecords_ok h
    have hm : ∀ x ∈ nfts, ∃ m, Marketplace.matchesSearch lower searchTerm x = .ok m := by
      intro x hx
      obtain ⟨b, hb⟩ := hok x hx
      cases hms : Marketplace.matchesSearch lower searchTerm x with
      | error e =>
        rw [(Marketplace.keeps_error lower searchTerm "all" x e).mpr hms] at hb
        exact Except.noConfusion hb
      | ok m => exact ⟨m, rfl⟩
    have hall : ∀ x ∈ nfts, decide (Marketplace.keeps lower searchTerm "all" x = .ok true)
        = decide (Marketplace.matchesSearch lower searchTerm x = .ok true) := by
      intro x hx
      obtain ⟨m, hmx⟩ := hm x hx
      rw [(Marketplace.keeps_of_matches hmx).1, hmx]
    have hsel2 : selected
        = nfts.filter fun x =>
            decide (Marketplace.matchesSearch lower searchTerm x = .ok true) := by
      rw [hsel]
      exact List.filter_congr hall
    have hfs : Marketplace.filteredNFTs lower nfts searchTerm "forSale"
        = .ok (selected.filter fun nft => nft.isForSale) := by
      unfold Marketplace.filteredNFTs
      rw [Marketplace.filterRecords_of_ok (fun x hx => by
        obtain ⟨m, hmx⟩ := hm x hx
        exact ⟨_, (Marketplace.keeps_of_matches hmx).2.1⟩), hsel2, List.filter_filter]
      congr 1
      apply List.filter_congr
      intro x hx
      obtain ⟨m, hmx⟩ := hm x hx
      rw [(Marketplace.keeps_of_matches hmx).2.1, hmx]
      cases m <;> cases x.isForSale <;> decide
    have hnfs : Marketplace.filteredNFTs lower nfts searchTerm "notForSale"
        = .ok (selected.filter fun nft => !nft.isForSale) := by
      unfold Marketplace.filteredNFTs
      rw [Marketplace.filterRecords_of_ok (fun x hx => by
        obtain ⟨m, hmx⟩ := hm x hx
        exact ⟨_, (Marketplace.keeps_of_matches hmx).2.2⟩), hsel2, List.filter_filter]
      congr 1
      apply List.filter_congr
      intro x hx
      obtain ⟨m, hmx⟩ := hm x hx
      rw [(Marketplace.keeps_of_matches hmx).2.2, hmx]
      cases m <;> cases x.isForSale <;> decide
    refine ⟨hfs, hnfs, ?_, ?_, List.filter_sublist _, List.filter_sublist _, ?_, ?_⟩
    · rintro nft ⟨h1, h2⟩
      have h3 := (List.mem_filter.mp h1).2
      have h4 := (List.mem_filter.mp h2).2
      rw [h3] at h4
      exact absurd h4 (by decide)
    · intro nft
      simp only [List.mem_filter]
      cases nft.isForSale <;> simp
    · rw [hsel2]
      exact List.filter_sublist _
    · intro nft
      rw [hsel2, List.mem_filter, decide_eq_true_eq, Marketplace.matchesSearch_true]
  · intro filter selected h
    refine ⟨selected.filter fun nft => !hiddenNFTs.contains nft.id, ?_, List.filter_sublist _, ?_⟩
    · simp only [Marketplace.visibleNFTs, h]
    · intro nft
      simp [List.mem_filter]
  · intro id n
    simp [Marketplace.handleHideNFT]
  · intro ids filter selected h
    rw [Marketplace.handleHideNFT_foldl, List.nil_append]
    simp only [Marketplace.visibleNFTs, h]
  · intro filter e
    unfold Marketplace.filteredNFTs
    exact Marketplace.filterRecords_error (fun x e1 =>
      (Marketplace.keeps_error lower searchTerm filter x e1).trans
        (Marketplace.keeps_error lower searchTerm "all" x e1).symm) nfts e
  · intro filter nft hmem hname
    unfold Marketplace.filteredNFTs
    refine Marketplace.filterRecords_raises hmem ?_
    obtain ⟨e, he⟩ := Marketplace.matchesSearch_error_of_name lower searchTerm nft hname
    exact ⟨e, (Marketplace.keeps_error lower searchTerm filter nft e).mpr he⟩
  · intro hlower hnames
    unfold Marketplace.filteredNFTs
    have hk : ∀ x ∈ nfts, Marketplace.keeps lower "" "all" x = .ok true := by
      intro x hx
      obtain ⟨name, hname⟩ := hnames x hx
      have hmx : Marketplace.matchesSearch lower "" x = .ok true :=
        (Marketplace.matchesSearch_true lower "" x).mpr
          ⟨name, hname, Or.inl (by
            rw [hlower]
            exact (includes_iff _ _).mpr ⟨[], (lower name).data, rfl⟩)⟩
      exact (Marketplace.keeps_of_matches hmx).1
    rw [Marketplace.filterRecords_of_ok (fun x hx => ⟨true, hk x hx⟩)]
    congr 1
    rw [List.filter_eq_self]
    intro x hx
    rw [hk x hx]
    rfl
  · intro filter term hterm
    unfold Marketplace.filteredNFTs
    congr 1
    funext x
    simp only [Marketplace.keeps, Marketplace.matchesSearch, hterm]

/-- Witness of C29: the term "Bowl" selects the unlisted bowl by its
description, whatever the case; `forSale` then selects nothing and
`notForSale` the bowl; the empty term selects both sample records; the term
"café" selects the pot named "CAFÉ pot"; and once id 7 is hidden the pot is
no longer visible. -/
theorem marketplace_filters_witness :
    Marketplace.filteredNFTs latin1Lower sampleRecords "Bowl" "all"
      = .ok (sampleRecords.drop 1) ∧
    Marketplace.filteredNFTs latin1Lower sampleRecords "Bowl" "forSale"
      = .ok ((sampleRecords.drop 1).filter fun nft => nft.isForSale) ∧
    Marketplace.filteredNFTs latin1Lower sampleRecords "Bowl" "notForSale"
      = .ok ((sampleRecords.drop 1).filter fun nft => !nft.isForSale) ∧
    Marketplace.filteredNFTs latin1Lower sampleRecords "" "all" = .ok sampleRecords ∧
    Marketplace.filteredNFTs latin1Lower accentRecords "café" "all"
      = .ok (accentRecords.take 1) ∧
    Marketplace.visibleNFTs latin1Lower accentRecords "café" "all"
        ([7].foldl (fun hidden id => Marketplace.handleHideNFT id hidden) [])
      = .ok ((accentRecords.take 1).filter fun nft => !([7] : List Nat).contains nft.id) :=
  ⟨by decide,
   ((marketplace_filters latin1Lower sampleRecords "Bowl" []).1 (sampleRecords.drop 1)
      (by decide)).1,
   ((marketplace_filters latin1Lower sampleRecords "Bowl" []).1 (sampleRecords.drop 1)
      (by decide)).2.1,
   (marketplace_filters latin1Lower sampleRecords "Bowl" []).2.2.2.2.2.2.1 (by decide)
     (by intro nft h; simp only [sampleRecords, List.mem_cons, List.mem_singleton] at h
         rcases h with rfl | rfl | h
         · exact ⟨_, rfl⟩
         · exact ⟨_, rfl⟩
         · exact absurd h (List.not_mem_nil _)),
   by decide,
   (marketplace_filters latin1Lower accentRecords "café" []).2.2.2.1 [7] "all"
     (accentRecords.take 1) (by decide)⟩

/-! ## The session when a handler runs during another's role check -/

/-- The steps of `connectWallet()` before its role check are the ones
`connectWalletUntilRoleCheck` makes: when these succeed, `connectWallet`
ends with the role check on their state. -/
theorem Session.connectWallet_of_untilRoleCheck {b : Browser} {s s1 : Session}
    {first : String} {c : ContractHandle}
    (h : Session.connectWalletUntilRoleCheck b s = some (first, c, s1)) :
    Session.connectWallet b s = (true, { Session.checkRoles first c s1 with loading := false }) := by
  cases hb : b.ethereum with
  | none => simp [Session.connectWalletUntilRoleCheck, hb] at h
  | some ethereum =>
    cases h1 : ethereum.requestAccounts with
    | error e => simp [Session.connectWalletUntilRoleCheck, hb, h1] at h
    | ok accounts =>
      cases accounts with
      | nil => simp [Session.connectWalletUntilRoleCheck, hb, h1] at h
      | cons a rest =>
        cases h2 : ethereum.getSigner with
        | error e => simp [Session.connectWalletUntilRoleCheck, hb, h1, h2] at h
        | ok signer =>
          cases h3 : ethereum.getNetwork with
          | error e => simp [Session.connectWalletUntilRoleCheck, hb, h1, h2, h3] at h
          | ok chainId =>
            cases h4 : b.contractTarget with
            | error e => simp [Session.connectWalletUntilRoleCheck, hb, h1, h2, h3, h4] at h
            | ok ledger =>
              simp only [Session.connectWalletUntilRoleCheck, hb, h1, h2, h3, h4,
                Option.some.injEq, Prod.mk.injEq] at h
              obtain ⟨rfl, rfl, rfl⟩ := h
              simp only [Session.connectWallet, hb, h1, h2, h3, h4]

/-- The state an interrupted `connectWallet()` leaves when the provider
reports an empty account list during the role check and the four role
queries answer: no account, and the flags of the account the check was
started for. -/
theorem Session.connectWalletInterrupted_empty {b : Browser} {s s1 : Session}
    {first : String} {c : ContractHandle} {adminRole artisanRole : String} {a r : Bool}
    (h : Session.connectWalletUntilRoleCheck b s = some (first, c, s1))
    (h1 : c.ledger.roles.ADMIN_ROLE = .ok adminRole)
    (h2 : c.ledger.roles.ARTISAN_ROLE = .ok artisanRole)
    (h3 : c.ledger.roles.hasRole adminRole first = .ok a)
    (h4 : c.ledger.roles.hasRole artisanRole first = .ok r) :
    Session.connectWalletInterrupted b [] s
      = some { s1 with account := none, isAdmin := a, isArtisan := r, loading := false } := by
  simp only [Session.connectWalletInterrupted, h, Session.onAccountsChanged,
    Session.handleAccountsChanged, Session.checkRoles, h1, h2, h3, h4]

/-- C20, as the code has it: when the four operations run one after the
other, each to its end, `account = null` implies that both flags are false
in every state reached. But `connectWallet()` is suspended at
`await checkRoles(…)`: when the provider reports an empty account list
meanwhile, the listener clears the account and the flags, and the role
check then sets the flags the ledger answers for the account it was started
for, so the session is left with no account and these flags, where the
uninterrupted `connectWallet()` leaves that account with them. So it is
for the administrator of the sample deployment, who connects in the state
`init` left: no account and `isAdmin = true`. -/
theorem flags_outlive_account :
    (∀ s, Session.Reachable s → s.account = none → s.isAdmin = false ∧ s.isArtisan = false) ∧
    (∀ (b : Browser) (s s1 : Session) (first : String) (c : ContractHandle)
        (adminRole artisanRole : String) (a r : Bool),
      Session.connectWalletUntilRoleCheck b s = some (first, c, s1) →
      c.ledger.roles.ADMIN_ROLE = .ok adminRole →
      c.ledger.roles.ARTISAN_ROLE = .ok artisanRole →
      c.ledger.roles.hasRole adminRole first = .ok a →
      c.ledger.roles.hasRole artisanRole first = .ok r →
      s1.account = some first ∧
      Session.connectWallet b s
        = (true, { s1 with isAdmin := a, isArtisan := r, loading := false }) ∧
      ∃ s2, Session.connectWalletInterrupted b [] s = some s2 ∧
        s2.account = none ∧ s2.isAdmin = a ∧ s2.isArtisan = r) ∧
    (Session.init freshBrowser Session.initial).account = none ∧
    (∃ s2, Session.connectWalletInterrupted freshBrowser []
        (Session.init freshBrowser Session.initial) = some s2 ∧
      s2.account = none ∧ s2.isAdmin = true ∧ s2.isArtisan = false) := by
  refine ⟨fun s hs hacc => flags_false_without_account s hs hacc, ?_, rfl, ⟨_, rfl, rfl, rfl, rfl⟩⟩
  intro b s s1 first c adminRole artisanRole a r h h1 h2 h3 h4
  refine ⟨?_, ?_, ⟨_, Session.connectWalletInterrupted_empty h h1 h2 h3 h4, rfl, rfl, rfl⟩⟩
  · cases hb : b.ethereum with
    | none => simp [Session.connectWalletUntilRoleCheck, hb] at h
    | some ethereum =>
      cases e1 : ethereum.requestAccounts with
      | error e => simp [Session.connectWalletUntilRoleCheck, hb, e1] at h
      | ok accounts =>
        cases accounts with
        | nil => simp [Session.connectWalletUntilRoleCheck, hb, e1] at h
        | cons x rest =>
          cases e2 : ethereum.getSigner with
          | error e => simp [Session.connectWalletUntilRoleCheck, hb, e1, e2] at h
          | ok signer =>
            cases e3 : ethereum.getNetwork with
            | error e => simp [Session.connectWalletUntilRoleCheck, hb, e1, e2, e3] at h
            | ok chainId =>
              cases e4 : b.contractTarget with
              | error e => simp [Session.connectWalletUntilRoleCheck, hb, e1, e2, e3, e4] at h
              | ok ledger =>
                simp only [Session.connectWalletUntilRoleCheck, hb, e1, e2, e3, e4,
                  Option.some.injEq, Prod.mk.injEq] at h
                obtain ⟨rfl, rfl, rfl⟩ := h
                rfl
  · rw [Session.connectWallet_of_untilRoleCheck h, Session.checkRoles_of_reads s1 h1 h2 h3 h4]

/-- Witness of C20: the administrator connects and disconnects, and the
state then reached has no account and no flag; the same administrator,
whose connection is interrupted by an empty account list, is left with no
account and the administrator flag. -/
theorem flags_outlive_account_witness :
    ((Session.disconnectWallet
        (Session.connectWallet sampleBrowser Session.initial).2).isAdmin = false ∧
      (Session.disconnectWallet
        (Session.connectWallet sampleBrowser Session.initial).2).isArtisan = false) ∧
    (Session.connectWallet sampleBrowser Session.initial).2.account = some "0xAd01" ∧
    (Session.connectWallet sampleBrowser Session.initial).2.isAdmin = true ∧
    (∃ s2, Session.connectWalletInterrupted sampleBrowser [] Session.initial = some s2 ∧
      s2.account = none ∧ s2.isAdmin = true ∧ s2.isArtisan = false) :=
  have h := flags_outlive_account.2.1 sampleBrowser Session.initial
    { Session.initial with
        loading := true, account := some "0xAd01", provider := some sampleEthereum,
        signer := some { address := "0xAd01" }, networkId := some 31337,
        contract := some sampleHandle }
    "0xAd01" sampleHandle "0x00" "0x01" true false rfl rfl rfl rfl rfl
  ⟨flags_outlive_account.1 _
      (Session.Reachable.disconnectWallet
        (Session.Reachable.connectWallet sampleBrowser Session.Reachable.initial)) rfl,
   by rw [h.2.1], by rw [h.2.1], h.2.2⟩

/-! ## The details page without a document -/

/-- The first request writes nothing but `ipfsMetadata`. -/
theorem NFTDetails.firstRequest_some {w : World} {uri : String} {s s' : NFTDetails.State}
    (h : NFTDetails.firstRequest w uri s = some s') :
    s'.meta = s.meta ∧ s'.imageUrl = s.imageUrl ∧
      (s'.ipfsMetadata = s.ipfsMetadata ∨
        (startsWith uri "ipfs://" = true ∧ s'.ipfsMetadata = Marketplace.fetchMetadata w uri)) := by
  by_cases hc : (uri ≠ "" && startsWith uri "ipfs://") = true
  · have hscheme : startsWith uri "ipfs://" = true := by
      simp only [Bool.and_eq_true] at hc
      exact hc.2
    have hne : uri ≠ "" := by
      intro h0
      rw [h0] at hscheme
      exact absurd hscheme (by decide)
    unfold NFTDetails.firstRequest at h
    rw [if_pos hc] at h
    unfold Marketplace.fetchMetadata
    rw [if_neg hne]
    simp only [hscheme, if_true, ← gateway_url_eq uri hscheme]
    cases hf : w.fetch ("https://ipfs.io/ipfs/" ++ replaceFirst uri "ipfs://" "") with
    | error e => simp [hf] at h
    | ok response =>
      simp only [hf] at h
      by_cases hok : response.ok = true
      · rw [if_pos hok] at h
        cases hj : response.json with
        | error e => simp [hj] at h
        | ok metadata =>
          simp only [hj, Option.some.injEq] at h
          rw [← h]
          refine ⟨rfl, rfl, Or.inr ⟨trivial, ?_⟩⟩
          simp [hok, hj]
      · rw [if_neg hok] at h
        rw [← Option.some.inj h]
        exact ⟨rfl, rfl, Or.inl rfl⟩
  · unfold NFTDetails.firstRequest at h
    rw [if_neg hc] at h
    rw [← Option.some.inj h]
    exact ⟨rfl, rfl, Or.inl rfl⟩

/-- The first request raises exactly when, for an `ipfs://` locator, the
public gateway cannot be reached or its ok answer is no JSON. -/
theorem NFTDetails.firstRequest_none {w : World} {uri : String} (s : NFTDetails.State)
    (hscheme : startsWith uri "ipfs://" = true)
    (h : (∃ e, w.fetch ("https://ipfs.io/ipfs/" ++ replaceFirst uri "ipfs://" "") = .error e) ∨
      ∃ response e, w.fetch ("https://ipfs.io/ipfs/" ++ replaceFirst uri "ipfs://" "")
        = .ok response ∧ response.ok = true ∧ response.json = .error e) :
    NFTDetails.firstRequest w uri s = none := by
  have hne : uri ≠ "" := by
    intro h0
    rw [h0] at hscheme
    exact absurd hscheme (by decide)
  have hc : (uri ≠ "" && startsWith uri "ipfs://") = true := by
    simp [hne, hscheme]
  unfold NFTDetails.firstRequest
  rw [if_pos hc]
  rcases h with ⟨e, he⟩ | ⟨response, e, hf, hok, hj⟩
  · simp only [he]
  · simp only [hf, hok, if_true, hj]

/-- The second request leaves the state as it is when it gives no document. -/
theorem NFTDetails.secondRequest_of_no_document (w : World) (uri : String)
    (s : NFTDetails.State)
    (h : ∀ response document, w.fetch (NFTDetails.pinataUrl uri) = .ok response →
      response.json ≠ .ok document) :
    NFTDetails.secondRequest w uri s = s := by
  cases hf : w.fetch (NFTDetails.pinataUrl uri) with
  | error e => simp only [NFTDetails.secondRequest, hf]
  | ok response =>
    cases hj : response.json with
    | error e => simp only [NFTDetails.secondRequest, hf, hj]
    | ok document => exact absurd hj (h response document hf)

/-- Without a document from the public gateway the state `ipfsMetadata` of
the details page stays `null`. -/
theorem NFTDetails.fetchData_ipfsMetadata_null (c : ContractHandle) (w : World) (id : Nat)
    (uri : String) (huri : c.ledger.reads.tokenURI id = .ok uri)
    (hnull : Marketplace.fetchMetadata w uri = .null) :
    (NFTDetails.fetchData (some c) w id NFTDetails.initial).ipfsMetadata = .null := by
  cases hm : c.ledger.reads.getItemMetadata id with
  | error e => simp only [NFTDetails.fetchData, hm]; rfl
  | ok m =>
    cases hpv : c.ledger.getProvenance id with
    | error e => simp only [NFTDetails.fetchData, hm, hpv]; rfl
    | ok pv =>
      cases hf : NFTDetails.firstRequest w uri
          { NFTDetails.initial with meta := .onChain m, provenance := pv,
                                    tokenURI := some uri } with
      | none => simp only [NFTDetails.fetchData, hm, hpv, huri, hf]; rfl
      | some s' =>
        simp only [NFTDetails.fetchData, hm, hpv, huri, hf]
        rw [NFTDetails.secondRequest_ipfsMetadata]
        rcases (NFTDetails.firstRequest_some hf).2.2 with h | ⟨_, h⟩
        · rw [h]; rfl
        · rw [h, hnull]

/-- C6, amended: when `fetchMetadata` yields `null` for the locator of a
token, the record of `Marketplace.fetchNFTData` is named `NFT #` followed by
the id and has the image `https://via.placeholder.com/300?text=No+Image`,
and its description, materials and artisan details are the on-ledger strings
wherever those are non-empty. The page `NFTDetails.fetchData` leaves for
that token has, whenever it shows fields, the heading `NFT #` followed by
the id; and when its own requests give no document either (the first one
raises, or the second one, to the Pinata gateway, cannot be made or its
body is no JSON), the page shows the 400-pixel placeholder as its image and
the on-ledger description, materials, artisan details and date. -/
theorem fallback_placeholders (c : ContractHandle) (w : World) (dateOfValue : JsVal → String)
    (tokenId : Nat) (uri : String)
    (huri : c.ledger.reads.tokenURI tokenId = .ok uri)
    (hnull : Marketplace.fetchMetadata w uri = .null) :
    (∀ r, Marketplace.fetchNFTData c.ledger.reads w tokenId = some r →
      r.name = .str ("NFT #" ++ toString tokenId) ∧
      r.image = .str "https://via.placeholder.com/300?text=No+Image" ∧
      (∀ m, c.ledger.reads.getItemMetadata tokenId = .ok m →
        (m.description ≠ "" → r.description = .str m.description) ∧
        (m.materials ≠ "" → r.materials = .str m.materials) ∧
        (m.artisanDetails ≠ "" → r.artisanDetails = .str m.artisanDetails))) ∧
    (∀ shown, NFTDetails.view w dateOfValue (toString tokenId)
        (NFTDetails.fetchData (some c) w tokenId NFTDetails.initial) = some shown →
      shown.name = .str ("NFT #" ++ toString tokenId)) ∧
    (∀ m provenance, c.ledger.reads.getItemMetadata tokenId = .ok m →
      c.ledger.getProvenance tokenId = .ok provenance →
      ((startsWith uri "ipfs://" = true ∧
          ((∃ e, w.fetch ("https://ipfs.io/ipfs/" ++ replaceFirst uri "ipfs://" "") = .error e) ∨
            ∃ response e, w.fetch ("https://ipfs.io/ipfs/" ++ replaceFirst uri "ipfs://" "")
              = .ok response ∧ response.ok = true ∧ response.json = .error e)) ∨
        (∀ response document, w.fetch (NFTDetails.pinataUrl uri) = .ok response →
          response.json ≠ .ok document)) →
      NFTDetails.view w dateOfValue (toString tokenId)
          (NFTDetails.fetchData (some c) w tokenId NFTDetails.initial)
        = some { name := .str ("NFT #" ++ toString tokenId)
                 description := .str m.description
                 materials := .str m.materials
                 artisanDetails := .str m.artisanDetails
                 creationDate := w.localeDate m.creationDate
                 image := "https://via.placeholder.com/400?text=No+Image" }) := by
  refine ⟨?_, ?_, ?_⟩
  · intro r hr
    obtain ⟨owner, uri', b, p, pn, _, h2, _, _, hr⟩ := Marketplace.fetchNFTData_eq_some hr
    rw [huri] at h2
    have huri' : uri' = uri := (Except.ok.inj h2).symm
    subst huri'
    rw [hnull] at hr
    refine ⟨by rw [hr]; rfl, by rw [hr]; rfl, ?_⟩
    intro m hm
    have hon : Marketplace.onChainMetadata c.ledger.reads tokenId = some m := by
      unfold Marketplace.onChainMetadata
      rw [hm]
    rw [hon] at hr
    refine ⟨?_, ?_, ?_⟩
    · intro hne
      rw [hr]
      show ((JsVal.str m.description).or _).or _ = _
      rw [JsVal.str_or hne, JsVal.str_or hne]
    · intro hne
      rw [hr]
      exact JsVal.str_or hne _
    · intro hne
      rw [hr]
      exact JsVal.str_or hne _
  · intro shown hshown
    have hi := NFTDetails.fetchData_ipfsMetadata_null c w tokenId uri huri hnull
    generalize NFTDetails.fetchData (some c) w tokenId NFTDetails.initial = S at hi hshown
    unfold NFTDetails.view at hshown
    by_cases hfalsy : S.meta.falsy = true
    · rw [if_pos hfalsy] at hshown
      exact Option.noConfusion hshown
    · rw [if_neg hfalsy] at hshown
      rw [← Option.some.inj hshown, hi]
      rfl
  · intro m provenance hm hpv hfail
    have hS : NFTDetails.fetchData (some c) w tokenId NFTDetails.initial
          = { NFTDetails.initial with meta := .onChain m, provenance := provenance,
                                      tokenURI := some uri } ∨
        ∃ s', NFTDetails.fetchData (some c) w tokenId NFTDetails.initial = s' ∧
          s'.meta = .onChain m ∧ s'.imageUrl = none := by
      unfold NFTDetails.fetchData
      simp only [hm, hpv, huri]
      cases hf : NFTDetails.firstRequest w uri
          { NFTDetails.initial with meta := .onChain m, provenance := provenance,
                                    tokenURI := some uri } with
      | none => exact Or.inl rfl
      | some s' =>
        right
        rcases hfail with ⟨hscheme, hraise⟩ | hno
        · rw [NFTDetails.firstRequest_none _ hscheme hraise] at hf
          exact Option.noConfusion hf
        · refine ⟨_, rfl, ?_, ?_⟩
          · show (NFTDetails.secondRequest w uri s').meta = _
            rw [NFTDetails.secondRequest_of_no_document w uri s' hno,
              (NFTDetails.firstRequest_some hf).1]
          · show (NFTDetails.secondRequest w uri s').imageUrl = _
            rw [NFTDetails.secondRequest_of_no_document w uri s' hno,
              (NFTDetails.firstRequest_some hf).2.1]
            rfl
    have hi := NFTDetails.fetchData_ipfsMetadata_null c w tokenId uri huri hnull
    have hmeta : (NFTDetails.fetchData (some c) w tokenId NFTDetails.initial).meta
        = .onChain m := by
      rcases hS with h | ⟨s', h, h1, _⟩
      · rw [h]
      · rw [h, h1]
    have himg : (NFTDetails.fetchData (some c) w tokenId NFTDetails.initial).imageUrl = none := by
      rcases hS with h | ⟨s', h, _, h2⟩
      · rw [h]; rfl
      · rw [h, h2]
    generalize NFTDetails.fetchData (some c) w tokenId NFTDetails.initial = S at hi hmeta himg
    unfold NFTDetails.view
    rw [hmeta, himg, hi]
    rfl

/-- The premise on the requests of the page is needed for its image: with
the public gateway answering 504 and the Pinata gateway serving the sample
document, `fetchMetadata` yields `null` for token 1 and the page still shows
the heading `NFT #1`, but with the image and the fields of the document. -/
theorem details_image_from_second_gateway :
    Marketplace.fetchMetadata secondGatewayStore "ipfs://QmVase" = .null ∧
    ∃ shown, NFTDetails.view secondGatewayStore (fun _ => "Invalid Date") (toString 1)
        (NFTDetails.fetchData (some sampleHandle) secondGatewayStore 1 NFTDetails.initial)
        = some shown ∧
      shown.name = .str "NFT #1" ∧
      shown.image = "https://gateway.pinata.cloud/ipfs/QmImg" ∧
      shown.description = .str "A vase" ∧ shown.materials = .undefined :=
  ⟨rfl, _, rfl, rfl, rfl, rfl, rfl⟩

/-- Witness of C6: token 1 of the sample deployment with the content store
unreachable; the record and the details page fall back to `NFT #1`, their
placeholders and the on-ledger fields. -/
theorem fallback_placeholders_witness :
    sampleHandle.ledger.reads.tokenURI 1 = .ok "ipfs://QmVase" ∧
    Marketplace.fetchMetadata offlineStore "ipfs://QmVase" = .null ∧
    (∃ r, Marketplace.fetchNFTData sampleHandle.ledger.reads offlineStore 1 = some r ∧
      r.name = .str "NFT #1" ∧
      r.image = .str "https://via.placeholder.com/300?text=No+Image" ∧
      r.description = .str "Hand-thrown vase") ∧
    NFTDetails.view offlineStore (fun _ => "Invalid Date") (toString 1)
        (NFTDetails.fetchData (some sampleHandle) offlineStore 1 NFTDetails.initial)
      = some { name := .str "NFT #1"
               description := .str "Hand-thrown vase"
               materials := .str "Clay"
               artisanDetails := .str "Asha"
               creationDate := "day 19675"
               image := "https://via.placeholder.com/400?text=No+Image" } :=
  have h := fallback_placeholders sampleHandle offlineStore (fun _ => "Invalid Date") 1
    "ipfs://QmVase" rfl rfl
  have hr := h.1 _ rfl
  ⟨rfl, rfl, ⟨_, rfl, hr.1, hr.2.1, (hr.2.2 sampleMetadata rfl).1 (by decide)⟩,
   h.2.2 sampleMetadata ["0xAbCd"] rfl rfl (Or.inr (fun response document hf _ => by
     have : offlineStore.fetch (NFTDetails.pinataUrl "ipfs://QmVase")
         = .error "Failed to fetch" := rfl
     rw [this] at hf
     exact Except.noConfusion hf))⟩

end ArtisanDapp
